import Mathlib

/-!
Direct transcription (drake/planning/trajectory_optimization/direct_transcription.cc)

A shallow embedding of the transcription builder and of its per-step dynamics
constraint.

Conventions of the embedding.

* A finite `double` is held as a rational number. The arithmetic that the
  transcribed source performs on doubles (the products `i * fixed_time_step()`,
  `(i + 1) * fixed_time_step()`, `time_period * i` and the sum
  `evaluation_time_ + fixed_time_step_`) rounds to binary64 (`binary64.mul`,
  `binary64.add`); an overflow of these times is not represented. The revolute
  joint, whose arguments may be infinite, uses the type `Double` with
  infinities and NaN.
* The three scalar domains of the source are `ℚ` (double), `Expression`
  (symbolic) and a type parameter `T` standing for `AutoDiffXd`: the code only
  uses ring operations and the injection of doubles on it. The arithmetic of
  expressions is exact, that of `T` is the one of the instance: `ℚ` for exact
  values, `Double` for binary64 values. The one subtraction of constants that
  the symbolic path performs is that of the times of two neighbouring samples,
  whose difference is itself a double (Sterbenz), so that folding it exactly
  is folding it in binary64.
* Exceptions and failed demands are values of `Except Error`. The symbolic
  fast path, which mutates the program before it may throw, returns the builder
  reached so far together with its outcome.
* Pointers into builder-owned storage are addresses into `heap`.
-/

namespace drake

/-! ## Failures -/

/-- Ways in which the transcribed code stops. -/
inductive Error
  /-- Thrown `std::logic_error`. -/
  | logic_error
  /-- Thrown `std::invalid_argument`. -/
  | invalid_argument
  /-- A failed `DRAKE_DEMAND`. -/
  | demand_failed
  /-- A failed `DRAKE_THROW_UNLESS`. -/
  | throw_unless_failed
  /-- Thrown `std::runtime_error`. -/
  | runtime_error
  /-- Use of a null pointer. -/
  | null_pointer
  deriving DecidableEq, Repr

/-- The guard `DRAKE_DEMAND(cond)`. -/
def DRAKE_DEMAND (cond : Bool) : Except Error Unit :=
  if cond then .ok () else .error .demand_failed

/-- The guard `DRAKE_THROW_UNLESS(cond)`. -/
def DRAKE_THROW_UNLESS (cond : Bool) : Except Error Unit :=
  if cond then .ok () else .error .throw_unless_failed

instance {ε α : Type} [DecidableEq ε] [DecidableEq α] : DecidableEq (Except ε α) :=
  fun a b =>
    match a, b with
    | .ok x, .ok y =>
      if h : x = y then isTrue (by rw [h]) else isFalse (fun h2 => h (Except.ok.inj h2))
    | .error x, .error y =>
      if h : x = y then isTrue (by rw [h]) else isFalse (fun h2 => h (Except.error.inj h2))
    | .ok _, .error _ => isFalse (fun h => Except.noConfusion h)
    | .error _, .ok _ => isFalse (fun h => Except.noConfusion h)

/-! ## Binary64 arithmetic (the type `double`) -/

namespace binary64

/-- The integer nearest to `n / d`, ties to the even one. -/
def roundHalfEven (n d : Nat) : Nat :=
  let q := n / d
  let r := n % d
  if 2 * r < d then q else if d < 2 * r then q + 1 else if q % 2 = 0 then q else q + 1

/-- The number of times `n` can be halved before it drops below 2, with `fuel`
halvings allowed: `⌊log₂ n⌋` for `fuel ≥ n ≥ 1`. -/
def log2Fuel : Nat → Nat → Nat
  | 0, _ => 0
  | fuel + 1, n => if 2 ≤ n then log2Fuel fuel (n / 2) + 1 else 0

/-- The exponent `e` with `2 ^ e ≤ n / d < 2 ^ (e + 1)`, for positive `n`, `d`. -/
def floorLog2 (n d : Nat) : Int :=
  let e0 : Int := (log2Fuel n n : Int) - (log2Fuel d d : Int)
  if (if 0 ≤ e0 then d * 2 ^ e0.toNat ≤ n else d ≤ n * 2 ^ (-e0).toNat) then e0 else e0 - 1

/-- Rounding to binary64, to nearest with ties to even: the multiple of the unit
in the last place (53 significant bits, exponents from -1022 on, so gradual
underflow) nearest to `q`. The range is not bounded above: a result of magnitude
`2 ^ 1024` or more stands for an overflow. -/
def round (q : ℚ) : ℚ :=
  if q = 0 then 0 else
    let n := q.num.natAbs
    let d := q.den
    let s : Int := max (floorLog2 n d) (-1022) - 52
    let r : ℚ :=
      if 0 ≤ s then ((roundHalfEven n (d * 2 ^ s.toNat) * 2 ^ s.toNat : Nat) : ℚ)
      else (roundHalfEven (n * 2 ^ (-s).toNat) d : ℚ) / ((2 ^ (-s).toNat : Nat) : ℚ)
    if q < 0 then -r else r

/-- The largest finite `double`. -/
def maxFinite : ℚ := (2 ^ 53 - 1) * 2 ^ 971

/-- The `double` product `a * b` of two finite doubles, short of overflow. -/
def mul (a b : ℚ) : ℚ := round (a * b)

/-- The `double` sum `a + b` of two finite doubles, short of overflow. -/
def add (a b : ℚ) : ℚ := round (a + b)

/-- The integer square root by bisection on the bits `k-1..0`, from the partial
root `r`. -/
def isqrtAux (n : Nat) : Nat → Nat → Nat
  | 0, r => r
  | k + 1, r => if (r + 2 ^ k) * (r + 2 ^ k) ≤ n then isqrtAux n k (r + 2 ^ k) else isqrtAux n k r

/-- The integer square root `⌊√n⌋`. -/
def isqrt (n : Nat) : Nat := isqrtAux n (log2Fuel n n / 2 + 1) 0

/-- The correctly rounded square root of a positive rational: `√q` truncated to
a multiple of `2 ^ -1075` (a grid holding every double and every midpoint of two
neighbouring doubles), moved half a grid step up when the truncation is inexact,
then rounded. -/
def sqrt (q : ℚ) : ℚ :=
  let n := q.num.natAbs
  let d := q.den
  let m := isqrt (n * 4 ^ 1075 / d)
  let sticky : Nat := if m * m * d = n * 4 ^ 1075 then 0 else 1
  round (((2 * m + sticky : Nat) : ℚ) / ((2 ^ 1076 : Nat) : ℚ))

end binary64

/-- A value of the type `double`: a finite number (held as a rational, which
is a double when it is a fixed point of `binary64.round` of magnitude at most
`binary64.maxFinite`), an infinity, or a NaN. The sign of zero is not kept. -/
inductive Double
  | finite (value : ℚ)
  | infinity
  | neg_infinity
  | nan
  deriving DecidableEq, Repr

namespace Double

/-- The double that a real result `q` rounds to: overflow gives an infinity. -/
def ofRat (q : ℚ) : Double :=
  let r := binary64.round q
  if binary64.maxFinite < r then infinity
  else if r < -binary64.maxFinite then neg_infinity
  else finite r

def neg : Double → Double
  | finite a => finite (-a)
  | infinity => neg_infinity
  | neg_infinity => infinity
  | nan => nan

def add : Double → Double → Double
  | finite a, finite b => ofRat (a + b)
  | nan, _ => nan
  | _, nan => nan
  | infinity, neg_infinity => nan
  | neg_infinity, infinity => nan
  | infinity, _ => infinity
  | _, infinity => infinity
  | neg_infinity, _ => neg_infinity
  | _, neg_infinity => neg_infinity

def sub (a b : Double) : Double := add a (neg b)

/-- The sign of a non-NaN double: `-1`, `0` or `1`. -/
def sign : Double → Int
  | finite a => if a < 0 then -1 else if a = 0 then 0 else 1
  | infinity => 1
  | neg_infinity => -1
  | nan => 0

def mul : Double → Double → Double
  | finite a, finite b => ofRat (a * b)
  | nan, _ => nan
  | _, nan => nan
  | a, b =>
    if sign a * sign b = 0 then nan
    else if 0 < sign a * sign b then infinity else neg_infinity

/-- The quotient; a division by zero takes the zero as positive. -/
def div : Double → Double → Double
  | nan, _ => nan
  | _, nan => nan
  | finite a, finite b =>
    if b = 0 then
      if a = 0 then nan else if 0 < a then infinity else neg_infinity
    else ofRat (a / b)
  | finite _, _ => finite 0
  | a, finite b => if 0 < sign a * (if b < 0 then -1 else 1) then infinity else neg_infinity
  | _, _ => nan

def sqrt : Double → Double
  | finite a => if a < 0 then nan else if a = 0 then finite 0 else ofRat (binary64.sqrt a)
  | infinity => infinity
  | neg_infinity => nan
  | nan => nan

def abs : Double → Double
  | finite a => finite |a|
  | infinity => infinity
  | neg_infinity => infinity
  | nan => nan

/-- The comparison `a < b`, false when either side is a NaN. -/
def lt : Double → Double → Bool
  | finite a, finite b => decide (a < b)
  | nan, _ => false
  | _, nan => false
  | neg_infinity, neg_infinity => false
  | neg_infinity, _ => true
  | _, neg_infinity => false
  | infinity, _ => false
  | _, infinity => true

/-- The comparison `a <= b`, false when either side is a NaN. -/
def le : Double → Double → Bool
  | finite a, finite b => decide (a ≤ b)
  | nan, _ => false
  | _, nan => false
  | neg_infinity, _ => true
  | _, infinity => true
  | infinity, _ => false
  | _, neg_infinity => false

instance : Add Double := ⟨add⟩
instance : Sub Double := ⟨sub⟩
instance : Mul Double := ⟨mul⟩
instance : Zero Double := ⟨finite 0⟩
instance : Div Double := ⟨div⟩
instance : RatCast Double := ⟨ofRat⟩

end Double

/-! ## Symbolic scalars -/

/-- Decision variables of the shooting container (flat `x` and `u` vectors) and
its placeholder variables. -/
inductive Variable
  | x (k : Nat)
  | u (k : Nat)
  | placeholder_x (j : Nat)
  | placeholder_u (j : Nat)
  | placeholder_t
  deriving DecidableEq, Repr

/-- Modelled from the spec: `symbolic::Expression` (drake/common/symbolic), of
which only the constructions the transcription performs are kept: variables,
constants, sums, products, and one non-polynomial operation (absolute value). -/
inductive Expression
  | var (v : Variable)
  | const (c : ℚ)
  | add (a b : Expression)
  | mul (a b : Expression)
  | abs (a : Expression)
  deriving DecidableEq, Repr

namespace Expression

/-- The operator `+` of expressions; two constants are folded. -/
def plus : Expression → Expression → Expression
  | const a, const b => const (a + b)
  | a, b => add a b

/-- The operator `*` of expressions; two constants are folded. -/
def times : Expression → Expression → Expression
  | const a, const b => const (a * b)
  | a, b => mul a b

/-- The operator `-` of expressions, `a + (-1) * b`; two constants are folded. -/
def minus : Expression → Expression → Expression
  | const a, const b => const (a - b)
  | a, b => add a (mul (const (-1)) b)

instance : Add Expression := ⟨plus⟩
instance : Mul Expression := ⟨times⟩
instance : Sub Expression := ⟨minus⟩
instance : Zero Expression := ⟨const 0⟩
instance : RatCast Expression := ⟨const⟩

/-- Numeric value of an expression under an assignment of the variables. -/
def Evaluate (env : Variable → ℚ) : Expression → ℚ
  | var v => env v
  | const c => c
  | add a b => Evaluate env a + Evaluate env b
  | mul a b => Evaluate env a * Evaluate env b
  | abs a => |Evaluate env a|

/-- Total degree of an expression in the variables `vars`, `none` when the
expression is not a polynomial. -/
def degree (vars : List Variable) : Expression → Option Nat
  | var v => some (if v ∈ vars then 1 else 0)
  | const _ => some 0
  | add a b =>
    match degree vars a, degree vars b with
    | some m, some n => some (max m n)
    | _, _ => none
  | mul a b =>
    match degree vars a, degree vars b with
    | some m, some n => some (m + n)
    | _, _ => none
  | abs _ => none

end Expression

/-- `x.cast<Expression>()` on a vector of variables. -/
def castVars (xs : List Variable) : List Expression := xs.map Expression.var

/-- Values of a vector of expressions. -/
def EvaluateVec (env : Variable → ℚ) (es : List Expression) : List ℚ :=
  es.map (Expression.Evaluate env)

/-- Modelled from the spec: `symbolic::IsAffine` (drake/common/symbolic/decompose.h),
the test "affine in the decision variables" of §4.2: every entry is a
polynomial of total degree at most one in `vars`. -/
def IsAffine (m : List Expression) (vars : List Variable) : Bool :=
  m.all fun e =>
    match e.degree vars with
    | some d => decide (d ≤ 1)
    | none => false

/-! ## Contexts and systems (drake/systems/framework) -/

/-- Modelled from the spec: `Context<T>`, holding time, state, parameters and
the fixed values of the input ports (one slot per port, empty when unset). -/
structure Context (T : Type) where
  time : T
  continuous_state : List T
  discrete_state : List (List T)
  num_abstract_states : Nat
  parameters : List T
  fixed_input_port_values : List (Option (List T))

/-- `DiscreteValues::get_vector(index)`, which throws past the last group. -/
def DiscreteValues.get_vector {T : Type} (d : List (List T)) (index : Nat) :
    Except Error (List T) :=
  match d.get? index with
  | some v => .ok v
  | none => .error .throw_unless_failed

namespace Context

variable {T : Type}

def num_input_ports (c : Context T) : Nat := c.fixed_input_port_values.length

def num_continuous_states (c : Context T) : Nat := c.continuous_state.length

def num_discrete_state_groups (c : Context T) : Nat := c.discrete_state.length

def num_total_states (c : Context T) : Nat :=
  c.continuous_state.length + (c.discrete_state.map List.length).sum

def has_only_continuous_state (c : Context T) : Bool :=
  decide (0 < c.num_continuous_states) && c.num_discrete_state_groups == 0 &&
    c.num_abstract_states == 0

def has_only_discrete_state (c : Context T) : Bool :=
  c.num_continuous_states == 0 && decide (0 < c.num_discrete_state_groups) &&
    c.num_abstract_states == 0

/-- `get_discrete_state(index)`. -/
def get_discrete_state (c : Context T) (index : Nat) : Except Error (List T) :=
  DiscreteValues.get_vector c.discrete_state index

def SetTime (c : Context T) (t : T) : Context T := { c with time := t }

def SetContinuousState (c : Context T) (xc : List T) : Context T :=
  { c with continuous_state := xc }

/-- `SetDiscreteState(group_index, xd)`; the one-argument overload of the source
writes group 0. -/
def SetDiscreteState (c : Context T) (group_index : Nat) (xd : List T) : Context T :=
  { c with discrete_state := c.discrete_state.set group_index xd }

/-- Writes a fixed value for input port `port` (`InputPort::FixValue`, and any
later write through the returned `FixedInputPortValue`). -/
def FixValue (c : Context T) (port : Nat) (value : List T) : Context T :=
  { c with fixed_input_port_values := c.fixed_input_port_values.set port (some value) }

/-- `SetTimeStateAndParametersFrom(source)` for a `double` source. -/
def SetTimeStateAndParametersFrom [RatCast T] (c : Context T) (source : Context ℚ) :
    Context T :=
  { c with
    time := (source.time : T)
    continuous_state := source.continuous_state.map fun (q : ℚ) => (q : T)
    discrete_state := source.discrete_state.map fun (g : List ℚ) => g.map fun (q : ℚ) => (q : T)
    parameters := source.parameters.map fun (q : ℚ) => (q : T) }

/-- Numeric context obtained from a symbolic one under an assignment of the
variables. -/
def Evaluate (env : Variable → ℚ) (c : Context Expression) : Context ℚ :=
  { time := c.time.Evaluate env
    continuous_state := EvaluateVec env c.continuous_state
    discrete_state := c.discrete_state.map (EvaluateVec env)
    num_abstract_states := c.num_abstract_states
    parameters := EvaluateVec env c.parameters
    fixed_input_port_values := c.fixed_input_port_values.map (Option.map (EvaluateVec env)) }

end Context

inductive PortDataType
  | kVectorValued
  | kAbstractValued
  deriving DecidableEq, Repr

structure InputPort where
  data_type : PortDataType
  size : Nat
  deriving DecidableEq, Repr

inductive InputPortSelection
  | kNoInput
  | kUseFirstInputIfItExists
  deriving DecidableEq, Repr

/-- The argument type `std::variant<InputPortSelection, InputPortIndex>`. -/
inductive InputPortChoice
  | selection (s : InputPortSelection)
  | index (i : Nat)
  deriving DecidableEq, Repr

structure PeriodicEventData where
  period_sec : ℚ
  offset_sec : ℚ
  deriving DecidableEq, Repr

/-- Modelled from the spec: the dynamical system adapter `System<T>` (§2, §6):
its declared ports, abstract states and periodic discrete updates, its default
context, the difference-equation predicate and the two dynamics evaluations. -/
structure System (T : Type) where
  input_ports : List InputPort
  num_abstract_states : Nat
  periodic_discrete_updates : List PeriodicEventData
  IsDifferenceEquationSystem : Bool
  CreateDefaultContext : Context T
  EvalUniquePeriodicDiscreteUpdate : Context T → List (List T)
  EvalTimeDerivatives : Context T → List T

namespace System

variable {T : Type}

/-- Modelled from the spec: `GetUniquePeriodicDiscreteUpdateAttribute`, present
exactly when the declared periodic updates are one distinct attribute (§4.1:
absent for "zero or more than one distinct periodic update"). -/
def GetUniquePeriodicDiscreteUpdateAttribute (s : System T) : Option PeriodicEventData :=
  match s.periodic_discrete_updates.dedup with
  | [a] => some a
  | _ => none

/-- Modelled from the spec: `get_input_port_selection`, the selected port with
its index, or nothing (`nullptr`); an index past the last port throws. -/
def get_input_port_selection (s : System T) :
    InputPortChoice → Except Error (Option (Nat × InputPort))
  | .selection .kNoInput => .ok none
  | .selection .kUseFirstInputIfItExists =>
    match s.input_ports with
    | [] => .ok none
    | p :: _ => .ok (some (0, p))
  | .index i =>
    match s.input_ports.get? i with
    | some p => .ok (some (i, p))
    | none => .error .logic_error

end System

/-- A `System<double>` together with its scalar conversions: `ToSymbolicMaybe`
and `ToAutoDiffXd` (absent when the system does not support the conversion). -/
structure DoubleSystem (T : Type) extends System ℚ where
  ToSymbolicMaybe : Option (System Expression)
  ToAutoDiffXd : Option (System T)

/-- Modelled from the spec: `TimeVaryingLinearSystem<double>`, a system with
its matrices `A(t)`, `B(t)` (rows of entries) and its `time_period`. -/
structure TimeVaryingLinearSystem (T : Type) extends DoubleSystem T where
  A : ℚ → List (List ℚ)
  B : ℚ → List (List ℚ)
  time_period : ℚ

/-- Modelled from the spec: `SystemSymbolicInspector::IsAbstract`, "the symbolic
system has abstract internal state" (§4.2). -/
def SystemSymbolicInspector.IsAbstract (_system : System Expression)
    (context : Context Expression) : Bool :=
  decide (0 < context.num_abstract_states)

/-! ## The explicit Euler integrator (drake/systems/analysis) -/

/-- Modelled from the spec: `ExplicitEulerIntegrator<T>` seen as an
`IntegratorBase<T>`: the system, the step size it was built with, and the
context it points to. The context is reachable only through the integrator in
the code modelled here, so the integrator record holds it. -/
structure IntegratorBase (T : Type) where
  system : System T
  max_step_size : ℚ
  context : Context T
  initialized : Bool

namespace IntegratorBase

variable {T : Type}

def Initialize (integ : IntegratorBase T) : IntegratorBase T :=
  { integ with initialized := true }

/-- Modelled from the spec: `IntegrateWithSingleFixedStepToTime(t_target)` for
the explicit Euler scheme (glossary, "Fixed Euler step"): with
`h = t_target - time`, the continuous state becomes `state + h * derivative`
and the time becomes `t_target`; the step always completes. The arithmetic is
that of the scalar type. -/
def IntegrateWithSingleFixedStepToTime [Add T] [Sub T] [Mul T]
    (integ : IntegratorBase T) (t_target : T) : IntegratorBase T × Bool :=
  let h := t_target - integ.context.time
  let xcdot := integ.system.EvalTimeDerivatives integ.context
  let xc := List.zipWith (fun x d => x + h * d) integ.context.continuous_state xcdot
  ({ integ with context := (integ.context.SetContinuousState xc).SetTime t_target }, true)

end IntegratorBase

/-! ## The optimization program and the shooting container -/

/-- The binding of a formula `lhs == rhs` between two vectors of expressions. -/
structure LinearEqualityConstraint where
  lhs : List Expression
  rhs : List Expression
  deriving DecidableEq, Repr

/-- The members of `DirectTranscriptionConstraint`. `integrator_` is the address
of the shared integrator in the builder, `input_port_value_` the input port of
the shared context whose fixed value the handle aliases (`none` for `nullptr`).
`evaluation_time_`, an `AutoDiffXd` with zero derivatives in the source, is held
as its value.
The scratch buffer `discrete_state_` is written and then read inside a single
evaluation, so it is a local of `DoEval`. -/
structure DirectTranscriptionConstraint where
  integrator_ : Nat
  input_port_value_ : Option Nat
  num_states_ : Nat
  num_inputs_ : Nat
  evaluation_time_ : ℚ
  fixed_time_step_ : ℚ
  deriving DecidableEq, Repr

/-- A generic constraint bound to its stacked decision variables. -/
structure Binding where
  evaluator : DirectTranscriptionConstraint
  vars : List Variable
  deriving DecidableEq, Repr

/-- Modelled from the spec: the optimization-program container (§6): decision
variables, registered constraints by kind in registration order, and costs. -/
structure MathematicalProgram where
  decision_variables : List Variable
  linear_equality_constraints : List LinearEqualityConstraint
  generic_constraints : List Binding
  costs : List Expression
  deriving DecidableEq, Repr

namespace MathematicalProgram

/-- Modelled from the spec: `AddLinearEqualityConstraint(lhs == rhs)`; the
registration itself fails on a formula that is not affine in the decision
variables (§4.2). -/
def AddLinearEqualityConstraint (prog : MathematicalProgram) (lhs rhs : List Expression) :
    Except Error MathematicalProgram :=
  if IsAffine lhs prog.decision_variables && IsAffine rhs prog.decision_variables then
    .ok { prog with
          linear_equality_constraints := prog.linear_equality_constraints ++ [⟨lhs, rhs⟩] }
  else .error .runtime_error

/-- `AddConstraint(constraint, vars)` for a generic constraint. -/
def AddConstraint (prog : MathematicalProgram) (constraint : DirectTranscriptionConstraint)
    (vars : List Variable) : MathematicalProgram :=
  { prog with generic_constraints := prog.generic_constraints ++ [⟨constraint, vars⟩] }

end MathematicalProgram

/-- Modelled from the spec: the base class `MultipleShooting` (§3, §6): the
sizes, the sample count `N`, the fixed time step and the owned program. -/
structure MultipleShooting where
  num_inputs : Nat
  num_states : Nat
  N : Nat
  fixed_time_step : ℚ
  prog : MathematicalProgram
  deriving DecidableEq, Repr

namespace MultipleShooting

/-- The decision variables `state(i)`: a segment of the flat `x` vector. -/
def state (ms : MultipleShooting) (i : Nat) : List Variable :=
  (List.range ms.num_states).map fun j => Variable.x (i * ms.num_states + j)

/-- The decision variables `input(i)`: a segment of the flat `u` vector. -/
def input (ms : MultipleShooting) (i : Nat) : List Variable :=
  (List.range ms.num_inputs).map fun j => Variable.u (i * ms.num_inputs + j)

/-- Modelled from the spec: the constructor of the shooting container, which
demands `N ≥ 2` and a positive time step (§3) and allocates the state and input
decision variables of the `N` samples; no constraint is registered. -/
def init (num_inputs num_states num_time_samples : Nat) (fixed_time_step : ℚ) :
    Except Error MultipleShooting := do
  DRAKE_DEMAND (decide (1 < num_time_samples))
  DRAKE_DEMAND (decide (0 < fixed_time_step))
  pure
    { num_inputs := num_inputs
      num_states := num_states
      N := num_time_samples
      fixed_time_step := fixed_time_step
      prog :=
        { decision_variables :=
            (List.range (num_states * num_time_samples)).map Variable.x ++
              (List.range (num_inputs * num_time_samples)).map Variable.u
          linear_equality_constraints := []
          generic_constraints := []
          costs := [] } }

end MultipleShooting

/-! ## The per-step dynamics constraint -/

namespace DirectTranscriptionConstraint

variable {T : Type}

/-- The constructor of `DirectTranscriptionConstraint`, given the builder-owned
storage `heap` in which the address `integrator` is looked up. -/
def create (heap : List (IntegratorBase T)) (integrator : Nat)
    (input_port_value : Option Nat) (num_states num_inputs : Nat)
    (evaluation_time : ℚ) (fixed_time_step : ℚ) :
    Except Error DirectTranscriptionConstraint := do
  DRAKE_DEMAND (decide (0 ≤ evaluation_time))
  match heap.get? integrator with
  | none => .error .null_pointer
  | some pointee =>
    let context := pointee.context
    DRAKE_DEMAND (context.has_only_discrete_state || context.has_only_continuous_state)
    DRAKE_DEMAND (context.num_input_ports == 0 || input_port_value.isSome)
    if context.has_only_discrete_state then
      pure ()
    else
      DRAKE_DEMAND (decide (0 < fixed_time_step))
    pure
      { integrator_ := integrator
        input_port_value_ := input_port_value
        num_states_ := num_states
        num_inputs_ := num_inputs
        evaluation_time_ := evaluation_time
        fixed_time_step_ := fixed_time_step }

/-- `x.head(num_inputs_)`. -/
def input (c : DirectTranscriptionConstraint) (x : List T) : List T :=
  x.take c.num_inputs_

/-- `x.segment(num_inputs_, num_states_)`. -/
def state (c : DirectTranscriptionConstraint) (x : List T) : List T :=
  (x.drop c.num_inputs_).take c.num_states_

/-- `x.tail(num_states_)`. -/
def next_state (c : DirectTranscriptionConstraint) (x : List T) : List T :=
  x.drop (x.length - c.num_states_)

/-- The first half of `DoEval`: the shared context after the writes of the
evaluation time and of the input value, or the null handle that stops it. -/
def writeTimeAndInput [RatCast T] (c : DirectTranscriptionConstraint) (x : List T)
    (context : Context T) : Except Error (Context T) :=
  let context := context.SetTime (c.evaluation_time_ : T)
  if 0 < context.num_input_ports then
    match c.input_port_value_ with
    | some port => .ok (context.FixValue port (c.input x))
    | none => .error .null_pointer
  else .ok context

/-- `DoEval(const Eigen::Ref<const AutoDiffVecXd>& x, AutoDiffVecXd* y)` on the
stacked vector `x = [input, state, next_state]`, acting on the pointee of
`integrator_`: the integrator (with its context) left behind, and `y` or the
failure. The member `evaluation_time_` is a scalar constant (no derivatives)
holding the double given to the constructor; the value of the target time
`evaluation_time_ + fixed_time_step_` is the sum of that double and of the double
step, rounded as a sum of doubles is, and the target is that constant. -/
def DoEval [Add T] [Sub T] [Mul T] [RatCast T] (c : DirectTranscriptionConstraint)
    (x : List T) (integrator : IntegratorBase T) :
    IntegratorBase T × Except Error (List T) :=
  match c.writeTimeAndInput x integrator.context with
  | .error e => ({ integrator with context := integrator.context.SetTime (c.evaluation_time_ : T) },
      .error e)
  | .ok context =>
    if context.has_only_continuous_state then
      let context := context.SetContinuousState (c.state x)
      let stepped :=
        IntegratorBase.IntegrateWithSingleFixedStepToTime { integrator with context := context }
          ((binary64.add c.evaluation_time_ c.fixed_time_step_ : ℚ) : T)
      match DRAKE_THROW_UNLESS stepped.2 with
      | .error e => (stepped.1, .error e)
      | .ok _ =>
        (stepped.1,
          .ok (List.zipWith (fun a b => a - b) (c.next_state x) stepped.1.context.continuous_state))
    else
      let context := context.SetDiscreteState 0 (c.state x)
      let discrete_state := integrator.system.EvalUniquePeriodicDiscreteUpdate context
      match DiscreteValues.get_vector discrete_state 0 with
      | .error e => ({ integrator with context := context }, .error e)
      | .ok v =>
        ({ integrator with context := context },
          .ok (List.zipWith (fun a b => a - b) (c.next_state x) v))

/-- `DoEval(const Eigen::Ref<const VectorX<symbolic::Variable>>&,
VectorX<symbolic::Expression>*)`, acting like the other overload on the pointee
of `integrator_`: the integrator (with the shared context) left behind, and the
expressions written to the output or the failure. The body is the single
`throw std::logic_error`. -/
def DoEvalSymbolic (_c : DirectTranscriptionConstraint) (_x : List Variable)
    (integrator : IntegratorBase T) : IntegratorBase T × Except Error (List Expression) :=
  (integrator, .error .logic_error)

end DirectTranscriptionConstraint

/-! ## The transcription builder -/

/-- The object `DirectTranscription`: its `MultipleShooting` base and its own
members. `heap` is the storage owned through `integrator_` (and, inside the
integrator, `context_`); `integrator_` is the address of the integrator in it. -/
structure DirectTranscription (T : Type) extends MultipleShooting where
  discrete_time_system_ : Bool
  heap : List (IntegratorBase T)
  system_ : Option (System T)
  input_port_ : Option (Nat × InputPort)
  input_port_value_ : Option Nat
  integrator_ : Option Nat

/-- `get_period`. -/
def get_period (system : System ℚ) : Except Error ℚ :=
  if 0 < system.num_abstract_states then
    .error .logic_error
  else
    match system.GetUniquePeriodicDiscreteUpdateAttribute with
    | none => .error .logic_error
    | some periodic_data => do
      DRAKE_DEMAND (decide (periodic_data.offset_sec = 0))
      pure periodic_data.period_sec

/-- `get_input_port_size`; a system passed by value is never `nullptr`. -/
def get_input_port_size (system : System ℚ) (input_port_index : InputPortChoice) :
    Except Error Nat :=
  match system.get_input_port_selection input_port_index with
  | .error e => .error e
  | .ok (some port) => .ok port.2.size
  | .ok none => .ok 0

namespace DirectTranscription

variable {T : Type}

/-- The builder right after the base-class constructor. -/
def ofBase (base : MultipleShooting) (discrete_time_system : Bool) : DirectTranscription T :=
  { toMultipleShooting := base
    discrete_time_system_ := discrete_time_system
    heap := []
    system_ := none
    input_port_ := none
    input_port_value_ := none
    integrator_ := none }

/-- Replaces the program of the builder. -/
def withProg (self : DirectTranscription T) (prog : MathematicalProgram) :
    DirectTranscription T :=
  { self with prog := prog }

/-- `ValidateSystem`. -/
def ValidateSystem (self : DirectTranscription T) (system : System ℚ) (context : Context ℚ)
    (input_port_index : InputPortChoice) : Except Error Unit := do
  DRAKE_DEMAND system.IsDifferenceEquationSystem
  let xd ← context.get_discrete_state 0
  DRAKE_DEMAND (self.num_states == xd.length)
  if 0 < context.num_input_ports then
    let size ← get_input_port_size system input_port_index
    DRAKE_DEMAND (self.num_inputs == size)

/-- `ConstrainEqualInputAtFinalTwoTimesteps`. -/
def ConstrainEqualInputAtFinalTwoTimesteps (self : DirectTranscription T) :
    Except Error (DirectTranscription T) :=
  if 0 < self.num_inputs then do
    let prog ← self.prog.AddLinearEqualityConstraint (castVars (self.input (self.N - 2)))
      (castVars (self.input (self.N - 1)))
    pure (self.withProg prog)
  else pure self

/-- The body of the loop of `AddSymbolicDynamicConstraints` up to the
computation of `next_state` for interval `i`. The two times `i * fixed_time_step()`
and `(i + 1) * fixed_time_step()` are products of doubles (the conversion of the
`int` to `double` is exact), which become constant expressions. -/
def symbolicNextState (self : DirectTranscription T) (symbolic_system : System Expression)
    (input_port : Option (Nat × InputPort)) (i : Nat)
    (integrator : IntegratorBase Expression) :
    IntegratorBase Expression × Except Error (List Expression) :=
  let symbolic_context :=
    integrator.context.SetTime ((binary64.mul (i : ℚ) self.fixed_time_step : ℚ) : Expression)
  let symbolic_context :=
    match input_port with
    | some port => symbolic_context.FixValue port.1 (castVars (self.input i))
    | none => symbolic_context
  if self.discrete_time_system_ then
    let symbolic_context := symbolic_context.SetDiscreteState 0 (castVars (self.state i))
    let discrete_state := symbolic_system.EvalUniquePeriodicDiscreteUpdate symbolic_context
    ({ integrator with context := symbolic_context }, DiscreteValues.get_vector discrete_state 0)
  else
    let symbolic_context := symbolic_context.SetContinuousState (castVars (self.state i))
    let stepped :=
      IntegratorBase.IntegrateWithSingleFixedStepToTime
        { integrator with context := symbolic_context }
        ((binary64.mul ((i + 1 : Nat) : ℚ) self.fixed_time_step : ℚ) : Expression)
    match DRAKE_THROW_UNLESS stepped.2 with
    | .error e => (stepped.1, .error e)
    | .ok _ => (stepped.1, .ok stepped.1.context.continuous_state)

/-- The loop `for (int i = 0; i < N() - 1; i++)` of `AddSymbolicDynamicConstraints`,
with `remaining` iterations left from interval `i`. -/
def symbolicLoop (symbolic_system : System Expression) (input_port : Option (Nat × InputPort)) :
    (remaining : Nat) → (i : Nat) → IntegratorBase Expression → DirectTranscription T →
      DirectTranscription T × Except Error Bool
  | 0, _, _, self => (self, .ok true)
  | remaining + 1, i, integrator, self =>
    match self.symbolicNextState symbolic_system input_port i integrator with
    | (_, .error e) => (self, .error e)
    | (integrator, .ok next_state) =>
      if i == 0 && !IsAffine next_state self.prog.decision_variables then
        (self, .ok false)
      else
        match self.prog.AddLinearEqualityConstraint (castVars (self.state (i + 1))) next_state with
        | .error e => (self, .error e)
        | .ok prog => symbolicLoop symbolic_system input_port remaining (i + 1) integrator
            (self.withProg prog)

/-- `AddSymbolicDynamicConstraints`: the builder it leaves, and the returned
flag or the failure. -/
def AddSymbolicDynamicConstraints (self : DirectTranscription T) (system : DoubleSystem T)
    (context : Context ℚ) (input_port_index : InputPortChoice) :
    DirectTranscription T × Except Error Bool :=
  match system.ToSymbolicMaybe with
  | none => (self, .ok false)
  | some symbolic_system =>
    let symbolic_context := symbolic_system.CreateDefaultContext
    if SystemSymbolicInspector.IsAbstract symbolic_system symbolic_context then
      (self, .ok false)
    else
      let symbolic_context := symbolic_context.SetTimeStateAndParametersFrom context
      match symbolic_system.get_input_port_selection input_port_index with
      | .error e => (self, .error e)
      | .ok input_port =>
        let integrator : IntegratorBase Expression :=
          IntegratorBase.Initialize
            { system := symbolic_system
              max_step_size := self.fixed_time_step
              context := symbolic_context
              initialized := false }
        symbolicLoop symbolic_system input_port (self.N - 1) 0 integrator self

/-- The address taken by `input_port_value_ = &input_port_->FixValue(...)` and the
context after it, or the throw for an abstract-valued port; an absent port
leaves both as they are. -/
def fixInputPort [Zero T] (input_port_value_ : Option Nat) (context_ : Context T) :
    Option (Nat × InputPort) → Except Error (Context T × Option Nat)
  | some port =>
    if port.2.data_type = PortDataType.kAbstractValued then
      .error .logic_error
    else
      .ok (context_.FixValue port.1 (List.replicate port.2.size 0), some port.1)
  | none => .ok (context_, input_port_value_)

/-- The loop `for (int i = 0; i < N() - 1; i++)` of `AddAutodiffDynamicConstraints`,
with `remaining` iterations left from interval `i`; `integrator` is the value
of `integrator_.get()`. The evaluation time `i * fixed_time_step()` is a product
of doubles. -/
def autodiffLoop (integrator : Nat) :
    (remaining : Nat) → (i : Nat) → DirectTranscription T → Except Error (DirectTranscription T)
  | 0, _, self => .ok self
  | remaining + 1, i, self =>
    match DirectTranscriptionConstraint.create self.heap integrator self.input_port_value_
        self.num_states self.num_inputs (binary64.mul (i : ℚ) self.fixed_time_step)
        self.fixed_time_step with
    | .error e => .error e
    | .ok constraint =>
      autodiffLoop integrator remaining (i + 1)
        (self.withProg
          (self.prog.AddConstraint constraint (self.input i ++ self.state i ++ self.state (i + 1))))

/-- `AddAutodiffDynamicConstraints`. `std::make_unique` stores the new integrator
(holding the new context) at the next free address of `heap`. -/
def AddAutodiffDynamicConstraints [RatCast T] [Zero T] (self : DirectTranscription T)
    (system : DoubleSystem T) (context : Context ℚ) (input_port_index : InputPortChoice) :
    Except Error (DirectTranscription T) :=
  match system.ToAutoDiffXd with
  | none => .error .demand_failed
  | some system_ =>
    let context_ := system_.CreateDefaultContext
    match system_.get_input_port_selection input_port_index with
    | .error e => .error e
    | .ok input_port_ =>
      let context_ := context_.SetTimeStateAndParametersFrom context
      match fixInputPort self.input_port_value_ context_ input_port_ with
      | .error e => .error e
      | .ok (context_, input_port_value_) =>
        let integrator : IntegratorBase T :=
          IntegratorBase.Initialize
            { system := system_
              max_step_size := self.fixed_time_step
              context := context_
              initialized := false }
        let address := self.heap.length
        autodiffLoop address (self.N - 1) 0
          { self with
            system_ := some system_
            input_port_ := input_port_
            input_port_value_ := input_port_value_
            heap := self.heap ++ [integrator]
            integrator_ := some address }

/-- The statements shared by the discrete-time and the continuous-time
constructors: "first try symbolic dynamics", else the autodiff constraints,
then the boundary constraint. -/
def addDynamicConstraints [RatCast T] [Zero T] (self : DirectTranscription T)
    (system : DoubleSystem T) (context : Context ℚ) (input_port_index : InputPortChoice) :
    Except Error (DirectTranscription T) :=
  match self.AddSymbolicDynamicConstraints system context input_port_index with
  | (_, .error e) => .error e
  | (self, .ok true) => self.ConstrainEqualInputAtFinalTwoTimesteps
  | (self, .ok false) =>
    match self.AddAutodiffDynamicConstraints system context input_port_index with
    | .error e => .error e
    | .ok self => self.ConstrainEqualInputAtFinalTwoTimesteps

/-- The constructor for a discrete-time system (period taken from the system). -/
def DirectTranscription_discrete [RatCast T] [Zero T] (system : DoubleSystem T)
    (context : Context ℚ) (num_time_samples : Nat) (input_port_index : InputPortChoice) :
    Except Error (DirectTranscription T) :=
  match get_input_port_size system.toSystem input_port_index with
  | .error e => .error e
  | .ok num_inputs =>
    match get_period system.toSystem with
    | .error e => .error e
    | .ok period =>
      match MultipleShooting.init num_inputs context.num_total_states num_time_samples period with
      | .error e => .error e
      | .ok base =>
        let self : DirectTranscription T := ofBase base true
        match self.ValidateSystem system.toSystem context input_port_index with
        | .error e => .error e
        | .ok _ => self.addDynamicConstraints system context input_port_index

/-- The constant `std::numeric_limits<double>::epsilon()`. -/
def epsilon : ℚ := 1 / 2 ^ 52

/-- The product of a `double` matrix (rows of entries) with a vector of
expressions. -/
def matVec (m : List (List ℚ)) (v : List Expression) : List Expression :=
  m.map fun row =>
    (List.zipWith (fun a e => Expression.const a * e) row v).foldl (fun acc e => acc + e) 0

/-- The product of a matrix (rows of entries) with a vector of numbers, in the
words of linear algebra: entry `r` is the sum over `k` of `m[r][k] * v[k]`. -/
def matVecValue (m : List (List ℚ)) (v : List ℚ) : List ℚ :=
  m.map fun row => (List.zipWith (fun a x => a * x) row v).sum

/-- The loop of the constructor for a linear time-varying system, with
`remaining` iterations left from interval `i`; the time `time_period() * i` is a
product of doubles. -/
def linearLoop (system : TimeVaryingLinearSystem T) :
    (remaining : Nat) → (i : Nat) → DirectTranscription T → Except Error (DirectTranscription T)
  | 0, _, self => .ok self
  | remaining + 1, i, self =>
    let t := binary64.mul system.time_period (i : ℚ)
    match self.prog.AddLinearEqualityConstraint (castVars (self.state (i + 1)))
        (List.zipWith (fun a b => a + b) (matVec (system.A t) (castVars (self.state i)))
          (matVec (system.B t) (castVars (self.input i)))) with
    | .error e => .error e
    | .ok prog => linearLoop system remaining (i + 1) (self.withProg prog)

/-- The constructor for a linear time-varying discrete system. -/
def DirectTranscription_linear (system : TimeVaryingLinearSystem T)
    (context : Context ℚ) (num_time_samples : Nat) (input_port_index : InputPortChoice) :
    Except Error (DirectTranscription T) :=
  match get_input_port_size system.toSystem input_port_index with
  | .error e => .error e
  | .ok num_inputs =>
    match MultipleShooting.init num_inputs context.num_total_states num_time_samples
        (max system.time_period epsilon) with
    | .error e => .error e
    | .ok base =>
      let self : DirectTranscription T := ofBase base true
      if !context.has_only_discrete_state then
        .error .invalid_argument
      else
        match self.ValidateSystem system.toSystem context input_port_index with
        | .error e => .error e
        | .ok _ =>
          match linearLoop system (self.N - 1) 0 self with
          | .error e => .error e
          | .ok self => self.ConstrainEqualInputAtFinalTwoTimesteps

/-- The guarded demand of the continuous-time constructor:
`if (context.num_input_ports() > 0) DRAKE_DEMAND(num_inputs() == get_input_port_size(...))`. -/
def demandInputSize (self : DirectTranscription T) (system : System ℚ) (context : Context ℚ)
    (input_port_index : InputPortChoice) : Except Error Unit :=
  if 0 < context.num_input_ports then
    match get_input_port_size system input_port_index with
    | .error e => .error e
    | .ok size => DRAKE_DEMAND (self.num_inputs == size)
  else .ok ()

/-- The constructor for a continuous-time system with an explicit fixed step. -/
def DirectTranscription_continuous [RatCast T] [Zero T] (system : DoubleSystem T)
    (context : Context ℚ) (num_time_samples : Nat) (fixed_time_step : ℚ)
    (input_port_index : InputPortChoice) : Except Error (DirectTranscription T) :=
  match get_input_port_size system.toSystem input_port_index with
  | .error e => .error e
  | .ok num_inputs =>
    match MultipleShooting.init num_inputs context.num_total_states num_time_samples
        fixed_time_step with
    | .error e => .error e
    | .ok base =>
      let self : DirectTranscription T := ofBase base false
      if !context.has_only_continuous_state then
        .error .invalid_argument
      else
        match DRAKE_DEMAND (decide (0 < fixed_time_step)) with
        | .error e => .error e
        | .ok _ =>
          match self.demandInputSize system.toSystem context input_port_index with
          | .error e => .error e
          | .ok _ => self.addDynamicConstraints system context input_port_index

end DirectTranscription

/-! ## The one-step advance, in the words of the specification -/

/-- The context in which a one-step advance evaluates the dynamics: the given
context with its time set to `t`, the selected input port (if any) fixed to
`input`, and `state` written into discrete state group 0 (discrete mode) or
into the continuous state (continuous mode). -/
def AdvanceContext {T : Type} [RatCast T] (discrete_time_system : Bool) (context : Context T)
    (input_port : Option Nat) (t : ℚ) (state input : List T) : Context T :=
  let context := context.SetTime (t : T)
  let context :=
    match input_port with
    | some port => context.FixValue port input
    | none => context
  if discrete_time_system then context.SetDiscreteState 0 state
  else context.SetContinuousState state

/-- The system's one-step advance from `(state, input)` at time `t` (§2, §4.2,
glossary): the unique periodic discrete update in discrete mode, and one
explicit Euler step `state + fixed_time_step * derivative` in continuous mode,
evaluated in `AdvanceContext`; `fixed_time_step` is the size of the step. -/
def OneStepAdvance {T : Type} [Add T] [Mul T] [RatCast T] (system : System T)
    (discrete_time_system : Bool) (fixed_time_step : ℚ) (context : Context T)
    (input_port : Option Nat) (t : ℚ) (state input : List T) : List T :=
  if discrete_time_system then
    (system.EvalUniquePeriodicDiscreteUpdate
      (AdvanceContext true context input_port t state input)).getD 0 []
  else
    List.zipWith (fun x d => x + (fixed_time_step : T) * d) state
      (system.EvalTimeDerivatives (AdvanceContext false context input_port t state input))

/-- The input port whose fixed value an evaluation of the constraint writes: the
constraint's handle when the context has input ports, none otherwise. -/
def DirectTranscriptionConstraint.writtenPort {T : Type} (c : DirectTranscriptionConstraint)
    (context : Context T) : Option Nat :=
  if 0 < context.num_input_ports then c.input_port_value_ else none

/-- The symbolic system `symbolic` is the scalar conversion of the `double`
system `numeric`: its default context and both dynamics evaluations commute
with the evaluation of expressions at every assignment of the variables. -/
def IsSymbolicCounterpart (symbolic : System Expression) (numeric : System ℚ) : Prop :=
  (∀ env, symbolic.CreateDefaultContext.Evaluate env = numeric.CreateDefaultContext) ∧
  (∀ env c, (symbolic.EvalUniquePeriodicDiscreteUpdate c).map (EvaluateVec env) =
    numeric.EvalUniquePeriodicDiscreteUpdate (c.Evaluate env)) ∧
  (∀ env c, EvaluateVec env (symbolic.EvalTimeDerivatives c) =
    numeric.EvalTimeDerivatives (c.Evaluate env))

/-- The assignment `env` satisfies the equality `lhs == rhs`. -/
def LinearEqualityConstraint.Holds (env : Variable → ℚ) (c : LinearEqualityConstraint) : Prop :=
  EvaluateVec env c.lhs = EvaluateVec env c.rhs

instance (env : Variable → ℚ) (c : LinearEqualityConstraint) : Decidable (c.Holds env) :=
  inferInstanceAs (Decidable (EvaluateVec env c.lhs = EvaluateVec env c.rhs))

/-- The residual `lhs - rhs` of an equality at the assignment `env`. -/
def LinearEqualityConstraint.residual (env : Variable → ℚ) (c : LinearEqualityConstraint) :
    List ℚ :=
  List.zipWith (fun a b => a - b) (EvaluateVec env c.lhs) (EvaluateVec env c.rhs)

/-! ## The two concrete scenarios of the specification (§8) -/

namespace scenario

variable {T : Type}

/-- The value of input port 0 read by the scenario dynamics (empty when unset). -/
def inputValue (c : Context T) : List T :=
  (c.fixed_input_port_values.getD 0 none).getD []

/-- The update `x[k+1] = 0.5 x[k] + u[k]`, entry by entry. -/
def halfUpdate [Add T] [Mul T] [RatCast T] (c : Context T) : List (List T) :=
  [List.zipWith (fun x u => ((1 / 2 : ℚ) : T) * x + u) (c.discrete_state.getD 0 []) (inputValue c)]

/-- The derivative `xdot = -x + u`, entry by entry. -/
def decayDerivatives [Add T] [Mul T] [RatCast T] (c : Context T) : List T :=
  List.zipWith (fun x u => ((-1 : ℚ) : T) * x + u) c.continuous_state (inputValue c)

/-- The 1-D discrete-time system `x[k+1] = 0.5 x[k] + u[k]` with period 1 over
the scalar type `T`. -/
def discreteSystemOn (T : Type) [Add T] [Mul T] [RatCast T] : System T :=
  { input_ports := [⟨PortDataType.kVectorValued, 1⟩]
    num_abstract_states := 0
    periodic_discrete_updates := [⟨1, 0⟩]
    IsDifferenceEquationSystem := true
    CreateDefaultContext :=
      { time := ((0 : ℚ) : T)
        continuous_state := []
        discrete_state := [[((0 : ℚ) : T)]]
        num_abstract_states := 0
        parameters := []
        fixed_input_port_values := [none] }
    EvalUniquePeriodicDiscreteUpdate := halfUpdate
    EvalTimeDerivatives := fun _ => [] }

/-- The 1-D continuous-time system `xdot = -x + u` over the scalar type `T`. -/
def continuousSystemOn (T : Type) [Add T] [Mul T] [RatCast T] : System T :=
  { input_ports := [⟨PortDataType.kVectorValued, 1⟩]
    num_abstract_states := 0
    periodic_discrete_updates := []
    IsDifferenceEquationSystem := false
    CreateDefaultContext :=
      { time := ((0 : ℚ) : T)
        continuous_state := [((0 : ℚ) : T)]
        discrete_state := []
        num_abstract_states := 0
        parameters := []
        fixed_input_port_values := [none] }
    EvalUniquePeriodicDiscreteUpdate := fun _ => []
    EvalTimeDerivatives := decayDerivatives }

/-- The discrete scenario as a `System<double>`; `symbolic` tells whether the
system supports conversion to the symbolic scalar type. -/
def discreteSystem (symbolic : Bool) : DoubleSystem ℚ :=
  { toSystem := discreteSystemOn ℚ
    ToSymbolicMaybe := if symbolic then some (discreteSystemOn Expression) else none
    ToAutoDiffXd := some (discreteSystemOn ℚ) }

/-- The continuous scenario as a `System<double>`; `symbolic` tells whether the
system supports conversion to the symbolic scalar type. -/
def continuousSystem (symbolic : Bool) : DoubleSystem ℚ :=
  { toSystem := continuousSystemOn ℚ
    ToSymbolicMaybe := if symbolic then some (continuousSystemOn Expression) else none
    ToAutoDiffXd := some (continuousSystemOn ℚ) }

/-- The default input-port choice of the constructors. -/
def firstInput : InputPortChoice :=
  InputPortChoice.selection InputPortSelection.kUseFirstInputIfItExists

/-- The builder of the discrete scenario right after the base-class constructor
(`N = 5`, period 1). -/
def discreteBuilder : DirectTranscription ℚ :=
  DirectTranscription.ofBase
    { num_inputs := 1
      num_states := 1
      N := 5
      fixed_time_step := 1
      prog :=
        { decision_variables := (List.range 5).map Variable.x ++ (List.range 5).map Variable.u
          linear_equality_constraints := []
          generic_constraints := []
          costs := [] } }
    true

end scenario

/-- The trajectory `x[k] = (1/2)^k`, `u[k] = 0` of the discrete scenario. -/
def scenario.halving : Variable → ℚ
  | Variable.x k => (1 / 2) ^ k
  | _ => 0

/-- The choice of no input port. -/
def scenario.noInput : InputPortChoice :=
  InputPortChoice.selection InputPortSelection.kNoInput

/-- The builder of the discrete scenario right after the base-class constructor
when no input port is selected (`num_inputs = 0`, `N = 5`, period 1). -/
def scenario.noInputBuilder : DirectTranscription ℚ :=
  DirectTranscription.ofBase
    { num_inputs := 0
      num_states := 1
      N := 5
      fixed_time_step := 1
      prog :=
        { decision_variables := (List.range 5).map Variable.x
          linear_equality_constraints := []
          generic_constraints := []
          costs := [] } }
    true

/-- The boundary condition in the words of the specification (§4.4): the one
equality `input(N-2) == input(N-1)` when the input dimension is positive, and
nothing otherwise. -/
def MultipleShooting.finalInputEquality (ms : MultipleShooting) : List LinearEqualityConstraint :=
  if 0 < ms.num_inputs then
    [⟨castVars (ms.input (ms.N - 2)), castVars (ms.input (ms.N - 1))⟩]
  else []

/-- A per-step constraint of the discrete scenario (evaluation time 0, period 1). -/
def scenario.discreteConstraint : DirectTranscriptionConstraint :=
  { integrator_ := 0
    input_port_value_ := some 0
    num_states_ := 1
    num_inputs_ := 1
    evaluation_time_ := 0
    fixed_time_step_ := 1 }

/-- The shared integrator of the discrete scenario, its input port fixed. -/
def scenario.discreteIntegrator : IntegratorBase ℚ :=
  { system := scenario.discreteSystemOn ℚ
    max_step_size := 1
    context := (scenario.discreteSystemOn ℚ).CreateDefaultContext.FixValue 0 [0]
    initialized := true }

/-- The first per-step constraint of the continuous scenario (evaluation time 0,
fixed step 1/10). -/
def scenario.continuousConstraint : DirectTranscriptionConstraint :=
  { integrator_ := 0
    input_port_value_ := some 0
    num_states_ := 1
    num_inputs_ := 1
    evaluation_time_ := 0
    fixed_time_step_ := 1 / 10 }

/-- The shared integrator of the continuous scenario, its input port fixed. -/
def scenario.continuousIntegrator : IntegratorBase ℚ :=
  { system := scenario.continuousSystemOn ℚ
    max_step_size := 1 / 10
    context := (scenario.continuousSystemOn ℚ).CreateDefaultContext.FixValue 0 [0]
    initialized := true }

/-- The value of the literal `0.1`: the double nearest to 1/10. -/
def scenario.tenth : ℚ := 3602879701896397 / 36028797018963968

/-- The shared integrator of the continuous scenario in binary64 arithmetic, its
input port fixed. -/
def scenario.binary64Integrator : IntegratorBase Double :=
  { system := scenario.continuousSystemOn Double
    max_step_size := scenario.tenth
    context := (scenario.continuousSystemOn Double).CreateDefaultContext.FixValue 0 [0]
    initialized := true }

/-- A per-step constraint of the continuous scenario with fixed step `0.1` and the
given evaluation time. -/
def scenario.tenthConstraint (evaluation_time : ℚ) : DirectTranscriptionConstraint :=
  { integrator_ := 0
    input_port_value_ := some 0
    num_states_ := 1
    num_inputs_ := 1
    evaluation_time_ := evaluation_time
    fixed_time_step_ := scenario.tenth }

/-- The builder of the continuous scenario with `N = 7` and fixed step `0.1`, right
after the base-class constructor. -/
def scenario.tenthBuilder : DirectTranscription ℚ :=
  DirectTranscription.ofBase
    { num_inputs := 1
      num_states := 1
      N := 7
      fixed_time_step := scenario.tenth
      prog :=
        { decision_variables := (List.range 7).map Variable.x ++ (List.range 7).map Variable.u
          linear_equality_constraints := []
          generic_constraints := []
          costs := [] } }
    false

/-- Values of the decision variables for interval 5 of the continuous scenario with
step `0.1`: `state(5) = 0`, `input(5) = 1` and `state(6) = 0.6000000000000001 - 0.5`,
the step that the symbolic path takes in that interval. -/
def scenario.intervalFiveValues : Variable → ℚ
  | Variable.x 6 => 5404319552844596 / 9007199254740992 - 1 / 2
  | Variable.u 5 => 1
  | _ => 0

/-- A forward simulation of `xdot = -x + u` by explicit Euler steps of size `0.1`:
`x` is 0 up to sample 2 and `0.1` from sample 3 on, the input being 1 at sample 2
and, from sample 3 on, equal to the state. -/
def scenario.eulerValues : Variable → ℚ
  | Variable.x k => if 3 ≤ k then scenario.tenth else 0
  | Variable.u k => if k = 2 then 1 else if 3 ≤ k then scenario.tenth else 0
  | _ => 0

/-- Values of the decision variables for interval 0 of the continuous scenario with
step `0.1`: `state(0) = 1`, `input(0) = 0` and `state(1) = 1 - 0.1`. -/
def scenario.decayValues : Variable → ℚ
  | Variable.x 0 => 1
  | Variable.x 1 => 1 - scenario.tenth
  | _ => 0

/-- The linear equalities of the discrete scenario with `N = 5`. -/
def scenario.discreteEqualities : List LinearEqualityConstraint :=
  [⟨[Expression.var (Variable.x 1)],
      [Expression.add (Expression.mul (Expression.const (1 / 2)) (Expression.var (Variable.x 0)))
        (Expression.var (Variable.u 0))]⟩,
    ⟨[Expression.var (Variable.x 2)],
      [Expression.add (Expression.mul (Expression.const (1 / 2)) (Expression.var (Variable.x 1)))
        (Expression.var (Variable.u 1))]⟩,
    ⟨[Expression.var (Variable.x 3)],
      [Expression.add (Expression.mul (Expression.const (1 / 2)) (Expression.var (Variable.x 2)))
        (Expression.var (Variable.u 2))]⟩,
    ⟨[Expression.var (Variable.x 4)],
      [Expression.add (Expression.mul (Expression.const (1 / 2)) (Expression.var (Variable.x 3)))
        (Expression.var (Variable.u 3))]⟩,
    ⟨[Expression.var (Variable.u 3)], [Expression.var (Variable.u 4)]⟩]

/-- The builder of the continuous scenario right after the base-class
constructor (`N = 3`, fixed step 1/10). -/
def scenario.continuousBuilder : DirectTranscription ℚ :=
  DirectTranscription.ofBase
    { num_inputs := 1
      num_states := 1
      N := 3
      fixed_time_step := 1 / 10
      prog :=
        { decision_variables := (List.range 3).map Variable.x ++ (List.range 3).map Variable.u
          linear_equality_constraints := []
          generic_constraints := []
          costs := [] } }
    false

/-- The discrete scenario as a linear time-varying system: `A(t) = [0.5]`,
`B(t) = [1]`, with the given reported `time_period`. -/
def scenario.linearSystem (time_period : ℚ) : TimeVaryingLinearSystem ℚ :=
  { toDoubleSystem := scenario.discreteSystem true
    A := fun _ => [[1 / 2]]
    B := fun _ => [[1]]
    time_period := time_period }

/-! ## Running cost and trajectory reconstruction -/

/-- Modelled from the spec: `symbolic::Expression::Substitute`, the replacement of
every variable `v` by the expression `s v`. -/
def Expression.Substitute (s : Variable → Expression) : Expression → Expression
  | Expression.var v => s v
  | Expression.const c => Expression.const c
  | Expression.add a b => Expression.Substitute s a + Expression.Substitute s b
  | Expression.mul a b => Expression.Substitute s a * Expression.Substitute s b
  | Expression.abs a => Expression.abs (Expression.Substitute s a)

/-- Modelled from the spec: the substitution of the placeholder variables for
interval `interval_index` (§4.4): the `j`-th placeholder state (input) becomes
the `j`-th variable of `state(interval_index)` (`input(interval_index)`), the
placeholder time becomes the sample time; other variables are left alone. -/
def MultipleShooting.placeholderSubstitution (ms : MultipleShooting) (interval_index : Nat) :
    Variable → Expression
  | Variable.placeholder_x j =>
    if j < ms.num_states then Expression.var (Variable.x (interval_index * ms.num_states + j))
    else Expression.var (Variable.placeholder_x j)
  | Variable.placeholder_u j =>
    if j < ms.num_inputs then Expression.var (Variable.u (interval_index * ms.num_inputs + j))
    else Expression.var (Variable.placeholder_u j)
  | Variable.placeholder_t => Expression.const ((interval_index : ℚ) * ms.fixed_time_step)
  | v => Expression.var v

/-- Modelled from the spec: `MultipleShooting::SubstitutePlaceholderVariables`. -/
def MultipleShooting.SubstitutePlaceholderVariables (ms : MultipleShooting) (e : Expression)
    (interval_index : Nat) : Expression :=
  e.Substitute (ms.placeholderSubstitution interval_index)

/-- Modelled from the spec: `AddCost(e)`, the registration of one cost term. -/
def MathematicalProgram.AddCost (prog : MathematicalProgram) (e : Expression) :
    MathematicalProgram :=
  { prog with costs := prog.costs ++ [e] }

/-- The loop `for (int i = 0; i < N() - 1; i++)` of `DoAddRunningCost`, with
`remaining` iterations left from interval `i`. -/
def DirectTranscription.runningCostLoop {T : Type} (g : Expression) :
    (remaining : Nat) → (i : Nat) → DirectTranscription T → DirectTranscription T
  | 0, _, self => self
  | remaining + 1, i, self =>
    DirectTranscription.runningCostLoop g remaining (i + 1)
      (self.withProg
        (self.prog.AddCost
          (self.SubstitutePlaceholderVariables (g * ((self.fixed_time_step : ℚ) : Expression))
            i)))

/-- `DoAddRunningCost`. -/
def DirectTranscription.DoAddRunningCost {T : Type} (self : DirectTranscription T)
    (g : Expression) : DirectTranscription T :=
  DirectTranscription.runningCostLoop g (self.N - 1) 0 self

/-- The values an assignment gives to the placeholders once they stand for the
variables of interval `interval_index`. -/
def MultipleShooting.intervalAssignment (ms : MultipleShooting) (env : Variable → ℚ)
    (interval_index : Nat) : Variable → ℚ :=
  fun v => (ms.placeholderSubstitution interval_index v).Evaluate env

/-- Modelled from the spec: `MathematicalProgramResult`, the solved value of every
decision variable (§6). -/
structure MathematicalProgramResult where
  solution : Variable → ℚ

/-- Modelled from the spec: `GetSolution(vars)`, the solved values of a vector of
decision variables (§4.5). -/
def MathematicalProgramResult.GetSolution (result : MathematicalProgramResult)
    (vars : List Variable) : List ℚ :=
  vars.map result.solution

/-- Modelled from the spec: `MultipleShooting::GetSampleTimes`, the `N` sample times
of a fixed-step problem: the `i`-th is `i * fixed_time_step`. -/
def MultipleShooting.GetSampleTimes (ms : MultipleShooting) (_result : MathematicalProgramResult) :
    List ℚ :=
  (List.range ms.N).map fun (i : Nat) => (i : ℚ) * ms.fixed_time_step

/-- Modelled from the spec: the interpolant returned by
`PiecewisePolynomial<double>::ZeroOrderHold`: its breakpoints and the sample held
from each of them. -/
structure PiecewisePolynomial where
  breaks : List ℚ
  samples : List (List ℚ)
  deriving DecidableEq, Repr

namespace PiecewisePolynomial

/-- Modelled from the spec: `ZeroOrderHold(breaks, samples)` (§4.5). -/
def ZeroOrderHold (breaks : List ℚ) (samples : List (List ℚ)) : PiecewisePolynomial :=
  { breaks := breaks, samples := samples }

/-- Modelled from the spec: the index of the segment `[t_i, t_{i+1})` of `breaks` used at time `t`
(the first segment before the first break, the last one from the last but one
break on). -/
def segmentIndex : List ℚ → ℚ → Nat
  | [], _ => 0
  | _ :: tail, t =>
    match tail with
    | [] => 0
    | [_] => 0
    | t1 :: _ :: _ => if t < t1 then 0 else 1 + segmentIndex tail t

/-- Modelled from the spec: the value of a zero-order hold at time `t`: the sample
of the segment that contains `t` (piecewise constant, glossary). -/
def value (p : PiecewisePolynomial) (t : ℚ) : List ℚ :=
  p.samples.getD (segmentIndex p.breaks t) []

end PiecewisePolynomial

/-- The loop `for (int i = 0; i < N(); i++)` shared by the two reconstructions,
with `remaining` iterations left from index `i`: entry `i` of the pre-sized
vectors `times_vec` and `values` is assigned `times(i)` and the solution of the
`i`-th variables. -/
def DirectTranscription.reconstructLoop (times : List ℚ) (solution_at : Nat → List ℚ) :
    (remaining : Nat) → (i : Nat) → List ℚ → List (List ℚ) → List ℚ × List (List ℚ)
  | 0, _, times_vec, values => (times_vec, values)
  | remaining + 1, i, times_vec, values =>
    DirectTranscription.reconstructLoop times solution_at remaining (i + 1)
      (times_vec.set i (times.getD i 0)) (values.set i (solution_at i))

/-- `ReconstructInputTrajectory`. -/
def DirectTranscription.ReconstructInputTrajectory {T : Type} (self : DirectTranscription T)
    (result : MathematicalProgramResult) : PiecewisePolynomial :=
  let times := self.GetSampleTimes result
  let filled :=
    DirectTranscription.reconstructLoop times (fun i => result.GetSolution (self.input i))
      self.N 0 (List.replicate self.N 0) (List.replicate self.N [])
  PiecewisePolynomial.ZeroOrderHold filled.1 filled.2

/-- `ReconstructStateTrajectory`. -/
def DirectTranscription.ReconstructStateTrajectory {T : Type} (self : DirectTranscription T)
    (result : MathematicalProgramResult) : PiecewisePolynomial :=
  let times := self.GetSampleTimes result
  let filled :=
    DirectTranscription.reconstructLoop times (fun i => result.GetSolution (self.state i))
      self.N 0 (List.replicate self.N 0) (List.replicate self.N [])
  PiecewisePolynomial.ZeroOrderHold filled.1 filled.2

/-- A solved result of the discrete scenario: the trajectory `x[k] = (1/2)^k`,
`u[k] = 0`. -/
def scenario.halvingResult : MathematicalProgramResult :=
  { solution := scenario.halving }

/-- A call of the `const` method `ReconstructInputTrajectory` with a result passed
by `const&`, as a step on the pair (builder, result): the body assigns only its
locals `times`, `times_vec` and `inputs`, so the pair is handed back as it was
given, next to the returned interpolant. -/
def DirectTranscription.callReconstructInputTrajectory {T : Type}
    (s : DirectTranscription T × MathematicalProgramResult) :
    (DirectTranscription T × MathematicalProgramResult) × PiecewisePolynomial :=
  (s, s.1.ReconstructInputTrajectory s.2)

/-- A call of the `const` method `ReconstructStateTrajectory`, as a step on the pair
(builder, result), like `callReconstructInputTrajectory`. -/
def DirectTranscription.callReconstructStateTrajectory {T : Type}
    (s : DirectTranscription T × MathematicalProgramResult) :
    (DirectTranscription T × MathematicalProgramResult) × PiecewisePolynomial :=
  (s, s.1.ReconstructStateTrajectory s.2)

/-- The update `x[k+1] = 0.5 x[k] + u[k]` at time 0 and `x[k+1] = |x[k]|` at any
later time, over expressions: affine in the first interval only. -/
def scenario.switchingUpdate (c : Context Expression) : List (List Expression) :=
  if c.time = Expression.const 0 then scenario.halfUpdate c
  else [(c.discrete_state.getD 0 []).map Expression.abs]

/-- The same update over `double`. -/
def scenario.switchingUpdateDouble (c : Context ℚ) : List (List ℚ) :=
  if c.time = 0 then scenario.halfUpdate c
  else [(c.discrete_state.getD 0 []).map fun (x : ℚ) => |x|]

/-- The discrete scenario with its update replaced by the switching one: a system
whose next state is affine in the first interval and not affine afterwards. -/
def scenario.switchingSystem : DoubleSystem ℚ :=
  { toSystem :=
      { scenario.discreteSystemOn ℚ with
        EvalUniquePeriodicDiscreteUpdate := scenario.switchingUpdateDouble }
    ToSymbolicMaybe :=
      some { scenario.discreteSystemOn Expression with
             EvalUniquePeriodicDiscreteUpdate := scenario.switchingUpdate }
    ToAutoDiffXd :=
      some { scenario.discreteSystemOn ℚ with
             EvalUniquePeriodicDiscreteUpdate := scenario.switchingUpdateDouble } }

/-- Two contents `a`, `b` of the shared context that differ at most in what an
evaluation of a constraint with input-value handle `handle` overwrites: the
time, the values of the continuous state, discrete state group 0 and the fixed
value of the handle's input port. Everything an evaluation leaves alone is the
same in both: whether there is continuous state, the number of discrete groups
and the groups past group 0, the abstract states, the parameters, and the fixed
values of the other input ports. -/
def Context.SameUnwritten {T : Type} (handle : Option Nat) (a b : Context T) : Prop :=
  (a.continuous_state = [] ↔ b.continuous_state = []) ∧
  a.discrete_state.length = b.discrete_state.length ∧
  a.discrete_state.drop 1 = b.discrete_state.drop 1 ∧
  a.num_abstract_states = b.num_abstract_states ∧
  a.parameters = b.parameters ∧
  a.fixed_input_port_values.length = b.fixed_input_port_values.length ∧
  ∀ port, handle = some port →
    a.fixed_input_port_values.set port none = b.fixed_input_port_values.set port none

/-- The shared context after some history: `context` with its time, the fixed value
of the handle's input port and its state (the continuous state in continuous
mode, discrete state group 0 otherwise) replaced by arbitrary contents `t`,
`input`, `state`. -/
def Context.withHistory {T : Type} (context : Context T) (handle : Option Nat) (t : T)
    (state input : List T) : Context T :=
  let context := context.SetTime t
  let context :=
    match handle with
    | some port => context.FixValue port input
    | none => context
  if context.has_only_continuous_state then context.SetContinuousState state
  else context.SetDiscreteState 0 state

/-! ## The revolute joint (drake/multibody/tree) -/

namespace multibody

/-- The type `Vector3<double>`. -/
structure Vector3 where
  x : Double
  y : Double
  z : Double
  deriving DecidableEq, Repr

namespace Vector3

/-- Modelled from the spec: `isZero(prec)` of the linear-algebra library: every
component has absolute value at most `prec` (a comparison that a NaN fails). -/
def isZero (v : Vector3) (prec : Double) : Bool :=
  Double.le v.x.abs prec && Double.le v.y.abs prec && Double.le v.z.abs prec

/-- Modelled from the spec: `squaredNorm()` of the linear-algebra library: the sum
of the squares of the components, in double arithmetic. -/
def squaredNorm (v : Vector3) : Double := v.x * v.x + v.y * v.y + v.z * v.z

/-- Modelled from the spec: `normalized()` of the linear-algebra library: with `z`
the squared length, the vector with each component divided by `sqrt(z)` when
`z > 0`, the vector itself otherwise, all in double arithmetic. -/
def normalized (v : Vector3) : Vector3 :=
  let z := v.squaredNorm
  if Double.lt 0 z then ⟨v.x / z.sqrt, v.y / z.sqrt, v.z / z.sqrt⟩ else v

end Vector3

/-- Modelled from the spec: the members of the base class `Joint<T>` that its
constructor receives: the name, the two frames (by index), the damping and the
position, velocity and acceleration limits, one entry per degree of freedom. -/
structure Joint where
  name : String
  frame_on_parent : Nat
  frame_on_child : Nat
  default_damping : List Double
  pos_lower_limits : List Double
  pos_upper_limits : List Double
  vel_lower_limits : List Double
  vel_upper_limits : List Double
  acc_lower_limits : List Double
  acc_upper_limits : List Double
  deriving DecidableEq, Repr

/-- Modelled from the spec: the constructor of the base class `Joint<T>`, which
stores its arguments; the demands it makes of them are not part of the source
and are the parameter `demands`. -/
def Joint.create (demands : Joint → Except Error Unit) (name : String)
    (frame_on_parent frame_on_child : Nat) (damping : List Double)
    (pos_lower_limits pos_upper_limits vel_lower_limits vel_upper_limits acc_lower_limits
      acc_upper_limits : List Double) : Except Error Joint :=
  let joint : Joint :=
    { name := name
      frame_on_parent := frame_on_parent
      frame_on_child := frame_on_child
      default_damping := damping
      pos_lower_limits := pos_lower_limits
      pos_upper_limits := pos_upper_limits
      vel_lower_limits := vel_lower_limits
      vel_upper_limits := vel_upper_limits
      acc_lower_limits := acc_lower_limits
      acc_upper_limits := acc_upper_limits }
  match demands joint with
  | .error e => .error e
  | .ok _ => .ok joint

/-- The object `RevoluteJoint<T>`: its `Joint<T>` base and the member `axis_`. -/
structure RevoluteJoint extends Joint where
  axis_ : Vector3
  deriving DecidableEq, Repr

/-- The constant `kEpsilon = std::numeric_limits<double>::epsilon()`. -/
def kEpsilon : Double := Double.finite (1 / 2 ^ 52)

/-- The constructor `RevoluteJoint<T>::RevoluteJoint`: the base-class constructor
runs first, then the two checks of the body, then `axis_ = axis.normalized()`. -/
def RevoluteJoint.create (demands : Joint → Except Error Unit) (name : String)
    (frame_on_parent frame_on_child : Nat) (axis : Vector3)
    (pos_lower_limit pos_upper_limit : Double) (damping : Double) :
    Except Error RevoluteJoint :=
  match Joint.create demands name frame_on_parent frame_on_child [damping] [pos_lower_limit]
      [pos_upper_limit] [Double.neg_infinity] [Double.infinity] [Double.neg_infinity]
      [Double.infinity] with
  | .error e => .error e
  | .ok joint =>
    if axis.isZero kEpsilon then
      .error .logic_error
    else if Double.lt damping 0 then
      .error .logic_error
    else
      .ok { toJoint := joint, axis_ := axis.normalized }

end multibody

@[simp]
theorem binary64.round_zero : binary64.round 0 = 0 := by
  simp [binary64.round]

theorem binary64.round_nonneg (q : ℚ) (h : 0 ≤ q) : 0 ≤ binary64.round q := by
  unfold binary64.round
  split
  · exact le_refl 0
  · simp only
    rw [if_neg (not_lt.mpr h)]
    split <;> positivity

theorem binary64.mul_nonneg_of_nonneg (a b : ℚ) (ha : 0 ≤ a) (hb : 0 ≤ b) :
    0 ≤ binary64.mul a b :=
  binary64.round_nonneg _ (mul_nonneg ha hb)

theorem binary64.mul_one_one : binary64.mul 1 1 = 1 := by decide!

/-- Values of the rounding: the literal `0.1`; the sums and products of the
time grids with step `0.1`; ties to even at `2^53 + 1` and at half the smallest
subnormal; the overflow threshold `2^1024 - 2^970`; the square roots of 2 and
of 25. -/
theorem binary64.round_values :
    binary64.round (1 / 10) = scenario.tenth ∧
      binary64.round (-(1 / 10)) = -scenario.tenth ∧
      binary64.mul 2 scenario.tenth = 2 * scenario.tenth ∧
      binary64.mul 3 scenario.tenth = 5404319552844596 / 18014398509481984 ∧
      binary64.add (2 * scenario.tenth) scenario.tenth = 5404319552844596 / 18014398509481984 ∧
      binary64.round (2 ^ 53 + 1) = 2 ^ 53 ∧
      binary64.round (2 ^ 53 + 3) = 2 ^ 53 + 4 ∧
      binary64.round (1 / 2 ^ 1075) = 0 ∧
      binary64.round (3 / 2 ^ 1075) = 1 / 2 ^ 1073 ∧
      binary64.round (2 ^ 1024 - 2 ^ 970 - 1) = binary64.maxFinite ∧
      binary64.round (2 ^ 1024 - 2 ^ 970) = 2 ^ 1024 ∧
      binary64.round (binary64.sqrt 2) = 6369051672525773 / 4503599627370496 ∧
      binary64.round (binary64.sqrt 25) = 5 := by
  refine ⟨by decide!, by decide!, by decide!, by decide!, by decide!, by decide!, by decide!,
    by decide!, by decide!, by decide!, by decide!, by decide!, by decide!⟩

@[simp]
theorem binary64.mul_zero_left (b : ℚ) : binary64.mul 0 b = 0 := by
  simp [binary64.mul, binary64.round_zero]

variable {T : Type}

namespace DirectTranscription

/-- Past the first interval the symbolic loop never returns `false`. -/
theorem symbolicLoop_ne_false (sys : System Expression) (ip : Option (Nat × InputPort)) :
    ∀ (k i : Nat) (integ : IntegratorBase Expression) (self : DirectTranscription T),
      i ≠ 0 → (symbolicLoop sys ip k i integ self).2 ≠ .ok false := by
  intro k
  induction k with
  | zero => intro i integ self _; simp [symbolicLoop]
  | succ k ih =>
    intro i integ self hi
    rw [symbolicLoop]
    rcases hns : self.symbolicNextState sys ip i integ with ⟨integ2, _ | ns⟩
    · simp
    · have hi0 : (i == 0) = false := by simpa using hi
      simp only [hi0, Bool.false_and, Bool.false_eq_true, if_false]
      rcases hadd : self.prog.AddLinearEqualityConstraint (castVars (self.state (i + 1))) ns with
        _ | prog
      · simp
      · simpa using ih (i + 1) integ2 (self.withProg prog) (Nat.succ_ne_zero i)

/-- A symbolic loop that returns `false` does so in its first pass, on a
next-state expression that is not affine, leaving the builder as it was. -/
theorem symbolicLoop_false (sys : System Expression) (ip : Option (Nat × InputPort))
    (k : Nat) (integ : IntegratorBase Expression) (self : DirectTranscription T)
    (h : (symbolicLoop sys ip k 0 integ self).2 = .ok false) :
    (symbolicLoop sys ip k 0 integ self).1 = self ∧
      k ≠ 0 ∧ ∃ ns, (self.symbolicNextState sys ip 0 integ).2 = .ok ns ∧
        IsAffine ns self.prog.decision_variables = false := by
  cases k with
  | zero => simp [symbolicLoop] at h
  | succ k =>
    rw [symbolicLoop] at h ⊢
    rcases hns : self.symbolicNextState sys ip 0 integ with ⟨integ2, _ | ns⟩
    · rw [hns] at h; simp at h
    · rw [hns] at h
      simp only at h ⊢
      by_cases haff : IsAffine ns self.prog.decision_variables = true
      · simp only [haff, beq_self_eq_true, Bool.not_true, Bool.and_false, Bool.false_eq_true,
          if_false] at h
        rcases hadd : self.prog.AddLinearEqualityConstraint (castVars (self.state (0 + 1))) ns with
          _ | prog
        · rw [hadd] at h; simp at h
        · rw [hadd] at h
          exact absurd h (symbolicLoop_ne_false sys ip k 1 integ2 (self.withProg prog) (by decide))
      · have haff2 : IsAffine ns self.prog.decision_variables = false := by simpa using haff
        simp [haff2]

end DirectTranscription

@[simp]
theorem Expression.ratCast_eq (q : ℚ) : ((q : ℚ) : Expression) = Expression.const q := rfl

theorem Expression.const_sub_const (a b : ℚ) :
    (Expression.const a - Expression.const b : Expression) = Expression.const (a - b) := rfl

theorem DiscreteValues.get_vector_ok {d : List (List T)} {i : Nat} {v : List T}
    (h : DiscreteValues.get_vector d i = .ok v) : d.getD i [] = v := by
  unfold DiscreteValues.get_vector at h
  cases hg : d.get? i with
  | none => rw [hg] at h; simp at h
  | some w =>
    rw [hg] at h
    simp only [Except.ok.injEq] at h
    rw [List.get?_eq_getElem?] at hg
    simp [List.getD, hg, h]

namespace DirectTranscription

theorem symbolicNextState_ok (self : DirectTranscription T) (sym : System Expression)
    (ip : Option (Nat × InputPort)) (i : Nat) (integ integ2 : IntegratorBase Expression)
    (ns : List Expression) (hsys : integ.system = sym)
    (h : self.symbolicNextState sym ip i integ = (integ2, .ok ns)) :
    ns = OneStepAdvance sym self.discrete_time_system_
        (binary64.mul ((i + 1 : Nat) : ℚ) self.fixed_time_step -
          binary64.mul (i : ℚ) self.fixed_time_step) integ.context
        (ip.map Prod.fst) (binary64.mul (i : ℚ) self.fixed_time_step) (castVars (self.state i))
        (castVars (self.input i)) ∧
      integ2.system = sym ∧
      ∀ (s t : ℚ) (x u : List Expression),
        OneStepAdvance sym self.discrete_time_system_ s integ2.context
          (ip.map Prod.fst) t x u =
        OneStepAdvance sym self.discrete_time_system_ s integ.context
          (ip.map Prod.fst) t x u := by
  unfold symbolicNextState at h
  cases hd : self.discrete_time_system_
  · -- continuous mode
    simp only [hd, Bool.false_eq_true, if_false, IntegratorBase.IntegrateWithSingleFixedStepToTime,
      DRAKE_THROW_UNLESS, if_true, Prod.mk.injEq, Except.ok.injEq] at h
    obtain ⟨h1, h2⟩ := h
    subst h1
    refine ⟨?_, hsys, ?_⟩
    · rw [← h2]
      cases ip <;>
        simp [OneStepAdvance, AdvanceContext, Context.SetTime, Context.SetContinuousState, Context.FixValue,
          Expression.const_sub_const, hsys]
    · intro s t x u
      cases ip <;>
        simp [OneStepAdvance, AdvanceContext, Context.SetTime, Context.SetContinuousState, Context.FixValue]
  · -- discrete mode
    simp only [hd, if_true, Prod.mk.injEq] at h
    obtain ⟨h1, h2⟩ := h
    subst h1
    refine ⟨?_, hsys, ?_⟩
    · have := DiscreteValues.get_vector_ok h2
      rw [← this]
      cases ip <;> simp [OneStepAdvance, AdvanceContext, Context.SetTime, Context.SetDiscreteState, Context.FixValue]
    · intro s t x u
      cases ip <;>
        simp [OneStepAdvance, AdvanceContext, Context.SetTime, Context.SetDiscreteState, Context.FixValue]


theorem AddLinearEqualityConstraint_ok {prog prog2 : MathematicalProgram} {lhs rhs : List Expression}
    (h : prog.AddLinearEqualityConstraint lhs rhs = .ok prog2) :
    prog2 = { prog with
      linear_equality_constraints := prog.linear_equality_constraints ++ [⟨lhs, rhs⟩] } := by
  unfold MathematicalProgram.AddLinearEqualityConstraint at h
  split at h
  · simpa using h.symm
  · simp at h

theorem symbolicLoop_true (sym : System Expression) (ip : Option (Nat × InputPort)) :
    ∀ (k i : Nat) (integ : IntegratorBase Expression) (self result : DirectTranscription T),
      integ.system = sym →
      symbolicLoop sym ip k i integ self = (result, .ok true) →
      result = self.withProg
        { self.prog with
          linear_equality_constraints := self.prog.linear_equality_constraints ++
            (List.range' i k).map fun j =>
              ⟨castVars (self.state (j + 1)),
                OneStepAdvance sym self.discrete_time_system_
                  (binary64.mul ((j + 1 : Nat) : ℚ) self.fixed_time_step -
                    binary64.mul (j : ℚ) self.fixed_time_step) integ.context
                  (ip.map Prod.fst) (binary64.mul (j : ℚ) self.fixed_time_step)
                  (castVars (self.state j)) (castVars (self.input j))⟩ } := by
  intro k
  induction k with
  | zero =>
    intro i integ self result _ h
    simp only [symbolicLoop, Prod.mk.injEq, and_true] at h
    subst h
    simp [withProg]
  | succ k ih =>
    intro i integ self result hsys h
    rw [symbolicLoop] at h
    rcases hns : self.symbolicNextState sym ip i integ with ⟨integ2, _ | ns⟩
    · rw [hns] at h; simp at h
    · rw [hns] at h
      simp only at h
      split at h
      · simp at h
      · rcases hadd : self.prog.AddLinearEqualityConstraint (castVars (self.state (i + 1))) ns with
          _ | prog
        · rw [hadd] at h; simp at h
        · rw [hadd] at h
          simp only at h
          obtain ⟨hns1, hsys2, hinv⟩ := symbolicNextState_ok self sym ip i integ integ2 ns hsys hns
          have := ih (i + 1) integ2 (self.withProg prog) result hsys2 h
          rw [this, AddLinearEqualityConstraint_ok hadd, hns1]
          simp only [withProg, List.range'_succ, List.map_cons, List.append_assoc,
            List.singleton_append]
          simp only [hinv]
          rfl

end DirectTranscription

theorem Expression.Evaluate_add (env : Variable → ℚ) (a b : Expression) :
    (a + b).Evaluate env = a.Evaluate env + b.Evaluate env := by
  show (Expression.plus a b).Evaluate env = _
  cases a <;> cases b <;> simp [Expression.plus, Expression.Evaluate]

theorem Expression.Evaluate_mul (env : Variable → ℚ) (a b : Expression) :
    (a * b).Evaluate env = a.Evaluate env * b.Evaluate env := by
  show (Expression.times a b).Evaluate env = _
  cases a <;> cases b <;> simp [Expression.times, Expression.Evaluate]

theorem Expression.Evaluate_sub (env : Variable → ℚ) (a b : Expression) :
    (a - b).Evaluate env = a.Evaluate env - b.Evaluate env := by
  show (Expression.minus a b).Evaluate env = _
  cases a <;> cases b <;> simp [Expression.minus, Expression.Evaluate] <;> ring

theorem EvaluateVec_getD (env : Variable → ℚ) (d : List (List Expression)) (i : Nat) :
    EvaluateVec env (d.getD i []) = (d.map (EvaluateVec env)).getD i [] := by
  simp only [List.getD_eq_getElem?_getD, List.getElem?_map]
  cases d[i]? <;> simp [EvaluateVec]

theorem EvaluateVec_castVars (env : Variable → ℚ) (vs : List Variable) :
    EvaluateVec env (castVars vs) = vs.map env := by
  simp [EvaluateVec, castVars, Expression.Evaluate]

theorem EvaluateVec_castConst (env : Variable → ℚ) (l : List ℚ) :
    EvaluateVec env (l.map fun q => ((q : ℚ) : Expression)) = l := by
  have : (Expression.Evaluate env ∘ fun q => Expression.const q) = id := by
    funext q; simp [Expression.Evaluate]
  simp [EvaluateVec, this]

theorem Context.Evaluate_SetTime (env : Variable → ℚ) (c : Context Expression) (e : Expression) :
    (c.SetTime e).Evaluate env = (c.Evaluate env).SetTime (e.Evaluate env) := rfl

theorem Context.Evaluate_SetContinuousState (env : Variable → ℚ) (c : Context Expression)
    (x : List Expression) :
    (c.SetContinuousState x).Evaluate env = (c.Evaluate env).SetContinuousState (EvaluateVec env x) :=
  rfl

theorem Context.Evaluate_SetDiscreteState (env : Variable → ℚ) (c : Context Expression) (i : Nat)
    (x : List Expression) :
    (c.SetDiscreteState i x).Evaluate env =
      (c.Evaluate env).SetDiscreteState i (EvaluateVec env x) := by
  simp [Context.SetDiscreteState, Context.Evaluate, List.map_set]

theorem Context.Evaluate_FixValue (env : Variable → ℚ) (c : Context Expression) (p : Nat)
    (u : List Expression) :
    (c.FixValue p u).Evaluate env = (c.Evaluate env).FixValue p (EvaluateVec env u) := by
  simp [Context.FixValue, Context.Evaluate, List.map_set]

theorem EvaluateVec_eulerStep (env : Variable → ℚ) (h : ℚ) (x d : List Expression) :
    EvaluateVec env (List.zipWith (fun a b => a + ((h : ℚ) : Expression) * b) x d) =
      List.zipWith (fun a b => a + ((h : ℚ) : ℚ) * b) (EvaluateVec env x) (EvaluateVec env d) := by
  simp [EvaluateVec, List.map_zipWith, List.zipWith_map, Expression.Evaluate_add,
    Expression.Evaluate_mul, Expression.Evaluate]

theorem OneStepAdvance_Evaluate (sym : System Expression) (num : System ℚ)
    (hc : IsSymbolicCounterpart sym num) (env : Variable → ℚ) (d : Bool) (h : ℚ)
    (c : Context Expression) (ip : Option Nat) (t : ℚ) (x u : List Expression) :
    EvaluateVec env (OneStepAdvance sym d h c ip t x u) =
      OneStepAdvance num d h (c.Evaluate env) ip t (EvaluateVec env x) (EvaluateVec env u) := by
  obtain ⟨_, hupd, hder⟩ := hc
  have ht : (((t : ℚ) : Expression)).Evaluate env = ((t : ℚ) : ℚ) := by
    simp [Expression.Evaluate]
  cases d
  · cases ip <;>
      simp only [OneStepAdvance, AdvanceContext, Bool.false_eq_true, if_false,
        EvaluateVec_eulerStep, hder,
        Context.Evaluate_SetContinuousState, Context.Evaluate_FixValue, Context.Evaluate_SetTime, ht,
        Rat.cast_id]
  · cases ip <;>
      simp only [OneStepAdvance, AdvanceContext, if_true, EvaluateVec_getD, hupd,
        Context.Evaluate_SetDiscreteState, Context.Evaluate_FixValue, Context.Evaluate_SetTime, ht,
        Rat.cast_id]

theorem Context.Evaluate_SetTimeStateAndParametersFrom (env : Variable → ℚ)
    (c : Context Expression) (source : Context ℚ) :
    (c.SetTimeStateAndParametersFrom source).Evaluate env =
      (c.Evaluate env).SetTimeStateAndParametersFrom source := by
  have hcast : ∀ l : List ℚ, EvaluateVec env (l.map fun q => ((q : ℚ) : Expression)) =
      l.map fun q => ((q : ℚ) : ℚ) := by
    intro l
    rw [EvaluateVec_castConst]
    exact (List.map_id l).symm
  show Context.mk _ _ _ _ _ _ = Context.mk _ _ _ _ _ _
  congr 1
  · exact hcast _
  · show List.map (EvaluateVec env) (List.map _ source.discrete_state) = _
    rw [List.map_map]
    apply List.map_congr_left
    intro g _
    exact hcast g
  · exact hcast _


/-! ### The symbolic fast path -/

/-- C1: whenever `AddSymbolicDynamicConstraints` returns `false`, the program (indeed
the whole builder) is the one it was called on, so no constraint was added; and
`false` is returned only when the system has no symbolic counterpart, or the
symbolic system has abstract state, or the next-state expression of the first
interval is not affine in the decision variables. -/
theorem AddSymbolicDynamicConstraints_false_adds_nothing (self : DirectTranscription T)
    (system : DoubleSystem T) (context : Context ℚ) (input_port_index : InputPortChoice)
    (h : (self.AddSymbolicDynamicConstraints system context input_port_index).2 = .ok false) :
    (self.AddSymbolicDynamicConstraints system context input_port_index).1.prog = self.prog ∧
      (self.AddSymbolicDynamicConstraints system context input_port_index).1 = self ∧
      (system.ToSymbolicMaybe = none ∨
        (∃ symbolic_system, system.ToSymbolicMaybe = some symbolic_system ∧
          SystemSymbolicInspector.IsAbstract symbolic_system
            symbolic_system.CreateDefaultContext = true) ∨
        (∃ symbolic_system input_port next_state,
          system.ToSymbolicMaybe = some symbolic_system ∧
          symbolic_system.get_input_port_selection input_port_index = .ok input_port ∧
          (self.symbolicNextState symbolic_system input_port 0
            (IntegratorBase.Initialize
              { system := symbolic_system
                max_step_size := self.fixed_time_step
                context := symbolic_system.CreateDefaultContext.SetTimeStateAndParametersFrom context
                initialized := false })).2 = .ok next_state ∧
          IsAffine next_state self.prog.decision_variables = false)) := by
  unfold DirectTranscription.AddSymbolicDynamicConstraints at h ⊢
  rcases hsym : system.ToSymbolicMaybe with _ | symbolic_system
  · simp
  · rw [hsym] at h
    simp only at h ⊢
    by_cases habs : SystemSymbolicInspector.IsAbstract symbolic_system
        symbolic_system.CreateDefaultContext = true
    · simp [habs]
    · simp only [habs, Bool.false_eq_true, if_false] at h ⊢
      rcases hsel : symbolic_system.get_input_port_selection input_port_index with _ | input_port
      · rw [hsel] at h; simp at h
      · rw [hsel] at h
        simp only at h ⊢
        obtain ⟨h1, _, ns, h3, h4⟩ := DirectTranscription.symbolicLoop_false _ _ _ _ _ h
        refine ⟨by rw [h1], h1, Or.inr (Or.inr ⟨symbolic_system, input_port, ns, rfl, hsel, h3, h4⟩)⟩

/-- Witness for C1: the discrete scenario without symbolic support. -/
theorem AddSymbolicDynamicConstraints_false_adds_nothing_witness :
    (scenario.discreteBuilder.AddSymbolicDynamicConstraints (scenario.discreteSystem false)
        (scenario.discreteSystemOn ℚ).CreateDefaultContext scenario.firstInput).2 = .ok false ∧
      (scenario.discreteBuilder.AddSymbolicDynamicConstraints (scenario.discreteSystem false)
        (scenario.discreteSystemOn ℚ).CreateDefaultContext scenario.firstInput).1.prog =
        scenario.discreteBuilder.prog :=
  ⟨rfl, (AddSymbolicDynamicConstraints_false_adds_nothing scenario.discreteBuilder
    (scenario.discreteSystem false) (scenario.discreteSystemOn ℚ).CreateDefaultContext
    scenario.firstInput rfl).1⟩

theorem LinearEqualityConstraint.residual_zero (env : Variable → ℚ) (c : LinearEqualityConstraint)
    (h : c.Holds env) : ∀ r ∈ c.residual env, r = 0 := by
  unfold LinearEqualityConstraint.Holds at h
  unfold LinearEqualityConstraint.residual
  rw [h]
  intro r hr
  rw [List.mem_iff_getElem] at hr
  obtain ⟨n, hn, rfl⟩ := hr
  simp

/-- C2 (amended): when `AddSymbolicDynamicConstraints` returns `true` (for every `N`, so
for `N ≥ 2`) on a builder whose time grid stays within the finite range of
`double`, the program has gained exactly the `N - 1` linear equalities
`state(i+1) == F_i(state(i), input(i))`, `i = 0..N-2` in increasing order, where
`F_i` is the symbolic system's one-step advance at the time `t_i`, the double
product `i * fixed_time_step`: the periodic discrete update in discrete mode,
and in continuous mode one explicit Euler step of size `t_(i+1) - t_i`, the
difference of two double products. That size is `fixed_time_step` when the two
products are exact, as in interval 0 for a step that is a double. When the
symbolic system is the scalar conversion of the system, every assignment whose
states are obtained by advancing the system with these `F_i` (`state(i+1)` is the
system's advance of `state(i)`, `input(i)`) satisfies each of the equalities with
residual zero. -/
theorem AddSymbolicDynamicConstraints_true_adds_one_step_equalities
    (self result : DirectTranscription T) (system : DoubleSystem T) (context : Context ℚ)
    (input_port_index : InputPortChoice)
    (_hrange : |(self.N : ℚ) * self.fixed_time_step| ≤ binary64.maxFinite)
    (h : self.AddSymbolicDynamicConstraints system context input_port_index =
      (result, .ok true)) :
    (∃ symbolic_system input_port,
      system.ToSymbolicMaybe = some symbolic_system ∧
      symbolic_system.get_input_port_selection input_port_index = .ok input_port ∧
      ∃ added : List LinearEqualityConstraint,
        added = (List.range (self.N - 1)).map (fun i =>
          ⟨castVars (self.state (i + 1)),
            OneStepAdvance symbolic_system self.discrete_time_system_
              (binary64.mul ((i + 1 : Nat) : ℚ) self.fixed_time_step -
                binary64.mul (i : ℚ) self.fixed_time_step)
              (symbolic_system.CreateDefaultContext.SetTimeStateAndParametersFrom context)
              (input_port.map Prod.fst) (binary64.mul (i : ℚ) self.fixed_time_step)
              (castVars (self.state i)) (castVars (self.input i))⟩) ∧
        added.length = self.N - 1 ∧
        result = self.withProg { self.prog with
          linear_equality_constraints := self.prog.linear_equality_constraints ++ added } ∧
        (IsSymbolicCounterpart symbolic_system system.toSystem →
          ∀ env : Variable → ℚ,
            (∀ i, i < self.N - 1 →
              EvaluateVec env (castVars (self.state (i + 1))) =
                OneStepAdvance system.toSystem self.discrete_time_system_
                  (binary64.mul ((i + 1 : Nat) : ℚ) self.fixed_time_step -
                    binary64.mul (i : ℚ) self.fixed_time_step)
                  (system.CreateDefaultContext.SetTimeStateAndParametersFrom context)
                  (input_port.map Prod.fst) (binary64.mul (i : ℚ) self.fixed_time_step)
                  (EvaluateVec env (castVars (self.state i)))
                  (EvaluateVec env (castVars (self.input i)))) →
            ∀ c ∈ added, c.Holds env ∧ ∀ r ∈ c.residual env, r = 0)) ∧
      (∀ i : Nat,
        binary64.mul ((i + 1 : Nat) : ℚ) self.fixed_time_step =
          ((i + 1 : Nat) : ℚ) * self.fixed_time_step →
        binary64.mul (i : ℚ) self.fixed_time_step = (i : ℚ) * self.fixed_time_step →
        binary64.mul ((i + 1 : Nat) : ℚ) self.fixed_time_step -
          binary64.mul (i : ℚ) self.fixed_time_step = self.fixed_time_step) ∧
      (binary64.round self.fixed_time_step = self.fixed_time_step →
        binary64.mul ((0 + 1 : Nat) : ℚ) self.fixed_time_step -
          binary64.mul ((0 : Nat) : ℚ) self.fixed_time_step = self.fixed_time_step) := by
  refine ⟨?_, ?_, ?_⟩
  · unfold DirectTranscription.AddSymbolicDynamicConstraints at h
    rcases hsym : system.ToSymbolicMaybe with _ | symbolic_system
    · rw [hsym] at h; simp at h
    · rw [hsym] at h
      simp only at h
      split at h
      · simp at h
      · rcases hsel : symbolic_system.get_input_port_selection input_port_index with
          _ | input_port
        · rw [hsel] at h; simp at h
        · rw [hsel] at h
          simp only at h
          have hloop := DirectTranscription.symbolicLoop_true symbolic_system input_port _ _ _ _
            _ rfl h
          refine ⟨symbolic_system, input_port, rfl, hsel, _, rfl, by simp, ?_, ?_⟩
          · rw [hloop, List.range_eq_range']
            rfl
          · intro hc env hsim c hmem
            have hholds : c.Holds env := by
              rw [List.mem_map] at hmem
              obtain ⟨i, hi, rfl⟩ := hmem
              rw [List.mem_range] at hi
              unfold LinearEqualityConstraint.Holds
              simp only
              rw [hsim i hi, OneStepAdvance_Evaluate _ _ hc,
                Context.Evaluate_SetTimeStateAndParametersFrom, hc.1]
            exact ⟨hholds, LinearEqualityConstraint.residual_zero env c hholds⟩
  · intro i h1 h0
    rw [h1, h0]
    push_cast
    ring
  · intro hround
    simp [binary64.mul, hround]

/-- Counterexample to C2 as stated: the continuous scenario `xdot = -x + u` with
symbolic support, fixed step `h = 0.1` and `N = 7`. The fast path returns `true`;
the assignment `scenario.eulerValues` is a forward simulation by explicit Euler
steps of size `h`, yet the equality of interval 2 has residual `-2^-55` at
it: the step of that equality is `3 * h - 2 * h` in doubles,
`0.30000000000000004 - 0.2 = h + 2^-55` (itself a double, so the subtraction is
exact), not `h`. -/
theorem AddSymbolicDynamicConstraints_euler_step_counterexample :
    binary64.round scenario.tenth = scenario.tenth ∧
      binary64.mul 3 scenario.tenth - binary64.mul 2 scenario.tenth =
        scenario.tenth + 1 / 2 ^ 55 ∧
      binary64.round (scenario.tenth + 1 / 2 ^ 55) = scenario.tenth + 1 / 2 ^ 55 ∧
      (scenario.tenthBuilder.AddSymbolicDynamicConstraints (scenario.continuousSystem true)
        (scenario.continuousSystemOn ℚ).CreateDefaultContext scenario.firstInput).2 = .ok true ∧
      (∀ i, i < scenario.tenthBuilder.N - 1 →
        EvaluateVec scenario.eulerValues (castVars (scenario.tenthBuilder.state (i + 1))) =
          OneStepAdvance (scenario.continuousSystem true).toSystem false scenario.tenth
            ((scenario.continuousSystem true).CreateDefaultContext.SetTimeStateAndParametersFrom
              (scenario.continuousSystemOn ℚ).CreateDefaultContext)
            (some 0) ((i : ℚ) * scenario.tenth)
            (EvaluateVec scenario.eulerValues (castVars (scenario.tenthBuilder.state i)))
            (EvaluateVec scenario.eulerValues (castVars (scenario.tenthBuilder.input i)))) ∧
      ((scenario.tenthBuilder.AddSymbolicDynamicConstraints (scenario.continuousSystem true)
        (scenario.continuousSystemOn ℚ).CreateDefaultContext
        scenario.firstInput).1.prog.linear_equality_constraints[2]?).map
          (fun c => (decide (c.Holds scenario.eulerValues), c.residual scenario.eulerValues)) =
        some (false, [(-(1 / 2 ^ 55) : ℚ)]) := by
  refine ⟨by decide!, by decide!, by decide!, by decide!, by decide!, by decide!⟩

theorem scenario.inputValue_Evaluate (env : Variable → ℚ) (c : Context Expression) :
    scenario.inputValue (c.Evaluate env) = EvaluateVec env (scenario.inputValue c) := by
  simp only [scenario.inputValue, Context.Evaluate, List.getD_eq_getElem?_getD, List.getElem?_map]
  cases c.fixed_input_port_values[0]? with
  | none => simp [EvaluateVec]
  | some v => cases v <;> simp [EvaluateVec]

theorem scenario.discrete_isSymbolicCounterpart :
    IsSymbolicCounterpart (scenario.discreteSystemOn Expression) (scenario.discreteSystemOn ℚ) := by
  refine ⟨?_, ?_, ?_⟩
  · intro env
    simp [scenario.discreteSystemOn, Context.Evaluate, EvaluateVec, Expression.Evaluate]
  · intro env c
    simp only [scenario.discreteSystemOn, scenario.halfUpdate, List.map_cons, List.map_nil,
      scenario.inputValue_Evaluate]
    congr 1
    have hx : (c.Evaluate env).discrete_state.getD 0 [] =
        EvaluateVec env (c.discrete_state.getD 0 []) := (EvaluateVec_getD env _ 0).symm
    rw [hx]
    simp [EvaluateVec, List.map_zipWith, List.zipWith_map, Expression.Evaluate_add,
      Expression.Evaluate_mul, Expression.Evaluate]
  · intro env c
    simp [scenario.discreteSystemOn, EvaluateVec]

theorem scenario.continuous_isSymbolicCounterpart :
    IsSymbolicCounterpart (scenario.continuousSystemOn Expression)
      (scenario.continuousSystemOn ℚ) := by
  refine ⟨?_, ?_, ?_⟩
  · intro env
    simp [scenario.continuousSystemOn, Context.Evaluate, EvaluateVec, Expression.Evaluate]
  · intro env c
    simp [scenario.continuousSystemOn]
  · intro env c
    simp only [scenario.continuousSystemOn, scenario.decayDerivatives,
      scenario.inputValue_Evaluate]
    have hx : (c.Evaluate env).continuous_state = EvaluateVec env c.continuous_state := rfl
    rw [hx]
    simp [EvaluateVec, List.map_zipWith, List.zipWith_map, Expression.Evaluate_add,
      Expression.Evaluate_mul, Expression.Evaluate]

/-- Witness for C2: the discrete scenario with symbolic support and the trajectory
`x[k] = (1/2)^k`, `u[k] = 0`; and the continuous scenario with symbolic support,
step `0.1` and `N = 7`, at the constant trajectory `x[k] = 1`, `u[k] = 1` (a rest
point of `xdot = -x + u`, which every step size advances to itself). -/
theorem AddSymbolicDynamicConstraints_true_adds_one_step_equalities_witness :
    ((scenario.discreteBuilder.AddSymbolicDynamicConstraints (scenario.discreteSystem true)
        (scenario.discreteSystemOn ℚ).CreateDefaultContext scenario.firstInput).2 = .ok true ∧
      ∀ c ∈ (scenario.discreteBuilder.AddSymbolicDynamicConstraints (scenario.discreteSystem true)
        (scenario.discreteSystemOn ℚ).CreateDefaultContext
        scenario.firstInput).1.prog.linear_equality_constraints, c.Holds scenario.halving) ∧
    ((scenario.tenthBuilder.AddSymbolicDynamicConstraints (scenario.continuousSystem true)
        (scenario.continuousSystemOn ℚ).CreateDefaultContext scenario.firstInput).2 = .ok true ∧
      ∀ c ∈ (scenario.tenthBuilder.AddSymbolicDynamicConstraints (scenario.continuousSystem true)
        (scenario.continuousSystemOn ℚ).CreateDefaultContext
        scenario.firstInput).1.prog.linear_equality_constraints, c.Holds (fun _ => 1)) := by
  have htrue : (scenario.tenthBuilder.AddSymbolicDynamicConstraints
      (scenario.continuousSystem true) (scenario.continuousSystemOn ℚ).CreateDefaultContext
      scenario.firstInput).2 = .ok true := by decide!
  refine ⟨⟨rfl, ?_⟩, ⟨htrue, ?_⟩⟩
  swap
  · obtain ⟨sym, ip, hsym, hsel, added, hadded, -, hres, hcons⟩ :=
      (AddSymbolicDynamicConstraints_true_adds_one_step_equalities scenario.tenthBuilder
        (scenario.tenthBuilder.AddSymbolicDynamicConstraints (scenario.continuousSystem true)
          (scenario.continuousSystemOn ℚ).CreateDefaultContext scenario.firstInput).1
        (scenario.continuousSystem true) (scenario.continuousSystemOn ℚ).CreateDefaultContext
        scenario.firstInput (by decide!) (Prod.ext rfl htrue)).1
    have hs : sym = scenario.continuousSystemOn Expression := by
      simpa [scenario.continuousSystem] using hsym.symm
    subst hs
    have hip : ip = some (0, ⟨PortDataType.kVectorValued, 1⟩) := by
      have : (scenario.continuousSystemOn Expression).get_input_port_selection
          scenario.firstInput = .ok (some (0, ⟨PortDataType.kVectorValued, 1⟩)) := rfl
      rw [this] at hsel
      simpa using hsel.symm
    subst hip
    intro c hc
    rw [hres] at hc
    have hc2 : c ∈ added := by simpa [DirectTranscription.withProg, scenario.tenthBuilder,
      DirectTranscription.ofBase] using hc
    exact (hcons scenario.continuous_isSymbolicCounterpart (fun _ => 1) (by decide!) c hc2).1
  obtain ⟨sym, ip, hsym, hsel, added, hadded, -, hres, hcons⟩ :=
    (AddSymbolicDynamicConstraints_true_adds_one_step_equalities scenario.discreteBuilder
      (scenario.discreteBuilder.AddSymbolicDynamicConstraints (scenario.discreteSystem true)
        (scenario.discreteSystemOn ℚ).CreateDefaultContext scenario.firstInput).1
      (scenario.discreteSystem true) (scenario.discreteSystemOn ℚ).CreateDefaultContext
      scenario.firstInput (by decide!) rfl).1
  have hs : sym = scenario.discreteSystemOn Expression := by
    simpa [scenario.discreteSystem] using hsym.symm
  subst hs
  have hip : ip = some (0, ⟨PortDataType.kVectorValued, 1⟩) := by
    have : (scenario.discreteSystemOn Expression).get_input_port_selection scenario.firstInput =
        .ok (some (0, ⟨PortDataType.kVectorValued, 1⟩)) := rfl
    rw [this] at hsel
    simpa using hsel.symm
  subst hip
  intro c hc
  rw [hres] at hc
  have hc2 : c ∈ added := by simpa [DirectTranscription.withProg, scenario.discreteBuilder,
    DirectTranscription.ofBase] using hc
  refine (hcons scenario.discrete_isSymbolicCounterpart scenario.halving ?_ c hc2).1
  intro i hi
  have hi4 : i < 4 := hi
  interval_cases i <;>
    simp [EvaluateVec, castVars, MultipleShooting.state, MultipleShooting.input,
      scenario.discreteBuilder, DirectTranscription.ofBase, OneStepAdvance, AdvanceContext,
      scenario.discreteSystem, scenario.discreteSystemOn, scenario.halfUpdate,
      scenario.inputValue, Context.SetTime, Context.FixValue, Context.SetDiscreteState,
      Context.SetTimeStateAndParametersFrom, Expression.Evaluate, scenario.halving,
      List.range_succ] <;>
    norm_num

/-! ### The autodiff path -/

namespace DirectTranscription

theorem autodiffLoop_ok (a : Nat) (pointee : IntegratorBase T) :
    ∀ (k i : Nat) (self : DirectTranscription T),
      self.heap.get? a = some pointee →
      (pointee.context.has_only_discrete_state = true ∨
        pointee.context.has_only_continuous_state = true) →
      (pointee.context.num_input_ports = 0 ∨ self.input_port_value_.isSome = true) →
      0 < self.fixed_time_step →
      autodiffLoop a k i self = .ok (self.withProg
        { self.prog with
          generic_constraints := self.prog.generic_constraints ++
            (List.range' i k).map fun j =>
              ⟨{ integrator_ := a
                 input_port_value_ := self.input_port_value_
                 num_states_ := self.num_states
                 num_inputs_ := self.num_inputs
                 evaluation_time_ := binary64.mul (j : ℚ) self.fixed_time_step
                 fixed_time_step_ := self.fixed_time_step },
                self.input j ++ self.state j ++ self.state (j + 1)⟩ }) := by
  intro k
  induction k with
  | zero =>
    intro i self _ _ _ _
    simp [autodiffLoop, withProg]
  | succ k ih =>
    intro i self hheap hstate hport hstep
    have htime : (0 : ℚ) ≤ binary64.mul (i : ℚ) self.fixed_time_step :=
      binary64.mul_nonneg_of_nonneg _ _ (Nat.cast_nonneg i) hstep.le
    have hcreate : DirectTranscriptionConstraint.create self.heap a self.input_port_value_
        self.num_states self.num_inputs (binary64.mul (i : ℚ) self.fixed_time_step)
        self.fixed_time_step =
        .ok { integrator_ := a
              input_port_value_ := self.input_port_value_
              num_states_ := self.num_states
              num_inputs_ := self.num_inputs
              evaluation_time_ := binary64.mul (i : ℚ) self.fixed_time_step
              fixed_time_step_ := self.fixed_time_step } := by
      have h1 : (pointee.context.has_only_discrete_state ||
          pointee.context.has_only_continuous_state) = true := by
        rcases hstate with h | h <;> simp [h]
      have h2 : (pointee.context.num_input_ports == 0 || self.input_port_value_.isSome) = true := by
        rcases hport with h | h <;> simp [h]
      simp only [DirectTranscriptionConstraint.create, DRAKE_DEMAND, htime, decide_True, if_true,
        hheap, h1, h2, hstep]
      cases pointee.context.has_only_discrete_state <;> rfl
    rw [autodiffLoop, hcreate]
    simp only
    rw [ih (i + 1) (self.withProg (self.prog.AddConstraint _ _)) hheap hstate hport hstep]
    simp only [withProg, MathematicalProgram.AddConstraint, List.range'_succ, List.map_cons,
      List.append_assoc, List.singleton_append]
    rfl

end DirectTranscription

/-- The autodiff path succeeds under the demands of the constraint constructor,
storing one integrator and adding the `N - 1` constraints that share it. -/
theorem DirectTranscription.AddAutodiffDynamicConstraints_ok [RatCast T] [Zero T]
    (self : DirectTranscription T) (system : DoubleSystem T) (context : Context ℚ)
    (input_port_index : InputPortChoice) (system_ : System T)
    (input_port : Option (Nat × InputPort))
    (hsys : system.ToAutoDiffXd = some system_)
    (hsel : system_.get_input_port_selection input_port_index = .ok input_port)
    (hport : match input_port with
      | some port => port.2.data_type = PortDataType.kVectorValued
      | none => system_.CreateDefaultContext.num_input_ports = 0)
    (hstate :
      (system_.CreateDefaultContext.SetTimeStateAndParametersFrom context).has_only_discrete_state
          = true ∨
        (system_.CreateDefaultContext.SetTimeStateAndParametersFrom
          context).has_only_continuous_state = true)
    (hstep : 0 < self.fixed_time_step) :
    ∃ (result : DirectTranscription T) (context_ : Context T),
      self.AddAutodiffDynamicConstraints system context input_port_index = .ok result ∧
      result.heap = self.heap ++
        [{ system := system_, max_step_size := self.fixed_time_step, context := context_,
           initialized := true }] ∧
      result.integrator_ = some self.heap.length ∧
      result.input_port_value_ =
        (match input_port with
          | some port => some port.1
          | none => self.input_port_value_) ∧
      result.prog.generic_constraints = self.prog.generic_constraints ++
        (List.range (self.N - 1)).map (fun i =>
          ⟨{ integrator_ := self.heap.length
             input_port_value_ := result.input_port_value_
             num_states_ := self.num_states
             num_inputs_ := self.num_inputs
             evaluation_time_ := binary64.mul (i : ℚ) self.fixed_time_step
             fixed_time_step_ := self.fixed_time_step },
            self.input i ++ self.state i ++ self.state (i + 1)⟩) ∧
      result.prog.linear_equality_constraints = self.prog.linear_equality_constraints := by
  unfold DirectTranscription.AddAutodiffDynamicConstraints
  rw [hsys]
  simp only [hsel]
  cases input_port with
  | none =>
    simp only [DirectTranscription.fixInputPort]
    rw [DirectTranscription.autodiffLoop_ok _
      (IntegratorBase.Initialize
        { system := system_, max_step_size := self.fixed_time_step,
          context := system_.CreateDefaultContext.SetTimeStateAndParametersFrom context,
          initialized := false })]
    · refine ⟨_, _, rfl, rfl, rfl, rfl, ?_, rfl⟩
      rw [List.range_eq_range']
      rfl
    · simp
    · exact hstate
    · left
      simpa [IntegratorBase.Initialize, Context.num_input_ports,
        Context.SetTimeStateAndParametersFrom] using hport
    · exact hstep
  | some port =>
    simp only at hport
    simp only [DirectTranscription.fixInputPort, hport]
    have hne : ¬PortDataType.kVectorValued = PortDataType.kAbstractValued := by decide
    simp only [hne, if_false]
    rw [DirectTranscription.autodiffLoop_ok _
      (IntegratorBase.Initialize
        { system := system_, max_step_size := self.fixed_time_step,
          context := (system_.CreateDefaultContext.SetTimeStateAndParametersFrom context).FixValue
            port.1 (List.replicate port.2.size 0),
          initialized := false })]
    · refine ⟨_, _, rfl, rfl, rfl, rfl, ?_, rfl⟩
      rw [List.range_eq_range']
      rfl
    · simp
    · exact hstate
    · right; rfl
    · exact hstep

/-- The first iteration of the autodiff loop fails the demand of the constraint
constructor when the shared context has input ports and the builder holds no
input-value handle. -/
theorem DirectTranscription.autodiffLoop_no_handle (a : Nat) (pointee : IntegratorBase T)
    (k : Nat) (self : DirectTranscription T)
    (hheap : self.heap.get? a = some pointee)
    (hports : 0 < pointee.context.num_input_ports)
    (hhandle : self.input_port_value_ = none) :
    DirectTranscription.autodiffLoop a (k + 1) 0 self = .error .demand_failed := by
  have hp : (pointee.context.num_input_ports == 0) = false := by
    simpa using Nat.pos_iff_ne_zero.mp hports
  rw [DirectTranscription.autodiffLoop]
  simp only [DirectTranscriptionConstraint.create, DRAKE_DEMAND, Nat.cast_zero,
    binary64.mul_zero_left, le_refl, decide_True, if_true, hheap, hhandle, hp, Option.isSome_none,
    Bool.or_false, bind, Except.bind]
  cases pointee.context.has_only_discrete_state || pointee.context.has_only_continuous_state <;>
    rfl

/-- C3 (amended): for every `N` (so for `N ≥ 2`), when the autodiff system exists, its
context (with time, state and parameters taken from the given one) holds only
discrete or only continuous state, the time step is positive, and the selected
input port is vector-valued, or is absent on a context that has no input port
at all, `AddAutodiffDynamicConstraints` succeeds and adds exactly the `N - 1`
constraints `i = 0..N-2`, the `i`-th bound to `[input(i), state(i), state(i+1)]`
in that order, with evaluation time `i * fixed_time_step` (the double product)
and step `fixed_time_step`; before the loop it has stored one integrator
(holding the one context) at a fresh address, and every constraint holds that
address and the same input-value handle. When the selected input port is absent
while the context has input ports, on a builder that holds no input-value
handle (as right after the base-class constructor) and for `N ≥ 2`, the demand
of the constraint constructor fails in the first iteration: the call ends in a
failed demand and returns no builder, so no constraint is added. -/
theorem AddAutodiffDynamicConstraints_adds_shared_constraints [RatCast T] [Zero T]
    (self : DirectTranscription T) (system : DoubleSystem T) (context : Context ℚ)
    (input_port_index : InputPortChoice) (system_ : System T)
    (input_port : Option (Nat × InputPort))
    (hsys : system.ToAutoDiffXd = some system_)
    (hsel : system_.get_input_port_selection input_port_index = .ok input_port) :
    ((match input_port with
        | some port => port.2.data_type = PortDataType.kVectorValued
        | none => system_.CreateDefaultContext.num_input_ports = 0) →
      ((system_.CreateDefaultContext.SetTimeStateAndParametersFrom
            context).has_only_discrete_state = true ∨
        (system_.CreateDefaultContext.SetTimeStateAndParametersFrom
          context).has_only_continuous_state = true) →
      0 < self.fixed_time_step →
      ∃ (result : DirectTranscription T) (context_ : Context T),
        self.AddAutodiffDynamicConstraints system context input_port_index = .ok result ∧
        result.heap = self.heap ++
          [{ system := system_, max_step_size := self.fixed_time_step, context := context_,
             initialized := true }] ∧
        result.integrator_ = some self.heap.length ∧
        result.input_port_value_ =
          (match input_port with
            | some port => some port.1
            | none => self.input_port_value_) ∧
        result.prog.generic_constraints = self.prog.generic_constraints ++
          (List.range (self.N - 1)).map (fun i =>
            ⟨{ integrator_ := self.heap.length
               input_port_value_ := result.input_port_value_
               num_states_ := self.num_states
               num_inputs_ := self.num_inputs
               evaluation_time_ := binary64.mul (i : ℚ) self.fixed_time_step
               fixed_time_step_ := self.fixed_time_step },
              self.input i ++ self.state i ++ self.state (i + 1)⟩) ∧
        result.prog.linear_equality_constraints = self.prog.linear_equality_constraints) ∧
    (input_port = none → 0 < system_.CreateDefaultContext.num_input_ports →
      self.input_port_value_ = none → 2 ≤ self.N →
      self.AddAutodiffDynamicConstraints system context input_port_index =
          .error .demand_failed ∧
        ∀ result, self.AddAutodiffDynamicConstraints system context input_port_index ≠
          .ok result) := by
  refine ⟨?_, ?_⟩
  · intro hport hstate hstep
    obtain ⟨result, context_, h1, h2, h3, h4, h5, h6⟩ :=
      DirectTranscription.AddAutodiffDynamicConstraints_ok self system context input_port_index
        system_ input_port hsys hsel hport hstate hstep
    refine ⟨result, context_, h1, h2, h3, ?_, h5, h6⟩
    cases input_port <;> exact h4
  intro hnone hports hhandle hN
  have herr : self.AddAutodiffDynamicConstraints system context input_port_index =
      .error .demand_failed := by
    subst hnone
    obtain ⟨k, hk⟩ : ∃ k, self.N - 1 = k + 1 := ⟨self.N - 2, by omega⟩
    unfold DirectTranscription.AddAutodiffDynamicConstraints
    rw [hsys]
    simp only [hsel, DirectTranscription.fixInputPort, hk]
    exact DirectTranscription.autodiffLoop_no_handle _
      (IntegratorBase.Initialize
        { system := system_, max_step_size := self.fixed_time_step,
          context := system_.CreateDefaultContext.SetTimeStateAndParametersFrom context,
          initialized := false }) k _ (by simp) hports hhandle
  refine ⟨herr, ?_⟩
  intro result hres
  rw [herr] at hres
  exact Except.noConfusion hres

/-- Counterexample to C3 as stated: with `N = 5` and no input port selected on a
system that has an input port, the selected port is absent, yet the demand of
the constraint constructor (an input-value handle whenever the context has input
ports) fails, so no constraint is added; the discrete-time constructor reaches
this through its autodiff fallback. -/
theorem AddAutodiffDynamicConstraints_absent_port_counterexample :
    2 ≤ scenario.noInputBuilder.N ∧
      (scenario.discreteSystemOn ℚ).get_input_port_selection scenario.noInput = .ok none ∧
      scenario.noInputBuilder.AddAutodiffDynamicConstraints (scenario.discreteSystem false)
        (scenario.discreteSystemOn ℚ).CreateDefaultContext scenario.noInput =
        .error Error.demand_failed ∧
      (DirectTranscription.DirectTranscription_discrete (scenario.discreteSystem false)
        (scenario.discreteSystemOn ℚ).CreateDefaultContext 5 scenario.noInput :
          Except Error (DirectTranscription ℚ)) = .error Error.demand_failed := by
  refine ⟨by decide, rfl, ?_, ?_⟩
  · simp [DirectTranscription.AddAutodiffDynamicConstraints, scenario.discreteSystem,
      scenario.discreteSystemOn, System.get_input_port_selection, scenario.noInput,
      DirectTranscription.fixInputPort, scenario.noInputBuilder, DirectTranscription.ofBase,
      DirectTranscription.autodiffLoop, DirectTranscriptionConstraint.create, DRAKE_DEMAND,
      IntegratorBase.Initialize, Context.SetTimeStateAndParametersFrom,
      Context.has_only_discrete_state, Context.has_only_continuous_state,
      Context.num_input_ports, Context.num_continuous_states, Context.num_discrete_state_groups,
      bind, Except.bind]
  · simp [DirectTranscription.DirectTranscription_discrete, get_input_port_size, get_period,
      System.GetUniquePeriodicDiscreteUpdateAttribute, MultipleShooting.init,
      DirectTranscription.ValidateSystem, DirectTranscription.addDynamicConstraints,
      DirectTranscription.AddSymbolicDynamicConstraints, Context.get_discrete_state,
      DiscreteValues.get_vector, Context.num_total_states,
      DirectTranscription.AddAutodiffDynamicConstraints, scenario.discreteSystem,
      scenario.discreteSystemOn, System.get_input_port_selection, scenario.noInput,
      DirectTranscription.fixInputPort, DirectTranscription.ofBase,
      DirectTranscription.autodiffLoop, DirectTranscriptionConstraint.create, DRAKE_DEMAND,
      IntegratorBase.Initialize, Context.SetTimeStateAndParametersFrom,
      Context.has_only_discrete_state, Context.has_only_continuous_state,
      Context.num_input_ports, Context.num_continuous_states, Context.num_discrete_state_groups,
      bind, Except.bind, pure, Except.pure]

/-- Witness for C3: the discrete scenario without symbolic support (`N = 5`). With the
first input port selected the four constraints are added, sharing integrator 0
and the handle of port 0; with no input port selected the call ends in a failed
demand. -/
theorem AddAutodiffDynamicConstraints_adds_shared_constraints_witness :
    (0 : ℚ) < scenario.discreteBuilder.fixed_time_step ∧
      (∃ result,
        scenario.discreteBuilder.AddAutodiffDynamicConstraints (scenario.discreteSystem false)
          (scenario.discreteSystemOn ℚ).CreateDefaultContext scenario.firstInput = .ok result ∧
        result.prog.generic_constraints.length = 4 ∧
        ∀ b ∈ result.prog.generic_constraints,
          b.evaluator.integrator_ = 0 ∧ b.evaluator.input_port_value_ = some 0) ∧
      scenario.noInputBuilder.AddAutodiffDynamicConstraints (scenario.discreteSystem false)
        (scenario.discreteSystemOn ℚ).CreateDefaultContext scenario.noInput =
          .error Error.demand_failed := by
  have hstep : (0 : ℚ) < scenario.discreteBuilder.fixed_time_step := by
    norm_num [scenario.discreteBuilder, DirectTranscription.ofBase]
  obtain ⟨result, -, hres, -, -, hval, hgen, -⟩ :=
    (AddAutodiffDynamicConstraints_adds_shared_constraints scenario.discreteBuilder
      (scenario.discreteSystem false) (scenario.discreteSystemOn ℚ).CreateDefaultContext
      scenario.firstInput (scenario.discreteSystemOn ℚ)
      (some (0, ⟨PortDataType.kVectorValued, 1⟩)) rfl rfl).1 rfl (Or.inl rfl) hstep
  refine ⟨hstep, ⟨result, hres, ?_, ?_⟩, ?_⟩
  · rw [hgen]
    simp [scenario.discreteBuilder, DirectTranscription.ofBase]
  · intro b hb
    rw [hgen] at hb
    simp only [scenario.discreteBuilder, DirectTranscription.ofBase, List.nil_append,
      List.mem_map] at hb
    obtain ⟨i, -, rfl⟩ := hb
    exact ⟨rfl, hval⟩
  · exact ((AddAutodiffDynamicConstraints_adds_shared_constraints scenario.noInputBuilder
      (scenario.discreteSystem false) (scenario.discreteSystemOn ℚ).CreateDefaultContext
      scenario.noInput (scenario.discreteSystemOn ℚ) none rfl rfl).2 rfl (by decide) rfl
      (by decide)).1

/-! ### Outcomes of the two paths and of the constructors -/

theorem IsAffine_castVars (vs vars : List Variable) : IsAffine (castVars vs) vars = true := by
  unfold IsAffine castVars
  rw [List.all_eq_true]
  intro e he
  rw [List.mem_map] at he
  obtain ⟨v, _, rfl⟩ := he
  by_cases hv : v ∈ vars <;> simp [Expression.degree, hv]

namespace DirectTranscription

theorem AddSymbolicDynamicConstraints_false_eq (self : DirectTranscription T)
    (system : DoubleSystem T) (context : Context ℚ) (input_port_index : InputPortChoice)
    (h : (self.AddSymbolicDynamicConstraints system context input_port_index).2 = .ok false) :
    (self.AddSymbolicDynamicConstraints system context input_port_index).1 = self := by
  unfold AddSymbolicDynamicConstraints at h ⊢
  rcases hsym : system.ToSymbolicMaybe with _ | symbolic_system
  · simp
  · rw [hsym] at h
    simp only at h ⊢
    by_cases habs : SystemSymbolicInspector.IsAbstract symbolic_system
        symbolic_system.CreateDefaultContext = true
    · simp [habs]
    · simp only [habs, Bool.false_eq_true, if_false] at h ⊢
      rcases hsel : symbolic_system.get_input_port_selection input_port_index with _ | input_port
      · exfalso; rw [hsel] at h; simp at h
      · rw [hsel] at h
        simp only at h ⊢
        exact (symbolicLoop_false _ _ _ _ _ h).1

theorem AddSymbolicDynamicConstraints_true_eq (self result : DirectTranscription T)
    (system : DoubleSystem T) (context : Context ℚ) (input_port_index : InputPortChoice)
    (h : self.AddSymbolicDynamicConstraints system context input_port_index =
      (result, .ok true)) :
    ∃ rhs : Nat → List Expression,
      result = self.withProg { self.prog with
        linear_equality_constraints := self.prog.linear_equality_constraints ++
          (List.range (self.N - 1)).map fun i => ⟨castVars (self.state (i + 1)), rhs i⟩ } := by
  unfold AddSymbolicDynamicConstraints at h
  rcases hsym : system.ToSymbolicMaybe with _ | symbolic_system
  · rw [hsym] at h; simp at h
  · rw [hsym] at h
    simp only at h
    split at h
    · simp at h
    · rcases hsel : symbolic_system.get_input_port_selection input_port_index with _ | input_port
      · rw [hsel] at h; simp at h
      · rw [hsel] at h
        simp only at h
        have hloop := symbolicLoop_true symbolic_system input_port _ _ _ _ _ rfl h
        refine ⟨fun j => OneStepAdvance symbolic_system self.discrete_time_system_
          (binary64.mul ((j + 1 : Nat) : ℚ) self.fixed_time_step -
            binary64.mul (j : ℚ) self.fixed_time_step)
          (symbolic_system.CreateDefaultContext.SetTimeStateAndParametersFrom context)
          (input_port.map Prod.fst) (binary64.mul (j : ℚ) self.fixed_time_step) (castVars (self.state j))
          (castVars (self.input j)), ?_⟩
        rw [hloop, List.range_eq_range']
        rfl

theorem create_of_ok {heap : List (IntegratorBase T)} {a : Nat} {v : Option Nat} {ns ni : Nat}
    {t h : ℚ} {c : DirectTranscriptionConstraint}
    (hc : DirectTranscriptionConstraint.create heap a v ns ni t h = .ok c) :
    c = { integrator_ := a, input_port_value_ := v, num_states_ := ns, num_inputs_ := ni,
          evaluation_time_ := t, fixed_time_step_ := h } := by
  unfold DirectTranscriptionConstraint.create at hc
  simp only [bind, Except.bind, pure, Except.pure] at hc
  repeat' split at hc
  all_goals first
    | (simp only [Except.ok.injEq] at hc; exact hc.symm)
    | simp at hc

theorem autodiffLoop_of_ok (a : Nat) :
    ∀ (k i : Nat) (self result : DirectTranscription T),
      autodiffLoop a k i self = .ok result →
      result = self.withProg
        { self.prog with
          generic_constraints := self.prog.generic_constraints ++
            (List.range' i k).map fun j =>
              ⟨{ integrator_ := a
                 input_port_value_ := self.input_port_value_
                 num_states_ := self.num_states
                 num_inputs_ := self.num_inputs
                 evaluation_time_ := binary64.mul (j : ℚ) self.fixed_time_step
                 fixed_time_step_ := self.fixed_time_step },
                self.input j ++ self.state j ++ self.state (j + 1)⟩ } := by
  intro k
  induction k with
  | zero =>
    intro i self result h
    simp only [autodiffLoop, Except.ok.injEq] at h
    subst h
    simp [withProg]
  | succ k ih =>
    intro i self result h
    rw [autodiffLoop] at h
    split at h
    · simp at h
    · rename_i c hc
      rw [ih _ _ _ h, create_of_ok hc]
      simp only [withProg, MathematicalProgram.AddConstraint, List.range'_succ, List.map_cons,
        List.append_assoc, List.singleton_append]
      rfl

theorem AddAutodiffDynamicConstraints_of_ok [RatCast T] [Zero T]
    (self result : DirectTranscription T) (system : DoubleSystem T) (context : Context ℚ)
    (input_port_index : InputPortChoice)
    (h : self.AddAutodiffDynamicConstraints system context input_port_index = .ok result) :
    result.toMultipleShooting =
      { self.toMultipleShooting with
        prog := { self.prog with
          generic_constraints := self.prog.generic_constraints ++
            (List.range (self.N - 1)).map fun i =>
              ⟨{ integrator_ := self.heap.length
                 input_port_value_ := result.input_port_value_
                 num_states_ := self.num_states
                 num_inputs_ := self.num_inputs
                 evaluation_time_ := binary64.mul (i : ℚ) self.fixed_time_step
                 fixed_time_step_ := self.fixed_time_step },
                self.input i ++ self.state i ++ self.state (i + 1)⟩ } } := by
  unfold AddAutodiffDynamicConstraints at h
  split at h
  · simp at h
  · simp only at h
    split at h
    · simp at h
    · split at h
      · simp at h
      · have := autodiffLoop_of_ok _ _ _ _ _ h
        rw [this, List.range_eq_range']
        rfl

theorem ConstrainEqualInputAtFinalTwoTimesteps_eq (self : DirectTranscription T) :
    self.ConstrainEqualInputAtFinalTwoTimesteps =
      .ok (if 0 < self.num_inputs then
        self.withProg { self.prog with
          linear_equality_constraints := self.prog.linear_equality_constraints ++
            [⟨castVars (self.input (self.N - 2)), castVars (self.input (self.N - 1))⟩] }
        else self) := by
  unfold ConstrainEqualInputAtFinalTwoTimesteps
  split
  · simp [MathematicalProgram.AddLinearEqualityConstraint, IsAffine_castVars, bind, Except.bind,
      pure, Except.pure]
  · rfl

end DirectTranscription

theorem MultipleShooting.init_of_ok {ni ns N : Nat} {h : ℚ} {base : MultipleShooting}
    (hb : MultipleShooting.init ni ns N h = .ok base) :
    base =
      { num_inputs := ni, num_states := ns, N := N, fixed_time_step := h,
        prog :=
          { decision_variables :=
              (List.range (ns * N)).map Variable.x ++ (List.range (ni * N)).map Variable.u
            linear_equality_constraints := []
            generic_constraints := []
            costs := [] } } ∧ 1 < N ∧ 0 < h := by
  unfold MultipleShooting.init at hb
  simp only [DRAKE_DEMAND, bind, Except.bind, pure, Except.pure] at hb
  split at hb
  · simp at hb
  · split at hb
    · simp at hb
    · rename_i h1 _ _ h2
      simp only [Except.ok.injEq] at hb
      refine ⟨hb.symm, ?_, ?_⟩
      · by_contra hN
        simp [hN] at h1
      · by_contra hh
        simp [hh] at h2

namespace DirectTranscription

theorem addDynamicConstraints_of_ok [RatCast T] [Zero T] (self dt : DirectTranscription T)
    (system : DoubleSystem T) (context : Context ℚ) (input_port_index : InputPortChoice)
    (h : self.addDynamicConstraints system context input_port_index = .ok dt) :
    ((self.AddSymbolicDynamicConstraints system context input_port_index).2 = .ok true ∧
      ∃ rhs : Nat → List Expression,
        dt.toMultipleShooting =
          { self.toMultipleShooting with
            prog := { self.prog with
              linear_equality_constraints := self.prog.linear_equality_constraints ++
                ((List.range (self.N - 1)).map fun i => ⟨castVars (self.state (i + 1)), rhs i⟩) ++
                self.finalInputEquality } }) ∨
    (self.AddSymbolicDynamicConstraints system context input_port_index = (self, .ok false) ∧
      dt.toMultipleShooting =
        { self.toMultipleShooting with
          prog := { self.prog with
            linear_equality_constraints :=
              self.prog.linear_equality_constraints ++ self.finalInputEquality
            generic_constraints := self.prog.generic_constraints ++
              (List.range (self.N - 1)).map fun i =>
                ⟨{ integrator_ := self.heap.length
                   input_port_value_ := dt.input_port_value_
                   num_states_ := self.num_states
                   num_inputs_ := self.num_inputs
                   evaluation_time_ := binary64.mul (i : ℚ) self.fixed_time_step
                   fixed_time_step_ := self.fixed_time_step },
                  self.input i ++ self.state i ++ self.state (i + 1)⟩ } }) := by
  unfold addDynamicConstraints at h
  rcases hsymb : self.AddSymbolicDynamicConstraints system context input_port_index with
    ⟨s1, _ | flag⟩
  · rw [hsymb] at h; simp at h
  · rw [hsymb] at h
    cases flag
    · -- fast path abandoned
      right
      have hs1 : s1 = self := by
        have := AddSymbolicDynamicConstraints_false_eq self system context input_port_index
          (by rw [hsymb])
        rw [hsymb] at this
        exact this
      subst hs1
      refine ⟨rfl, ?_⟩
      simp only at h
      split at h
      · simp at h
      · rename_i s2 hs2
        have h2 := AddAutodiffDynamicConstraints_of_ok _ _ _ _ _ hs2
        rw [ConstrainEqualInputAtFinalTwoTimesteps_eq] at h
        simp only [Except.ok.injEq] at h
        subst h
        rcases s2 with ⟨ms2, d2, hp2, sy2, ip2, ipv2, ig2⟩
        simp only at h2
        subst h2
        by_cases hpos : 0 < s1.num_inputs <;>
          simp [withProg, MultipleShooting.finalInputEquality, hpos, MultipleShooting.input]
    · -- fast path succeeded
      left
      refine ⟨rfl, ?_⟩
      obtain ⟨rhs, hr⟩ := AddSymbolicDynamicConstraints_true_eq _ _ _ _ _ hsymb
      simp only at h
      rw [ConstrainEqualInputAtFinalTwoTimesteps_eq] at h
      simp only [Except.ok.injEq] at h
      subst h
      subst hr
      refine ⟨rhs, ?_⟩
      by_cases hpos : 0 < self.num_inputs
      · simp only [withProg, hpos, if_true, MultipleShooting.finalInputEquality]
        rfl
      · simp only [withProg, hpos, if_false, MultipleShooting.finalInputEquality,
          List.append_nil]

theorem DirectTranscription_discrete_of_ok [RatCast T] [Zero T] (system : DoubleSystem T)
    (context : Context ℚ) (N : Nat) (input_port_index : InputPortChoice)
    (dt : DirectTranscription T)
    (h : DirectTranscription_discrete system context N input_port_index = .ok dt) :
    ∃ num_inputs period base,
      get_input_port_size system.toSystem input_port_index = .ok num_inputs ∧
      get_period system.toSystem = .ok period ∧
      MultipleShooting.init num_inputs context.num_total_states N period = .ok base ∧
      (ofBase base true : DirectTranscription T).ValidateSystem system.toSystem context
        input_port_index = .ok () ∧
      (ofBase base true : DirectTranscription T).addDynamicConstraints system context
        input_port_index = .ok dt := by
  unfold DirectTranscription_discrete at h
  split at h
  · simp at h
  · rename_i ni hni
    split at h
    · simp at h
    · rename_i period hperiod
      split at h
      · simp at h
      · rename_i base hbase
        simp only at h
        split at h
        · simp at h
        · rename_i hval
          exact ⟨ni, period, base, hni, hperiod, hbase, hval, h⟩

theorem DirectTranscription_continuous_of_ok [RatCast T] [Zero T] (system : DoubleSystem T)
    (context : Context ℚ) (N : Nat) (fixed_time_step : ℚ) (input_port_index : InputPortChoice)
    (dt : DirectTranscription T)
    (h : DirectTranscription_continuous system context N fixed_time_step input_port_index =
      .ok dt) :
    ∃ num_inputs base,
      get_input_port_size system.toSystem input_port_index = .ok num_inputs ∧
      MultipleShooting.init num_inputs context.num_total_states N fixed_time_step = .ok base ∧
      context.has_only_continuous_state = true ∧
      (ofBase base false : DirectTranscription T).addDynamicConstraints system context
        input_port_index = .ok dt := by
  unfold DirectTranscription_continuous at h
  split at h
  · simp at h
  · rename_i ni hni
    split at h
    · simp at h
    · rename_i base hbase
      simp only at h
      split at h
      · simp at h
      · rename_i hcont
        split at h
        · simp at h
        · split at h
          · simp at h
          · exact ⟨ni, base, hni, hbase, by simpa using hcont, h⟩

end DirectTranscription

namespace DirectTranscription

theorem outcome_of_addDynamicConstraints [RatCast T] [Zero T] (base : MultipleShooting)
    (flag : Bool) (system : DoubleSystem T) (context : Context ℚ)
    (input_port_index : InputPortChoice) (dt : DirectTranscription T)
    (hlin : base.prog.linear_equality_constraints = [])
    (hgen : base.prog.generic_constraints = [])
    (h : (ofBase base flag : DirectTranscription T).addDynamicConstraints system context
      input_port_index = .ok dt) :
    dt.N = base.N ∧
    ((((ofBase base flag : DirectTranscription T).AddSymbolicDynamicConstraints system context
          input_port_index).2 = .ok true ∧
        dt.prog.generic_constraints = [] ∧
        ∃ rhs : Nat → List Expression,
          dt.prog.linear_equality_constraints =
            ((List.range (dt.N - 1)).map fun i => ⟨castVars (dt.state (i + 1)), rhs i⟩) ++
              dt.finalInputEquality) ∨
      ((ofBase base flag : DirectTranscription T).AddSymbolicDynamicConstraints system context
          input_port_index = (ofBase base flag, .ok false) ∧
        dt.prog.linear_equality_constraints = dt.finalInputEquality ∧
        dt.prog.generic_constraints =
          (List.range (dt.N - 1)).map fun i =>
            ⟨{ integrator_ := 0
               input_port_value_ := dt.input_port_value_
               num_states_ := dt.num_states
               num_inputs_ := dt.num_inputs
               evaluation_time_ := binary64.mul (i : ℚ) dt.fixed_time_step
               fixed_time_step_ := dt.fixed_time_step },
              dt.input i ++ dt.state i ++ dt.state (i + 1)⟩)) := by
  rcases addDynamicConstraints_of_ok _ _ _ _ _ h with ⟨htrue, rhs, hdt⟩ | ⟨hfalse, hdt⟩
  · rcases dt with ⟨ms, d, hp, sy, ip, ipv, ig⟩
    simp only at hdt
    subst hdt
    refine ⟨rfl, Or.inl ⟨htrue, ?_, rhs, ?_⟩⟩
    · simpa [ofBase] using hgen
    · simp [ofBase, hlin, MultipleShooting.finalInputEquality, MultipleShooting.state,
        MultipleShooting.input]
  · rcases dt with ⟨ms, d, hp, sy, ip, ipv, ig⟩
    simp only at hdt
    subst hdt
    refine ⟨rfl, Or.inr ⟨hfalse, ?_, ?_⟩⟩
    · simp [ofBase, hlin, MultipleShooting.finalInputEquality, MultipleShooting.input]
    · simp [ofBase, hgen, MultipleShooting.state, MultipleShooting.input]

end DirectTranscription

/-- C4: every construction by the discrete-time or by the continuous-time constructor
that yields a builder ends in one of two states. Either the symbolic fast path
returned `true`, and the program holds the `N - 1` linear-equality dynamics
constraints (followed by the boundary equality, if any) and no autodiff
constraint; or the fast path returned `false` leaving the builder untouched, and
the program holds the `N - 1` autodiff constraints and no linear equality other
than the boundary one. A construction that fails (an exception or a failed
demand) yields no builder, and with it no program. -/
theorem construction_ends_in_one_of_two_states [RatCast T] [Zero T] (system : DoubleSystem T)
    (context : Context ℚ) (N : Nat) (fixed_time_step : ℚ) (input_port_index : InputPortChoice)
    (dt : DirectTranscription T)
    (h : DirectTranscription.DirectTranscription_discrete system context N input_port_index =
        .ok dt ∨
      DirectTranscription.DirectTranscription_continuous system context N fixed_time_step
        input_port_index = .ok dt) :
    dt.N = N ∧
    ∃ self : DirectTranscription T,
      self.prog.linear_equality_constraints = [] ∧ self.prog.generic_constraints = [] ∧
      (((self.AddSymbolicDynamicConstraints system context input_port_index).2 = .ok true ∧
          dt.prog.generic_constraints = [] ∧
          ∃ rhs : Nat → List Expression,
            dt.prog.linear_equality_constraints =
              ((List.range (N - 1)).map fun i => ⟨castVars (dt.state (i + 1)), rhs i⟩) ++
                dt.finalInputEquality) ∨
        (self.AddSymbolicDynamicConstraints system context input_port_index =
            (self, .ok false) ∧
          dt.prog.linear_equality_constraints = dt.finalInputEquality ∧
          dt.prog.generic_constraints =
            (List.range (N - 1)).map fun i =>
              ⟨{ integrator_ := 0
                 input_port_value_ := dt.input_port_value_
                 num_states_ := dt.num_states
                 num_inputs_ := dt.num_inputs
                 evaluation_time_ := binary64.mul (i : ℚ) dt.fixed_time_step
                 fixed_time_step_ := dt.fixed_time_step },
                dt.input i ++ dt.state i ++ dt.state (i + 1)⟩)) := by
  rcases h with h | h
  · obtain ⟨ni, period, base, -, -, hbase, -, hadd⟩ :=
      DirectTranscription.DirectTranscription_discrete_of_ok _ _ _ _ _ h
    obtain ⟨hb, -, -⟩ := MultipleShooting.init_of_ok hbase
    have hout := DirectTranscription.outcome_of_addDynamicConstraints base true system context
      input_port_index dt (by rw [hb]) (by rw [hb]) hadd
    have hN : dt.N = N := by rw [hout.1, hb]
    rw [hN] at hout
    exact ⟨hN, _, by rw [hb]; rfl, by rw [hb]; rfl, hout.2⟩
  · obtain ⟨ni, base, -, hbase, -, hadd⟩ :=
      DirectTranscription.DirectTranscription_continuous_of_ok _ _ _ _ _ _ h
    obtain ⟨hb, -, -⟩ := MultipleShooting.init_of_ok hbase
    have hout := DirectTranscription.outcome_of_addDynamicConstraints base false system context
      input_port_index dt (by rw [hb]) (by rw [hb]) hadd
    have hN : dt.N = N := by rw [hout.1, hb]
    rw [hN] at hout
    exact ⟨hN, _, by rw [hb]; rfl, by rw [hb]; rfl, hout.2⟩

/-- The discrete scenario with `N = 5` is built by the discrete-time constructor. -/
theorem scenario.discrete_built :
    ∃ dt, (DirectTranscription.DirectTranscription_discrete (scenario.discreteSystem true)
      (scenario.discreteSystemOn ℚ).CreateDefaultContext 5 scenario.firstInput :
        Except Error (DirectTranscription ℚ)) = .ok dt := by
  have h2 : (DirectTranscription.DirectTranscription_discrete (scenario.discreteSystem true)
      (scenario.discreteSystemOn ℚ).CreateDefaultContext 5 scenario.firstInput :
        Except Error (DirectTranscription ℚ)).toBool = true := by rfl
  cases hc : (DirectTranscription.DirectTranscription_discrete (scenario.discreteSystem true)
      (scenario.discreteSystemOn ℚ).CreateDefaultContext 5 scenario.firstInput :
        Except Error (DirectTranscription ℚ)) with
  | ok dt => exact ⟨dt, rfl⟩
  | error e => rw [hc] at h2; simp [Except.toBool] at h2

/-- Witness for C4: the discrete scenario with `N = 5`. -/
theorem construction_ends_in_one_of_two_states_witness :
    ∃ dt, (DirectTranscription.DirectTranscription_discrete (scenario.discreteSystem true)
      (scenario.discreteSystemOn ℚ).CreateDefaultContext 5 scenario.firstInput :
        Except Error (DirectTranscription ℚ)) = .ok dt ∧ dt.N = 5 := by
  obtain ⟨dt, hdt⟩ := scenario.discrete_built
  exact ⟨dt, hdt, (construction_ends_in_one_of_two_states (scenario.discreteSystem true)
    (scenario.discreteSystemOn ℚ).CreateDefaultContext 5 1 scenario.firstInput dt
    (Or.inl hdt)).1⟩

/-! ### The boundary condition -/

namespace DirectTranscription

theorem linearLoop_of_ok (system : TimeVaryingLinearSystem T) :
    ∀ (k i : Nat) (self result : DirectTranscription T),
      linearLoop system k i self = .ok result →
      result = self.withProg
        { self.prog with
          linear_equality_constraints := self.prog.linear_equality_constraints ++
            (List.range' i k).map fun j =>
              ⟨castVars (self.state (j + 1)),
                List.zipWith (fun a b => a + b)
                  (matVec (system.A (binary64.mul system.time_period (j : ℚ))) (castVars (self.state j)))
                  (matVec (system.B (binary64.mul system.time_period (j : ℚ)))
                    (castVars (self.input j)))⟩ } := by
  intro k
  induction k with
  | zero =>
    intro i self result h
    simp only [linearLoop, Except.ok.injEq] at h
    subst h
    simp [withProg]
  | succ k ih =>
    intro i self result h
    rw [linearLoop] at h
    split at h
    · simp at h
    · rename_i prog hadd
      rw [ih _ _ _ h, AddLinearEqualityConstraint_ok hadd]
      simp only [withProg, List.range'_succ, List.map_cons, List.append_assoc,
        List.singleton_append]
      rfl

theorem DirectTranscription_linear_of_ok (system : TimeVaryingLinearSystem T)
    (context : Context ℚ) (N : Nat) (input_port_index : InputPortChoice)
    (dt : DirectTranscription T)
    (h : DirectTranscription_linear system context N input_port_index = .ok dt) :
    ∃ num_inputs base self,
      get_input_port_size system.toSystem input_port_index = .ok num_inputs ∧
      MultipleShooting.init num_inputs context.num_total_states N
        (max system.time_period epsilon) = .ok base ∧
      context.has_only_discrete_state = true ∧
      linearLoop system (N - 1) 0 (ofBase base true) = .ok self ∧
      self.ConstrainEqualInputAtFinalTwoTimesteps = .ok dt := by
  unfold DirectTranscription_linear at h
  split at h
  · simp at h
  · rename_i ni hni
    split at h
    · simp at h
    · rename_i base hbase
      simp only at h
      split at h
      · simp at h
      · rename_i hdisc
        split at h
        · simp at h
        · split at h
          · simp at h
          · rename_i self hloop
            have hN : (ofBase base true : DirectTranscription T).N = N := by
              rw [(MultipleShooting.init_of_ok hbase).1]; rfl
            rw [hN] at hloop
            exact ⟨ni, base, self, hni, hbase, by simpa using hdisc, hloop, h⟩

/-- A builder that went through `ConstrainEqualInputAtFinalTwoTimesteps` with a
positive input dimension holds the boundary equality. -/
theorem finalInputEquality_mem (self dt : DirectTranscription T)
    (h : self.ConstrainEqualInputAtFinalTwoTimesteps = .ok dt) :
    dt.N = self.N ∧ dt.num_inputs = self.num_inputs ∧
      ∀ c ∈ dt.finalInputEquality, c ∈ dt.prog.linear_equality_constraints := by
  rw [ConstrainEqualInputAtFinalTwoTimesteps_eq] at h
  simp only [Except.ok.injEq] at h
  subst h
  by_cases hpos : 0 < self.num_inputs
  · simp [hpos, withProg, MultipleShooting.finalInputEquality, MultipleShooting.input]
  · simp [hpos, MultipleShooting.finalInputEquality]

end DirectTranscription

theorem EvaluateVec_input_eq (env : Variable → ℚ) (ms : MultipleShooting) (a b : Nat)
    (h : EvaluateVec env (castVars (ms.input a)) = EvaluateVec env (castVars (ms.input b))) :
    ∀ j, j < ms.num_inputs →
      env (Variable.u (a * ms.num_inputs + j)) = env (Variable.u (b * ms.num_inputs + j)) := by
  intro j hj
  simp only [EvaluateVec, castVars, MultipleShooting.input, List.map_map] at h
  have := List.map_inj_left.mp h j (List.mem_range.mpr hj)
  simpa [Expression.Evaluate] using this

/-- Each of the three constructors leaves the boundary equality in the program. -/
theorem DirectTranscription.built_holds_finalInputEquality [RatCast T] [Zero T]
    (system : DoubleSystem T) (linear_system : TimeVaryingLinearSystem T)
    (context : Context ℚ) (N : Nat) (fixed_time_step : ℚ) (input_port_index : InputPortChoice)
    (dt : DirectTranscription T)
    (h : DirectTranscription.DirectTranscription_discrete system context N input_port_index =
        .ok dt ∨
      DirectTranscription.DirectTranscription_linear linear_system context N input_port_index =
        .ok dt ∨
      DirectTranscription.DirectTranscription_continuous system context N fixed_time_step
        input_port_index = .ok dt) :
    2 ≤ N ∧ dt.N = N ∧ ∀ c ∈ dt.finalInputEquality, c ∈ dt.prog.linear_equality_constraints := by
  rcases h with h | h | h
  · obtain ⟨ni, period, base, -, -, hbase, -, hadd⟩ :=
      DirectTranscription.DirectTranscription_discrete_of_ok _ _ _ _ _ h
    obtain ⟨hb, hN, -⟩ := MultipleShooting.init_of_ok hbase
    have hout := DirectTranscription.outcome_of_addDynamicConstraints base true system context
      input_port_index dt (by rw [hb]) (by rw [hb]) hadd
    refine ⟨hN, by rw [hout.1, hb], ?_⟩
    intro c hc
    rcases hout.2 with ⟨-, -, rhs, hl⟩ | ⟨-, hl, -⟩
    · rw [hl]; exact List.mem_append_right _ hc
    · rw [hl]; exact hc
  · obtain ⟨ni, base, self, -, hbase, -, hloop, hfin⟩ :=
      DirectTranscription.DirectTranscription_linear_of_ok _ _ _ _ _ h
    obtain ⟨hb, hN, -⟩ := MultipleShooting.init_of_ok hbase
    obtain ⟨h1, -, h3⟩ := DirectTranscription.finalInputEquality_mem self dt hfin
    have hself := DirectTranscription.linearLoop_of_ok _ _ _ _ _ hloop
    refine ⟨hN, ?_, h3⟩
    rw [h1, hself, hb]
    rfl
  · obtain ⟨ni, base, -, hbase, -, hadd⟩ :=
      DirectTranscription.DirectTranscription_continuous_of_ok _ _ _ _ _ _ h
    obtain ⟨hb, hN, -⟩ := MultipleShooting.init_of_ok hbase
    have hout := DirectTranscription.outcome_of_addDynamicConstraints base false system context
      input_port_index dt (by rw [hb]) (by rw [hb]) hadd
    refine ⟨hN, by rw [hout.1, hb], ?_⟩
    intro c hc
    rcases hout.2 with ⟨-, -, rhs, hl⟩ | ⟨-, hl, -⟩
    · rw [hl]; exact List.mem_append_right _ hc
    · rw [hl]; exact hc

/-- C5: `ConstrainEqualInputAtFinalTwoTimesteps` adds exactly the one linear equality
`input(N-2) == input(N-1)` when the input dimension is positive and nothing when
it is zero; and for every problem built by any of the three constructors (which
forces `N ≥ 2`) with positive input dimension, that equality is in the program,
so every assignment satisfying the program's linear equalities gives the inputs
of the last two samples equal values, component by component. -/
theorem final_two_inputs_constrained_equal [RatCast T] [Zero T]
    (self : DirectTranscription T) (system : DoubleSystem T)
    (linear_system : TimeVaryingLinearSystem T)
    (context : Context ℚ) (N : Nat) (fixed_time_step : ℚ) (input_port_index : InputPortChoice)
    (dt : DirectTranscription T)
    (h : DirectTranscription.DirectTranscription_discrete system context N input_port_index =
        .ok dt ∨
      DirectTranscription.DirectTranscription_linear linear_system context N input_port_index =
        .ok dt ∨
      DirectTranscription.DirectTranscription_continuous system context N fixed_time_step
        input_port_index = .ok dt) :
    self.ConstrainEqualInputAtFinalTwoTimesteps =
        .ok (if 0 < self.num_inputs then
          self.withProg { self.prog with
            linear_equality_constraints := self.prog.linear_equality_constraints ++
              [⟨castVars (self.input (self.N - 2)), castVars (self.input (self.N - 1))⟩] }
          else self) ∧
      2 ≤ N ∧ dt.N = N ∧
      (0 < dt.num_inputs →
        (⟨castVars (dt.input (N - 2)), castVars (dt.input (N - 1))⟩ : LinearEqualityConstraint) ∈
            dt.prog.linear_equality_constraints ∧
          ∀ env : Variable → ℚ,
            (∀ c ∈ dt.prog.linear_equality_constraints, c.Holds env) →
            ∀ j, j < dt.num_inputs →
              env (Variable.u ((N - 2) * dt.num_inputs + j)) =
                env (Variable.u ((N - 1) * dt.num_inputs + j))) := by
  obtain ⟨hN, hdtN, hmem⟩ := DirectTranscription.built_holds_finalInputEquality system
    linear_system context N fixed_time_step input_port_index dt h
  refine ⟨DirectTranscription.ConstrainEqualInputAtFinalTwoTimesteps_eq self, hN, hdtN, ?_⟩
  intro hpos
  have hc : (⟨castVars (dt.input (N - 2)), castVars (dt.input (N - 1))⟩ :
      LinearEqualityConstraint) ∈ dt.prog.linear_equality_constraints := by
    apply hmem
    simp [MultipleShooting.finalInputEquality, hpos, hdtN]
  refine ⟨hc, ?_⟩
  intro env hall j hj
  exact EvaluateVec_input_eq env dt.toMultipleShooting (N - 2) (N - 1) (hall _ hc) j hj

/-- Witness for C5: the discrete scenario with `N = 5`. -/
theorem final_two_inputs_constrained_equal_witness :
    ∃ dt, (DirectTranscription.DirectTranscription_discrete (scenario.discreteSystem true)
        (scenario.discreteSystemOn ℚ).CreateDefaultContext 5 scenario.firstInput :
          Except Error (DirectTranscription ℚ)) = .ok dt ∧
      (0 < dt.num_inputs →
        ∀ env : Variable → ℚ,
          (∀ c ∈ dt.prog.linear_equality_constraints, c.Holds env) →
          ∀ j, j < dt.num_inputs →
            env (Variable.u ((5 - 2) * dt.num_inputs + j)) =
              env (Variable.u ((5 - 1) * dt.num_inputs + j))) := by
  obtain ⟨dt, hdt⟩ := scenario.discrete_built
  exact ⟨dt, hdt, fun hpos => ((final_two_inputs_constrained_equal scenario.discreteBuilder
    (scenario.discreteSystem true)
    { toDoubleSystem := scenario.discreteSystem true, A := fun _ => [], B := fun _ => [],
      time_period := 1 }
    (scenario.discreteSystemOn ℚ).CreateDefaultContext 5 1 scenario.firstInput dt
    (Or.inl hdt)).2.2.2 hpos).2⟩

/-! ### Evaluation of the per-step constraint -/

theorem Context.not_continuous_of_discrete (c : Context T)
    (h : c.has_only_discrete_state = true) : c.has_only_continuous_state = false := by
  simp only [Context.has_only_discrete_state, Context.has_only_continuous_state,
    Bool.and_eq_true, beq_iff_eq, decide_eq_true_eq] at h ⊢
  simp [h.1.1]

namespace DirectTranscriptionConstraint

theorem input_stacked (c : DirectTranscriptionConstraint) (input state next_state : List T)
    (hi : input.length = c.num_inputs_) : c.input (input ++ state ++ next_state) = input := by
  simp [DirectTranscriptionConstraint.input, ← hi, List.append_assoc]

theorem state_stacked (c : DirectTranscriptionConstraint) (input state next_state : List T)
    (hi : input.length = c.num_inputs_) (hs : state.length = c.num_states_) :
    c.state (input ++ state ++ next_state) = state := by
  simp [DirectTranscriptionConstraint.state, ← hi, ← hs, List.append_assoc]

theorem next_state_stacked (c : DirectTranscriptionConstraint) (input state next_state : List T)
    (hn : next_state.length = c.num_states_) :
    c.next_state (input ++ state ++ next_state) = next_state := by
  simp only [DirectTranscriptionConstraint.next_state, List.length_append, ← hn,
    Nat.add_sub_cancel]
  rw [← List.length_append, List.drop_left]

theorem writeTimeAndInput_eq [RatCast T] (c : DirectTranscriptionConstraint) (x : List T)
    (context : Context T)
    (hhandle : context.num_input_ports = 0 ∨ c.input_port_value_.isSome = true) :
    c.writeTimeAndInput x context =
      .ok (match (if 0 < context.num_input_ports then c.input_port_value_ else none) with
        | some port => (context.SetTime (c.evaluation_time_ : T)).FixValue port (c.input x)
        | none => context.SetTime (c.evaluation_time_ : T)) := by
  unfold writeTimeAndInput
  have hn : (context.SetTime (c.evaluation_time_ : T)).num_input_ports = context.num_input_ports :=
    rfl
  simp only [hn]
  by_cases hp : 0 < context.num_input_ports
  · simp only [hp, if_true]
    rcases hhandle with h0 | hsome
    · omega
    · cases hv : c.input_port_value_ with
      | none => simp [hv] at hsome
      | some port => rfl
  · simp [hp]

end DirectTranscriptionConstraint

theorem zipWith_sub_eq_zero_iff [AddGroup T] (n : Nat) (a b : List T) (ha : a.length = n)
    (hb : b.length = n) :
    List.zipWith (fun p q => p - q) a b = List.replicate n 0 ↔ a = b := by
  induction n generalizing a b with
  | zero =>
    rw [List.length_eq_zero] at ha hb
    simp [ha, hb]
  | succ n ih =>
    cases a with
    | nil => simp at ha
    | cons p a =>
      cases b with
      | nil => simp at hb
      | cons q b =>
        simp only [List.length_cons, Nat.add_right_cancel_iff] at ha hb
        simp [List.replicate_succ, ih a b ha hb, sub_eq_zero]

theorem DirectTranscriptionConstraint.writeTimeAndInput_advance [RatCast T]
    (c : DirectTranscriptionConstraint) (x : List T) (context : Context T)
    (hhandle : context.num_input_ports = 0 ∨ c.input_port_value_.isSome = true) :
    (∀ state, (c.writeTimeAndInput x context).map (fun ctx => ctx.SetDiscreteState 0 state) =
      .ok (AdvanceContext true context (c.writtenPort context) c.evaluation_time_ state
        (c.input x))) ∧
    (∀ state, (c.writeTimeAndInput x context).map (fun ctx => ctx.SetContinuousState state) =
      .ok (AdvanceContext false context (c.writtenPort context) c.evaluation_time_ state
        (c.input x))) ∧
    ∃ ctx, c.writeTimeAndInput x context = .ok ctx ∧
      ctx.has_only_continuous_state = context.has_only_continuous_state := by
  rw [DirectTranscriptionConstraint.writeTimeAndInput_eq c x context hhandle]
  unfold AdvanceContext DirectTranscriptionConstraint.writtenPort
  cases (if 0 < context.num_input_ports then c.input_port_value_ else none) with
  | none => exact ⟨fun _ => rfl, fun _ => rfl, _, rfl, rfl⟩
  | some port => exact ⟨fun _ => rfl, fun _ => rfl, _, rfl, rfl⟩

/-- C6: in discrete mode, for a constraint whose input-value handle is set whenever
the shared context has input ports (the demand of its constructor) and a system
whose update has a group 0, for every stacked vector `[input, state, next_state]`
(of sizes `num_inputs`, `num_states`, `num_states`), `DoEval` returns
`next_state - f`, where `f` is group 0 of the system's unique periodic discrete
update evaluated in the shared context with time set to the evaluation time,
discrete state group 0 set to `state` and, when the context has input ports,
the input-port value set to `input` (that context is also what the evaluation
leaves behind); hence, `f` having `num_states` entries, the result is the zero
vector exactly when `next_state` is the one-step advance from `(state, input)`. -/
theorem DoEval_discrete_residual [Ring T] [RatCast T] (c : DirectTranscriptionConstraint)
    (integrator : IntegratorBase T) (input state next_state : List T)
    (hi : input.length = c.num_inputs_) (hs : state.length = c.num_states_)
    (hn : next_state.length = c.num_states_)
    (hmode : integrator.context.has_only_discrete_state = true)
    (hhandle : integrator.context.num_input_ports = 0 ∨ c.input_port_value_.isSome = true)
    (hgroup : integrator.system.EvalUniquePeriodicDiscreteUpdate
      (AdvanceContext true integrator.context (c.writtenPort integrator.context)
        c.evaluation_time_ state input) ≠ []) :
    (c.DoEval (input ++ state ++ next_state) integrator).2 =
        .ok (List.zipWith (fun a b => a - b) next_state
          (OneStepAdvance integrator.system true c.fixed_time_step_ integrator.context
            (c.writtenPort integrator.context) c.evaluation_time_ state input)) ∧
      (c.DoEval (input ++ state ++ next_state) integrator).1.context =
        AdvanceContext true integrator.context (c.writtenPort integrator.context)
          c.evaluation_time_ state input ∧
      ((OneStepAdvance integrator.system true c.fixed_time_step_ integrator.context
            (c.writtenPort integrator.context) c.evaluation_time_ state input).length =
          c.num_states_ →
        (List.zipWith (fun a b => a - b) next_state
            (OneStepAdvance integrator.system true c.fixed_time_step_ integrator.context
              (c.writtenPort integrator.context) c.evaluation_time_ state input) =
            List.replicate c.num_states_ 0 ↔
          next_state =
            OneStepAdvance integrator.system true c.fixed_time_step_ integrator.context
              (c.writtenPort integrator.context) c.evaluation_time_ state input)) := by
  obtain ⟨hd, -, ctx, hctx, hcc⟩ := DirectTranscriptionConstraint.writeTimeAndInput_advance c
    (input ++ state ++ next_state) integrator.context hhandle
  have hd2 := hd state
  rw [hctx, DirectTranscriptionConstraint.input_stacked c _ _ _ hi] at hd2
  simp only [Except.map, Except.ok.injEq] at hd2
  rw [Context.not_continuous_of_discrete _ hmode] at hcc
  obtain ⟨v, rest, hv⟩ := List.exists_cons_of_ne_nil hgroup
  have hadv : OneStepAdvance integrator.system true c.fixed_time_step_ integrator.context
      (c.writtenPort integrator.context) c.evaluation_time_ state input = v := by
    simp only [OneStepAdvance, if_true]
    rw [hv]
    rfl
  rw [hadv]
  unfold DirectTranscriptionConstraint.DoEval
  rw [hctx]
  simp only [hcc, Bool.false_eq_true, if_false,
    DirectTranscriptionConstraint.state_stacked c _ _ _ hi hs,
    DirectTranscriptionConstraint.next_state_stacked c _ _ _ hn, hd2, hv,
    DiscreteValues.get_vector, List.get?_cons_zero]
  refine ⟨trivial, trivial, ?_⟩
  intro hlen
  exact zipWith_sub_eq_zero_iff c.num_states_ next_state v hn hlen

/-- Witness for C6: the discrete scenario at `input = 0`, `state = 1`,
`next_state = 1/2`. -/
theorem DoEval_discrete_residual_witness :
    (scenario.discreteConstraint.DoEval ([0] ++ [1] ++ [1 / 2]) scenario.discreteIntegrator).2 =
      .ok [0] := by
  have h := (DoEval_discrete_residual scenario.discreteConstraint scenario.discreteIntegrator
    [0] [1] [1 / 2] rfl rfl rfl rfl (Or.inr rfl)
    (by simp [scenario.discreteIntegrator, scenario.discreteSystemOn, scenario.halfUpdate])).1
  rw [h]
  simp [OneStepAdvance, AdvanceContext, scenario.discreteIntegrator, scenario.discreteSystemOn,
    scenario.halfUpdate, scenario.inputValue, scenario.discreteConstraint,
    DirectTranscriptionConstraint.writtenPort, Context.num_input_ports, Context.FixValue,
    Context.SetTime, Context.SetDiscreteState]

theorem zipWith_sub_eq_zero_iff_of [Sub T] [Zero T] (hsub : ∀ a b : T, a - b = 0 ↔ a = b)
    (n : Nat) (a b : List T) (ha : a.length = n) (hb : b.length = n) :
    List.zipWith (fun p q => p - q) a b = List.replicate n 0 ↔ a = b := by
  induction n generalizing a b with
  | zero =>
    rw [List.length_eq_zero] at ha hb
    simp [ha, hb]
  | succ n ih =>
    cases a with
    | nil => simp at ha
    | cons p a =>
      cases b with
      | nil => simp at hb
      | cons q b =>
        simp only [List.length_cons, Nat.add_right_cancel_iff] at ha hb
        simp [List.replicate_succ, ih a b ha hb, hsub]

/-- The continuous branch of `DoEval`: the residual against one explicit Euler step
whose size is the difference, in the scalar type, of the target time (the double
sum of evaluation time and fixed step) and the evaluation time. -/
theorem DirectTranscriptionConstraint.DoEval_continuous_eq [Add T] [Sub T] [Mul T] [RatCast T]
    (c : DirectTranscriptionConstraint) (integrator : IntegratorBase T)
    (input state next_state : List T)
    (hi : input.length = c.num_inputs_) (hs : state.length = c.num_states_)
    (hn : next_state.length = c.num_states_)
    (hmode : integrator.context.has_only_continuous_state = true)
    (hhandle : integrator.context.num_input_ports = 0 ∨ c.input_port_value_.isSome = true) :
    (c.DoEval (input ++ state ++ next_state) integrator).2 =
        .ok (List.zipWith (fun a b => a - b) next_state
          (List.zipWith
            (fun x d => x +
              (((binary64.add c.evaluation_time_ c.fixed_time_step_ : ℚ) : T) -
                ((c.evaluation_time_ : ℚ) : T)) * d)
            state
            (integrator.system.EvalTimeDerivatives
              (AdvanceContext false integrator.context (c.writtenPort integrator.context)
                c.evaluation_time_ state input)))) ∧
      (c.DoEval (input ++ state ++ next_state) integrator).1.context.time =
        ((binary64.add c.evaluation_time_ c.fixed_time_step_ : ℚ) : T) := by
  obtain ⟨-, hc, ctx, hctx, hcc⟩ := DirectTranscriptionConstraint.writeTimeAndInput_advance c
    (input ++ state ++ next_state) integrator.context hhandle
  have hc2 := hc state
  rw [hctx, DirectTranscriptionConstraint.input_stacked c _ _ _ hi] at hc2
  simp only [Except.map, Except.ok.injEq] at hc2
  rw [hmode] at hcc
  have htime : (AdvanceContext false integrator.context (c.writtenPort integrator.context)
      c.evaluation_time_ state input).time = (c.evaluation_time_ : T) := by
    unfold AdvanceContext
    cases c.writtenPort integrator.context <;> rfl
  have hstate : (AdvanceContext false integrator.context (c.writtenPort integrator.context)
      c.evaluation_time_ state input).continuous_state = state := by
    unfold AdvanceContext
    cases c.writtenPort integrator.context <;> rfl
  unfold DirectTranscriptionConstraint.DoEval
  rw [hctx]
  simp only [hcc, if_true, DirectTranscriptionConstraint.state_stacked c _ _ _ hi hs,
    DirectTranscriptionConstraint.next_state_stacked c _ _ _ hn, hc2,
    IntegratorBase.IntegrateWithSingleFixedStepToTime, DRAKE_THROW_UNLESS, htime, hstate]
  simp only [Context.SetTime, Context.SetContinuousState]
  exact ⟨trivial, trivial⟩

/-- C7 (amended): in continuous mode, for a constraint whose input-value handle is set
whenever the shared context has input ports (the demand of its constructor) and
whose target time stays within the finite range of `double`, for every stacked
vector `[input, state, next_state]` (of sizes `num_inputs`, `num_states`,
`num_states`) and every scalar type, `DoEval` returns
`next_state - (state + s * xdot)`: `xdot` is the system's time derivative
evaluated in the shared context with time set to the evaluation time `t`,
continuous state set to `state` and, when the context has input ports, the
input-port value set to `input`, and `s = (t ⊕ h) - t` is the step from `t` to the
target time `t ⊕ h`, the double sum of the evaluation time and the fixed time
step `h`, at which the context's time is left: one explicit Euler step from `t`
to `t ⊕ h`. Where a difference of scalars is zero only for equal scalars, the
result is zero exactly when `next_state` is that step. When `s` is `h` (the sum is
exact, as for `t = 0` and a double `h`), it is the Euler step of size `h`. In
particular, in binary64 arithmetic, for `xdot = -x + u`, `h = 0.1`, `t = 0`,
`state = 1`, `input = 0` the residual is zero at `next_state = 0.9` (the doubles
nearest to 1/10 and 9/10). -/
theorem DoEval_continuous_residual [Add T] [Sub T] [Mul T] [Zero T] [RatCast T]
    (c : DirectTranscriptionConstraint)
    (integrator : IntegratorBase T) (input state next_state : List T)
    (hi : input.length = c.num_inputs_) (hs : state.length = c.num_states_)
    (hn : next_state.length = c.num_states_)
    (hmode : integrator.context.has_only_continuous_state = true)
    (hhandle : integrator.context.num_input_ports = 0 ∨ c.input_port_value_.isSome = true)
    (_hrange : |c.evaluation_time_ + c.fixed_time_step_| ≤ binary64.maxFinite) :
    (c.DoEval (input ++ state ++ next_state) integrator).2 =
        .ok (List.zipWith (fun a b => a - b) next_state
          (List.zipWith
            (fun x d => x +
              (((binary64.add c.evaluation_time_ c.fixed_time_step_ : ℚ) : T) -
                ((c.evaluation_time_ : ℚ) : T)) * d)
            state
            (integrator.system.EvalTimeDerivatives
              (AdvanceContext false integrator.context (c.writtenPort integrator.context)
                c.evaluation_time_ state input)))) ∧
      (c.DoEval (input ++ state ++ next_state) integrator).1.context.time =
        ((binary64.add c.evaluation_time_ c.fixed_time_step_ : ℚ) : T) ∧
      ((∀ a b : T, a - b = 0 ↔ a = b) →
        (integrator.system.EvalTimeDerivatives
            (AdvanceContext false integrator.context (c.writtenPort integrator.context)
              c.evaluation_time_ state input)).length = c.num_states_ →
        ((c.DoEval (input ++ state ++ next_state) integrator).2 =
            .ok (List.replicate c.num_states_ 0) ↔
          next_state =
            List.zipWith
              (fun x d => x +
                (((binary64.add c.evaluation_time_ c.fixed_time_step_ : ℚ) : T) -
                  ((c.evaluation_time_ : ℚ) : T)) * d)
              state
              (integrator.system.EvalTimeDerivatives
                (AdvanceContext false integrator.context (c.writtenPort integrator.context)
                  c.evaluation_time_ state input)))) ∧
      ((((binary64.add c.evaluation_time_ c.fixed_time_step_ : ℚ) : T) -
            ((c.evaluation_time_ : ℚ) : T) = ((c.fixed_time_step_ : ℚ) : T)) →
        (c.DoEval (input ++ state ++ next_state) integrator).2 =
          .ok (List.zipWith (fun a b => a - b) next_state
            (OneStepAdvance integrator.system false c.fixed_time_step_ integrator.context
              (c.writtenPort integrator.context) c.evaluation_time_ state input))) ∧
      (c.evaluation_time_ = 0 → binary64.round c.fixed_time_step_ = c.fixed_time_step_ →
        binary64.add c.evaluation_time_ c.fixed_time_step_ - c.evaluation_time_ =
          c.fixed_time_step_) ∧
      (binary64.round (1 / 10) = scenario.tenth ∧
        binary64.round (9 / 10) = 8106479329266893 / 9007199254740992 ∧
        ((scenario.tenthConstraint 0).DoEval
            ([0] ++ [Double.finite 1] ++ [Double.finite (8106479329266893 / 9007199254740992)])
            scenario.binary64Integrator).2 = .ok [0]) := by
  obtain ⟨hres, htime⟩ := DirectTranscriptionConstraint.DoEval_continuous_eq c integrator input
    state next_state hi hs hn hmode hhandle
  refine ⟨hres, htime, ?_, ?_, ?_, by decide!, by decide!, by decide!⟩
  · intro hsub hlen
    rw [hres, Except.ok.injEq]
    refine zipWith_sub_eq_zero_iff_of hsub c.num_states_ next_state _ hn ?_
    rw [List.length_zipWith, hs, hlen, Nat.min_self]
  · intro hstep
    rw [hres, hstep]
    simp only [OneStepAdvance, Bool.false_eq_true, if_false]
  · intro h0 hround
    rw [h0]
    simp [binary64.add, hround]

/-- Counterexample to C7 as stated, in binary64 arithmetic: for `xdot = -x + u`,
fixed step `h = 0.1` and evaluation time `t = 0.2` (both doubles), at
`input = 1`, `state = 0`, `next_state = 0.1`, the residual
`next_state - (state + h * xdot)` of the claim is zero, but `DoEval` returns
`-2^-55`: the step from `t` to the double sum `0.2 ⊕ 0.1 = 0.30000000000000004`
is `0.1 + 2^-55`, not `h`. -/
theorem DoEval_continuous_step_counterexample :
    binary64.round scenario.tenth = scenario.tenth ∧
      binary64.round (2 * scenario.tenth) = 2 * scenario.tenth ∧
      List.zipWith (fun a b => a - b) [Double.finite scenario.tenth]
          (List.zipWith (fun x d => x + ((scenario.tenth : ℚ) : Double) * d) [0]
            (scenario.binary64Integrator.system.EvalTimeDerivatives
              (AdvanceContext false scenario.binary64Integrator.context (some 0)
                (2 * scenario.tenth) [0] [Double.finite 1]))) = [0] ∧
      ((scenario.tenthConstraint (2 * scenario.tenth)).DoEval
          ([Double.finite 1] ++ [0] ++ [Double.finite scenario.tenth]) scenario.binary64Integrator).2 =
        .ok [Double.finite (-(1 / 2 ^ 55))] ∧
      binary64.add (2 * scenario.tenth) scenario.tenth - 2 * scenario.tenth =
        scenario.tenth + 1 / 2 ^ 55 := by
  refine ⟨by decide!, by decide!, by decide!, by decide!, by decide!⟩

/-- Witness for C7: the continuous scenario in binary64 arithmetic with fixed step
`0.1` and evaluation time 0, at `input = 0`, `state = 1`: the residual is zero at
`next_state = 0.9`, the double nearest to 9/10. -/
theorem DoEval_continuous_residual_witness :
    binary64.round (9 / 10) = 8106479329266893 / 9007199254740992 ∧
      ((scenario.tenthConstraint 0).DoEval
          ([0] ++ [Double.finite 1] ++ [Double.finite (8106479329266893 / 9007199254740992)])
          scenario.binary64Integrator).2 = .ok [0] := by
  refine ⟨by decide!, ?_⟩
  rw [(DoEval_continuous_residual (scenario.tenthConstraint 0) scenario.binary64Integrator
    [0] [Double.finite 1] [Double.finite (8106479329266893 / 9007199254740992)] rfl rfl rfl rfl (Or.inr rfl)
    (by decide!)).1]
  decide!

/-! ### The two scenarios -/

/-- The program built for the discrete scenario with `N = 5`. -/
theorem scenario.discrete_built_program :
    (DirectTranscription.DirectTranscription_discrete (scenario.discreteSystem true)
      (scenario.discreteSystemOn ℚ).CreateDefaultContext 5 scenario.firstInput :
        Except Error (DirectTranscription ℚ)).map (fun dt =>
          (dt.prog.linear_equality_constraints, dt.prog.generic_constraints,
            dt.fixed_time_step)) =
      .ok (scenario.discreteEqualities, [], 1) := by
  rfl

/-- C8: for `x[k+1] = 0.5 x[k] + u[k]` with `N = 5` and period 1, the symbolic fast
path returns `true` on the builder left by the base-class constructor, the
built program holds exactly 4 linear-equality dynamics constraints plus the 1
boundary constraint (and no autodiff constraint), and every assignment that
satisfies them with `x[0] = 1` and `u[k] = 0` for all `k` has `x[4] = 1/16`. -/
theorem discrete_scenario_fast_path :
    MultipleShooting.init 1 1 5 1 = .ok scenario.discreteBuilder.toMultipleShooting ∧
    (scenario.discreteBuilder.AddSymbolicDynamicConstraints
        (scenario.discreteSystem true) (scenario.discreteSystemOn ℚ).CreateDefaultContext
        scenario.firstInput).2 = .ok true ∧
    ∃ dt, (DirectTranscription.DirectTranscription_discrete (scenario.discreteSystem true)
        (scenario.discreteSystemOn ℚ).CreateDefaultContext 5 scenario.firstInput :
          Except Error (DirectTranscription ℚ)) = .ok dt ∧
      dt.fixed_time_step = 1 ∧
      dt.prog.generic_constraints = [] ∧
      dt.prog.linear_equality_constraints = scenario.discreteEqualities ∧
      dt.prog.linear_equality_constraints.length = 4 + 1 ∧
      ∀ env : Variable → ℚ,
        (∀ c ∈ dt.prog.linear_equality_constraints, c.Holds env) →
        env (Variable.x 0) = 1 → (∀ k, k < 5 → env (Variable.u k) = 0) →
        env (Variable.x 4) = 1 / 16 := by
  refine ⟨rfl, rfl, ?_⟩
  obtain ⟨dt, hdt⟩ := scenario.discrete_built
  have hp := scenario.discrete_built_program
  rw [hdt] at hp
  simp only [Except.map, Except.ok.injEq, Prod.mk.injEq] at hp
  obtain ⟨hlin, hgen, hstep⟩ := hp
  refine ⟨dt, hdt, hstep, hgen, hlin, by rw [hlin]; rfl, ?_⟩
  intro env hall hx0 hu
  rw [hlin] at hall
  have h0 := hall _ (List.mem_cons_self _ _)
  have h1 := hall _ (List.mem_cons_of_mem _ (List.mem_cons_self _ _))
  have h2 := hall _ (List.mem_cons_of_mem _ (List.mem_cons_of_mem _ (List.mem_cons_self _ _)))
  have h3 := hall _ (List.mem_cons_of_mem _ (List.mem_cons_of_mem _
    (List.mem_cons_of_mem _ (List.mem_cons_self _ _))))
  simp only [LinearEqualityConstraint.Holds, EvaluateVec, List.map_cons, List.map_nil,
    Expression.Evaluate, List.cons.injEq, and_true] at h0 h1 h2 h3
  rw [h3, h2, h1, h0, hx0, hu 0 (by decide), hu 1 (by decide), hu 2 (by decide),
    hu 3 (by decide)]
  norm_num

/-- Witness for C8: the trajectory `x[k] = (1/2)^k`, `u[k] = 0` satisfies the
program, and its `x[4]` is `1/16`. -/
theorem discrete_scenario_fast_path_witness :
    scenario.halving (Variable.x 4) = 1 / 16 := by
  obtain ⟨-, -, dt, -, -, -, hlin, -, h⟩ := discrete_scenario_fast_path
  refine h scenario.halving ?_ (by simp [scenario.halving]) (fun k _ => rfl)
  intro c hc
  rw [hlin] at hc
  simp only [scenario.discreteEqualities, List.mem_cons, List.mem_singleton,
    List.not_mem_nil, or_false] at hc
  rcases hc with rfl | rfl | rfl | rfl | rfl <;>
    simp [LinearEqualityConstraint.Holds, EvaluateVec, Expression.Evaluate, scenario.halving] <;>
    norm_num

/-- The base-class constructor of the continuous scenario. -/
theorem scenario.continuous_init :
    MultipleShooting.init 1 1 3 (1 / 10) = .ok scenario.continuousBuilder.toMultipleShooting := by
  simp [MultipleShooting.init, DRAKE_DEMAND, bind, Except.bind, pure, Except.pure,
    scenario.continuousBuilder, DirectTranscription.ofBase]

/-- The continuous-time constructor passes its checks on the continuous scenario. -/
theorem scenario.continuous_construction (symbolic : Bool) :
    (DirectTranscription.DirectTranscription_continuous (scenario.continuousSystem symbolic)
      (scenario.continuousSystemOn ℚ).CreateDefaultContext 3 (1 / 10) scenario.firstInput :
        Except Error (DirectTranscription ℚ)) =
      scenario.continuousBuilder.addDynamicConstraints (scenario.continuousSystem symbolic)
        (scenario.continuousSystemOn ℚ).CreateDefaultContext scenario.firstInput := by
  have hsize : get_input_port_size (scenario.continuousSystem symbolic).toSystem
      scenario.firstInput = .ok 1 := rfl
  have hstates : (scenario.continuousSystemOn ℚ).CreateDefaultContext.num_total_states = 1 := rfl
  have hcont : (scenario.continuousSystemOn ℚ).CreateDefaultContext.has_only_continuous_state =
      true := rfl
  have hdemand : DRAKE_DEMAND (decide ((0 : ℚ) < 1 / 10)) = .ok () := by
    simp [DRAKE_DEMAND]
  have hin : (DirectTranscription.ofBase scenario.continuousBuilder.toMultipleShooting false :
      DirectTranscription ℚ).demandInputSize (scenario.continuousSystem symbolic).toSystem
        (scenario.continuousSystemOn ℚ).CreateDefaultContext scenario.firstInput = .ok () := rfl
  unfold DirectTranscription.DirectTranscription_continuous
  rw [hsize]
  simp only [hstates, scenario.continuous_init, hcont, hdemand, hin, Bool.not_true,
    Bool.false_eq_true, if_false]
  rfl

/-- With symbolic support the continuous scenario is built by the fast path. -/
theorem scenario.continuous_symbolic_built :
    ∃ dt, (DirectTranscription.DirectTranscription_continuous (scenario.continuousSystem true)
        (scenario.continuousSystemOn ℚ).CreateDefaultContext 3 (1 / 10) scenario.firstInput :
          Except Error (DirectTranscription ℚ)) = .ok dt ∧
      (scenario.continuousBuilder.AddSymbolicDynamicConstraints (scenario.continuousSystem true)
        (scenario.continuousSystemOn ℚ).CreateDefaultContext scenario.firstInput).2 = .ok true ∧
      dt.prog.generic_constraints = [] ∧
      dt.prog.linear_equality_constraints.length = 2 + 1 := by
  rw [scenario.continuous_construction]
  have h : (scenario.continuousBuilder.addDynamicConstraints (scenario.continuousSystem true)
      (scenario.continuousSystemOn ℚ).CreateDefaultContext scenario.firstInput).map
        (fun dt => (dt.prog.generic_constraints, dt.prog.linear_equality_constraints.length)) =
      .ok ([], 3) := rfl
  cases hc : scenario.continuousBuilder.addDynamicConstraints (scenario.continuousSystem true)
      (scenario.continuousSystemOn ℚ).CreateDefaultContext scenario.firstInput with
  | error e => rw [hc] at h; simp [Except.map] at h
  | ok dt =>
    rw [hc] at h
    simp only [Except.map, Except.ok.injEq, Prod.mk.injEq] at h
    exact ⟨dt, rfl, rfl, h.1, h.2⟩

/-- Without symbolic support the continuous scenario is built by the autodiff path. -/
theorem scenario.continuous_autodiff_built :
    ∃ dt, (DirectTranscription.DirectTranscription_continuous (scenario.continuousSystem false)
        (scenario.continuousSystemOn ℚ).CreateDefaultContext 3 (1 / 10) scenario.firstInput :
          Except Error (DirectTranscription ℚ)) = .ok dt ∧
      (scenario.continuousBuilder.AddSymbolicDynamicConstraints (scenario.continuousSystem false)
        (scenario.continuousSystemOn ℚ).CreateDefaultContext scenario.firstInput).2 =
          .ok false ∧
      dt.prog.generic_constraints.length = 2 ∧
      (∀ b ∈ dt.prog.generic_constraints, b.evaluator.fixed_time_step_ = 1 / 10) ∧
      dt.prog.linear_equality_constraints =
        [⟨[Expression.var (Variable.u 1)], [Expression.var (Variable.u 2)]⟩] := by
  rw [scenario.continuous_construction]
  have hstep : (0 : ℚ) < scenario.continuousBuilder.fixed_time_step := by
    norm_num [scenario.continuousBuilder, DirectTranscription.ofBase]
  obtain ⟨result, -, hres, -, -, -, hgen, hlin⟩ :=
    DirectTranscription.AddAutodiffDynamicConstraints_ok scenario.continuousBuilder
      (scenario.continuousSystem false) (scenario.continuousSystemOn ℚ).CreateDefaultContext
      scenario.firstInput (scenario.continuousSystemOn ℚ)
      (some (0, ⟨PortDataType.kVectorValued, 1⟩)) rfl rfl rfl (Or.inr rfl) hstep
  have hms := DirectTranscription.AddAutodiffDynamicConstraints_of_ok _ _ _ _ _ hres
  have hni : result.num_inputs = 1 := by rw [hms]; rfl
  have hN : result.N = 3 := by rw [hms]; rfl
  have hadd : scenario.continuousBuilder.addDynamicConstraints (scenario.continuousSystem false)
      (scenario.continuousSystemOn ℚ).CreateDefaultContext scenario.firstInput =
      result.ConstrainEqualInputAtFinalTwoTimesteps := by
    unfold DirectTranscription.addDynamicConstraints
    have hs : scenario.continuousBuilder.AddSymbolicDynamicConstraints
        (scenario.continuousSystem false) (scenario.continuousSystemOn ℚ).CreateDefaultContext
        scenario.firstInput = (scenario.continuousBuilder, .ok false) := rfl
    rw [hs]
    simp only [hres]
  rw [hadd, DirectTranscription.ConstrainEqualInputAtFinalTwoTimesteps_eq]
  refine ⟨_, rfl, rfl, ?_, ?_, ?_⟩
  · simp [hni, DirectTranscription.withProg, hgen, scenario.continuousBuilder,
      DirectTranscription.ofBase]
  · intro b hb
    simp only [hni, Nat.lt_one_iff, if_true, DirectTranscription.withProg, hgen,
      scenario.continuousBuilder, DirectTranscription.ofBase, List.nil_append, List.mem_map,
      Nat.zero_lt_one] at hb
    obtain ⟨i, -, rfl⟩ := hb
    rfl
  · simp [hni, hN, DirectTranscription.withProg, hlin, scenario.continuousBuilder,
      DirectTranscription.ofBase, MultipleShooting.input, castVars, List.range_succ]


/-- Counterexample to C9 as stated: the system `xdot = -x + u` with symbolic support,
fixed step 1/10 and `N = 3`. One symbolic Euler step is affine, so the fast path
returns `true` and the constructor registers the dynamics as linear equalities:
the program holds no autodiff constraint at all. -/
theorem continuous_scenario_symbolic_counterexample :
    ∃ dt, (DirectTranscription.DirectTranscription_continuous (scenario.continuousSystem true)
        (scenario.continuousSystemOn ℚ).CreateDefaultContext 3 (1 / 10) scenario.firstInput :
          Except Error (DirectTranscription ℚ)) = .ok dt ∧
      (scenario.continuousBuilder.AddSymbolicDynamicConstraints (scenario.continuousSystem true)
        (scenario.continuousSystemOn ℚ).CreateDefaultContext scenario.firstInput).2 = .ok true ∧
      dt.prog.generic_constraints = [] ∧
      dt.prog.generic_constraints.length ≠ 3 - 1 ∧
      dt.prog.linear_equality_constraints.length = 2 + 1 := by
  obtain ⟨dt, h1, h2, h3, h4⟩ := scenario.continuous_symbolic_built
  exact ⟨dt, h1, h2, h3, by rw [h3]; decide, h4⟩

/-- C9 (amended): for `xdot = -x + u` constructed with fixed step 1/10 and `N = 3`, the
autodiff path is the active one when the system has no symbolic counterpart: the
fast path returns `false` and the dynamics constraints are the `N - 1 = 2`
autodiff constraints (step 1/10), the only linear equality being the boundary
one. When the system has a symbolic counterpart, the fast path returns `true`
and the program holds 2 linear-equality dynamics constraints plus the boundary
one, and no autodiff constraint. -/
theorem continuous_scenario_active_path :
    (∃ dt, (DirectTranscription.DirectTranscription_continuous (scenario.continuousSystem false)
        (scenario.continuousSystemOn ℚ).CreateDefaultContext 3 (1 / 10) scenario.firstInput :
          Except Error (DirectTranscription ℚ)) = .ok dt ∧
      (scenario.continuousBuilder.AddSymbolicDynamicConstraints (scenario.continuousSystem false)
        (scenario.continuousSystemOn ℚ).CreateDefaultContext scenario.firstInput).2 =
          .ok false ∧
      dt.prog.generic_constraints.length = 3 - 1 ∧
      (∀ b ∈ dt.prog.generic_constraints, b.evaluator.fixed_time_step_ = 1 / 10) ∧
      dt.prog.linear_equality_constraints =
        [⟨[Expression.var (Variable.u 1)], [Expression.var (Variable.u 2)]⟩]) ∧
    (∃ dt, (DirectTranscription.DirectTranscription_continuous (scenario.continuousSystem true)
        (scenario.continuousSystemOn ℚ).CreateDefaultContext 3 (1 / 10) scenario.firstInput :
          Except Error (DirectTranscription ℚ)) = .ok dt ∧
      (scenario.continuousBuilder.AddSymbolicDynamicConstraints (scenario.continuousSystem true)
        (scenario.continuousSystemOn ℚ).CreateDefaultContext scenario.firstInput).2 = .ok true ∧
      dt.prog.generic_constraints = [] ∧
      dt.prog.linear_equality_constraints.length = 2 + 1) :=
  ⟨scenario.continuous_autodiff_built, scenario.continuous_symbolic_built⟩

/-! ### Sample-period resolution -/

theorem System.GetUniquePeriodicDiscreteUpdateAttribute_eq_some (s : System T)
    (pd : PeriodicEventData) :
    s.GetUniquePeriodicDiscreteUpdateAttribute = some pd ↔
      s.periodic_discrete_updates.dedup = [pd] := by
  unfold System.GetUniquePeriodicDiscreteUpdateAttribute
  split
  · rename_i a h
    rw [h]
    simp
  · rename_i h
    constructor
    · intro h2; simp at h2
    · intro h2; exact absurd h2 (h pd)

theorem System.GetUniquePeriodicDiscreteUpdateAttribute_eq_none (s : System T) :
    s.GetUniquePeriodicDiscreteUpdateAttribute = none ↔
      s.periodic_discrete_updates.dedup.length ≠ 1 := by
  unfold System.GetUniquePeriodicDiscreteUpdateAttribute
  split
  · rename_i a h
    rw [h]
    simp
  · rename_i h
    simp only [true_iff]
    intro hlen
    rw [List.length_eq_one] at hlen
    obtain ⟨a, ha⟩ := hlen
    exact h a ha

/-- C10: `get_period` fails with a logic error when the system has at least one
abstract state; otherwise it fails with a logic error when the system exposes no
unique periodic discrete-update attribute, which is the case exactly when its
distinct periodic updates are zero or more than one; when neither holds and the
attribute's offset is zero it returns that attribute's period; and the period it
returns is the fixed time step of every problem built by the discrete-time
constructor. -/
theorem get_period_resolution [RatCast T] [Zero T] (system : DoubleSystem T)
    (context : Context ℚ) (num_time_samples : Nat) (input_port_index : InputPortChoice) :
    (0 < system.num_abstract_states → get_period system.toSystem = .error Error.logic_error) ∧
    (system.num_abstract_states = 0 →
      system.toSystem.GetUniquePeriodicDiscreteUpdateAttribute = none →
      get_period system.toSystem = .error Error.logic_error) ∧
    (system.toSystem.GetUniquePeriodicDiscreteUpdateAttribute = none ↔
      system.periodic_discrete_updates.dedup.length ≠ 1) ∧
    (∀ periodic_data : PeriodicEventData, system.num_abstract_states = 0 →
      system.toSystem.GetUniquePeriodicDiscreteUpdateAttribute = some periodic_data →
      periodic_data.offset_sec = 0 →
      get_period system.toSystem = .ok periodic_data.period_sec) ∧
    (∀ dt : DirectTranscription T,
      DirectTranscription.DirectTranscription_discrete system context num_time_samples
        input_port_index = .ok dt →
      get_period system.toSystem = .ok dt.fixed_time_step) := by
  refine ⟨?_, ?_, System.GetUniquePeriodicDiscreteUpdateAttribute_eq_none _, ?_, ?_⟩
  · intro h
    simp [get_period, h]
  · intro h0 hnone
    simp [get_period, h0, hnone]
  · intro pd h0 hsome hoff
    simp [get_period, h0, hsome, hoff, DRAKE_DEMAND, bind, Except.bind, pure, Except.pure]
  · intro dt hdt
    obtain ⟨ni, period, base, -, hperiod, hbase, -, hadd⟩ :=
      DirectTranscription.DirectTranscription_discrete_of_ok _ _ _ _ _ hdt
    obtain ⟨hb, -, -⟩ := MultipleShooting.init_of_ok hbase
    rw [hperiod]
    rcases DirectTranscription.addDynamicConstraints_of_ok _ _ _ _ _ hadd with
      ⟨-, rhs, h⟩ | ⟨-, h⟩
    · have : dt.fixed_time_step = period := by rw [h, hb]; rfl
      rw [this]
    · have : dt.fixed_time_step = period := by rw [h, hb]; rfl
      rw [this]

/-- Witness for C10: the discrete scenario, whose one periodic update has period 1
and offset 0. -/
theorem get_period_resolution_witness :
    get_period (scenario.discreteSystem true).toSystem = .ok 1 :=
  (get_period_resolution (scenario.discreteSystem true)
    (scenario.discreteSystemOn ℚ).CreateDefaultContext 5 scenario.firstInput).2.2.2.1
    ⟨1, 0⟩ rfl rfl rfl

/-! ### Rejections of the constructors -/

/-- The shooting container accepts `N ≥ 2` with a positive step. -/
theorem MultipleShooting.init_ok_of (ni ns N : Nat) (h : ℚ) (hN : 2 ≤ N) (hh : 0 < h) :
    ∃ base, MultipleShooting.init ni ns N h = .ok base := by
  have h1 : 1 < N := hN
  simp [MultipleShooting.init, DRAKE_DEMAND, bind, Except.bind, pure, Except.pure, h1, hh]

/-- The shooting container demands a positive step. -/
theorem MultipleShooting.init_error_of_step (ni ns N : Nat) (h : ℚ) (hh : h ≤ 0) :
    MultipleShooting.init ni ns N h = .error Error.demand_failed := by
  have h2 : ¬ 0 < h := not_lt.mpr hh
  by_cases h1 : 1 < N <;>
    simp [MultipleShooting.init, DRAKE_DEMAND, bind, Except.bind, pure, Except.pure, h1, h2]

namespace DirectTranscription

/-- The two rejections of the continuous-time constructor. -/
theorem DirectTranscription_continuous_rejects [RatCast T] [Zero T] (system : DoubleSystem T)
    (context : Context ℚ) (N : Nat) (fixed_time_step : ℚ) (input_port_index : InputPortChoice) :
    (∀ num_inputs, get_input_port_size system.toSystem input_port_index = .ok num_inputs →
      2 ≤ N → 0 < fixed_time_step → context.has_only_continuous_state = false →
      (DirectTranscription_continuous system context N fixed_time_step input_port_index :
        Except Error (DirectTranscription T)) = .error Error.invalid_argument) ∧
    (∀ num_inputs, get_input_port_size system.toSystem input_port_index = .ok num_inputs →
      fixed_time_step ≤ 0 →
      (DirectTranscription_continuous system context N fixed_time_step input_port_index :
        Except Error (DirectTranscription T)) = .error Error.demand_failed) := by
  constructor
  · intro ni hni hN hh hc
    obtain ⟨base, hbase⟩ := MultipleShooting.init_ok_of ni context.num_total_states N
      fixed_time_step hN hh
    unfold DirectTranscription_continuous
    rw [hni]
    simp only [hbase, hc, Bool.not_false, if_true]
  · intro ni hni hh
    unfold DirectTranscription_continuous
    rw [hni]
    simp only [MultipleShooting.init_error_of_step _ _ _ _ hh]

end DirectTranscription

/-- Counterexample to C11 as stated: the continuous scenario (a purely continuous
context) constructed with `N = 3` and the non-positive step 0. Construction fails,
but by a failed demand, not with `InvalidArgument`. -/
theorem continuous_constructor_step_counterexample :
    (0 : ℚ) ≤ 0 ∧
      (scenario.continuousSystemOn ℚ).CreateDefaultContext.has_only_continuous_state = true ∧
      (DirectTranscription.DirectTranscription_continuous (scenario.continuousSystem true)
        (scenario.continuousSystemOn ℚ).CreateDefaultContext 3 0 scenario.firstInput :
          Except Error (DirectTranscription ℚ)) = .error Error.demand_failed ∧
      (DirectTranscription.DirectTranscription_continuous (scenario.continuousSystem true)
        (scenario.continuousSystemOn ℚ).CreateDefaultContext 3 0 scenario.firstInput :
          Except Error (DirectTranscription ℚ)) ≠ .error Error.invalid_argument := by
  have h := (DirectTranscription.DirectTranscription_continuous_rejects
    (scenario.continuousSystem true) (scenario.continuousSystemOn ℚ).CreateDefaultContext 3 0
    scenario.firstInput).2 1 rfl le_rfl
  refine ⟨le_rfl, rfl, h, ?_⟩
  rw [h]
  simp

/-- C11 (amended): for a valid input-port choice, with `N ≥ 2` and a positive step, a
context that holds anything other than purely continuous state makes the
continuous-time constructor fail with `InvalidArgument`; a non-positive step
makes it fail with a failed demand (positivity is demanded, first by the shooting
container and again in the constructor body), not with `InvalidArgument`; in both
cases no builder is returned, so no constraint is registered. -/
theorem continuous_constructor_rejections [RatCast T] [Zero T] (system : DoubleSystem T)
    (context : Context ℚ) (N : Nat) (fixed_time_step : ℚ) (input_port_index : InputPortChoice)
    (num_inputs : Nat)
    (hport : get_input_port_size system.toSystem input_port_index = .ok num_inputs) :
    (2 ≤ N → 0 < fixed_time_step → context.has_only_continuous_state = false →
      (DirectTranscription.DirectTranscription_continuous system context N fixed_time_step
        input_port_index : Except Error (DirectTranscription T)) =
          .error Error.invalid_argument) ∧
    (fixed_time_step ≤ 0 →
      (DirectTranscription.DirectTranscription_continuous system context N fixed_time_step
        input_port_index : Except Error (DirectTranscription T)) =
          .error Error.demand_failed) ∧
    (context.has_only_continuous_state = false ∨ fixed_time_step ≤ 0 →
      ∀ dt : DirectTranscription T,
        DirectTranscription.DirectTranscription_continuous system context N fixed_time_step
          input_port_index ≠ .ok dt) := by
  have hr := DirectTranscription.DirectTranscription_continuous_rejects system context N
    fixed_time_step input_port_index
  refine ⟨hr.1 num_inputs hport, hr.2 num_inputs hport, ?_⟩
  intro hbad dt hdt
  obtain ⟨ni, base, -, hbase, hcont, -⟩ :=
    DirectTranscription.DirectTranscription_continuous_of_ok _ _ _ _ _ _ hdt
  obtain ⟨-, -, hpos⟩ := MultipleShooting.init_of_ok hbase
  rcases hbad with hc | hs
  · rw [hc] at hcont
    exact Bool.false_ne_true hcont
  · exact absurd hpos (not_lt.mpr hs)

/-- Witness for C11: the continuous-time constructor on the discrete scenario, whose
context holds discrete state. -/
theorem continuous_constructor_rejections_witness :
    (DirectTranscription.DirectTranscription_continuous (scenario.discreteSystem true)
        (scenario.discreteSystemOn ℚ).CreateDefaultContext 3 (1 / 10) scenario.firstInput :
          Except Error (DirectTranscription ℚ)) = .error Error.invalid_argument :=
  (continuous_constructor_rejections (scenario.discreteSystem true)
    (scenario.discreteSystemOn ℚ).CreateDefaultContext 3 (1 / 10) scenario.firstInput 1 rfl).1
    (by decide) (by norm_num) rfl

/-! ### The constructor for linear time-varying systems -/

theorem DirectTranscription.epsilon_pos : 0 < DirectTranscription.epsilon := by
  unfold DirectTranscription.epsilon
  positivity

namespace DirectTranscription

/-- What the constructor for a linear time-varying system leaves in the builder. -/
theorem DirectTranscription_linear_fields (system : TimeVaryingLinearSystem T)
    (context : Context ℚ) (N : Nat) (input_port_index : InputPortChoice)
    (dt : DirectTranscription T)
    (h : DirectTranscription_linear system context N input_port_index = .ok dt) :
    ∃ num_inputs,
      get_input_port_size system.toSystem input_port_index = .ok num_inputs ∧
      2 ≤ N ∧ context.has_only_discrete_state = true ∧
      (ofBase
        { num_inputs := num_inputs, num_states := context.num_total_states, N := N,
          fixed_time_step := max system.time_period epsilon,
          prog :=
            { decision_variables :=
                (List.range (context.num_total_states * N)).map Variable.x ++
                  (List.range (num_inputs * N)).map Variable.u
              linear_equality_constraints := []
              generic_constraints := []
              costs := [] } } true : DirectTranscription T).ValidateSystem system.toSystem
        context input_port_index = .ok () ∧
      dt.num_inputs = num_inputs ∧ dt.num_states = context.num_total_states ∧ dt.N = N ∧
      dt.fixed_time_step = max system.time_period epsilon ∧
      dt.discrete_time_system_ = true ∧ dt.heap = [] ∧ dt.system_ = none ∧
      dt.integrator_ = none ∧
      dt.prog.generic_constraints = [] ∧ dt.prog.costs = [] ∧
      dt.prog.linear_equality_constraints =
        ((List.range (N - 1)).map fun i =>
          (⟨castVars (dt.state (i + 1)),
            List.zipWith (fun a b => a + b)
              (matVec (system.A (binary64.mul system.time_period (i : ℚ))) (castVars (dt.state i)))
              (matVec (system.B (binary64.mul system.time_period (i : ℚ)))
                (castVars (dt.input i)))⟩ : LinearEqualityConstraint)) ++
          dt.finalInputEquality := by
  unfold DirectTranscription_linear at h
  split at h
  · simp at h
  · rename_i ni hni
    split at h
    · simp at h
    · rename_i base hbase
      simp only at h
      split at h
      · simp at h
      · rename_i hdisc
        split at h
        · simp at h
        · rename_i hval
          split at h
          · simp at h
          · rename_i self hloop
            obtain ⟨hb, hN, -⟩ := MultipleShooting.init_of_ok hbase
            subst hb
            have hself := linearLoop_of_ok _ _ _ _ _ hloop
            subst hself
            rw [ConstrainEqualInputAtFinalTwoTimesteps_eq] at h
            simp only [Except.ok.injEq] at h
            subst h
            refine ⟨ni, hni, hN, by simpa using hdisc, hval, ?_⟩
            by_cases hpos : 0 < ni <;>
              simp [withProg, ofBase, hpos, MultipleShooting.finalInputEquality,
                MultipleShooting.state, MultipleShooting.input, List.range_eq_range']

end DirectTranscription
theorem Expression.degree_add (vars : List Variable) (a b : Expression) (m n : Nat)
    (ha : a.degree vars = some m) (hb : b.degree vars = some n) :
    (a + b).degree vars = some (max m n) := by
  show (Expression.plus a b).degree vars = _
  cases a <;> cases b <;> simp_all [Expression.plus, Expression.degree]

theorem Expression.degree_mul (vars : List Variable) (a b : Expression) (m n : Nat)
    (ha : a.degree vars = some m) (hb : b.degree vars = some n) :
    (a * b).degree vars = some (m + n) := by
  show (Expression.times a b).degree vars = _
  cases a <;> cases b <;> simp_all [Expression.times, Expression.degree]

theorem IsAffine_iff (m : List Expression) (vars : List Variable) :
    IsAffine m vars = true ↔ ∀ e ∈ m, ∃ d, e.degree vars = some d ∧ d ≤ 1 := by
  unfold IsAffine
  rw [List.all_eq_true]
  constructor
  · intro h e he
    have := h e he
    cases hd : e.degree vars with
    | none => rw [hd] at this; simp at this
    | some d => rw [hd] at this; exact ⟨d, rfl, by simpa using this⟩
  · intro h e he
    obtain ⟨d, hd, hle⟩ := h e he
    rw [hd]
    simpa using hle

theorem Expression.affine_add (vars : List Variable) (a b : Expression)
    (ha : ∃ d, a.degree vars = some d ∧ d ≤ 1) (hb : ∃ d, b.degree vars = some d ∧ d ≤ 1) :
    ∃ d, (a + b).degree vars = some d ∧ d ≤ 1 := by
  obtain ⟨m, hm, hm1⟩ := ha
  obtain ⟨n, hn, hn1⟩ := hb
  exact ⟨max m n, Expression.degree_add vars a b m n hm hn, max_le hm1 hn1⟩

theorem Expression.affine_const_mul_var (vars : List Variable) (a : ℚ) (v : Variable) :
    ∃ d, (Expression.const a * Expression.var v).degree vars = some d ∧ d ≤ 1 := by
  refine ⟨0 + (if v ∈ vars then 1 else 0),
    Expression.degree_mul vars _ _ 0 _ rfl rfl, ?_⟩
  by_cases hv : v ∈ vars <;> simp [hv]

theorem Expression.affine_foldl (vars : List Variable) (l : List Expression) :
    ∀ acc : Expression, (∃ d, acc.degree vars = some d ∧ d ≤ 1) →
      (∀ e ∈ l, ∃ d, e.degree vars = some d ∧ d ≤ 1) →
      ∃ d, (l.foldl (fun acc e => acc + e) acc).degree vars = some d ∧ d ≤ 1 := by
  induction l with
  | nil => intro acc hacc _; simpa using hacc
  | cons e l ih =>
    intro acc hacc hl
    simp only [List.foldl_cons]
    exact ih _ (Expression.affine_add vars acc e hacc (hl e (List.mem_cons_self _ _)))
      (fun e2 he2 => hl e2 (List.mem_cons_of_mem _ he2))

theorem DirectTranscription.IsAffine_matVec (m : List (List ℚ)) (vs vars : List Variable) :
    ∀ e ∈ DirectTranscription.matVec m (castVars vs), ∃ d, e.degree vars = some d ∧ d ≤ 1 := by
  intro e he
  simp only [DirectTranscription.matVec, List.mem_map] at he
  obtain ⟨row, -, rfl⟩ := he
  apply Expression.affine_foldl
  · exact ⟨0, rfl, by decide⟩
  · intro e he
    rw [List.mem_iff_getElem] at he
    obtain ⟨n, hn, rfl⟩ := he
    simp only [castVars, List.getElem_zipWith, List.getElem_map]
    exact Expression.affine_const_mul_var vars _ _

theorem mem_zipWith_elim {α β γ : Type} (f : α → β → γ) (l1 : List α) (l2 : List β) (c : γ)
    (h : c ∈ List.zipWith f l1 l2) : ∃ a ∈ l1, ∃ b ∈ l2, c = f a b := by
  rw [List.mem_iff_getElem] at h
  obtain ⟨n, hn, rfl⟩ := h
  simp only [List.length_zipWith, lt_min_iff] at hn
  exact ⟨l1[n], List.getElem_mem _, l2[n], List.getElem_mem _, by simp⟩

namespace DirectTranscription

theorem linearLoop_ok (system : TimeVaryingLinearSystem T) :
    ∀ (k i : Nat) (self : DirectTranscription T),
      linearLoop system k i self = .ok (self.withProg
        { self.prog with
          linear_equality_constraints := self.prog.linear_equality_constraints ++
            (List.range' i k).map fun j =>
              ⟨castVars (self.state (j + 1)),
                List.zipWith (fun a b => a + b)
                  (matVec (system.A (binary64.mul system.time_period (j : ℚ))) (castVars (self.state j)))
                  (matVec (system.B (binary64.mul system.time_period (j : ℚ)))
                    (castVars (self.input j)))⟩ }) := by
  intro k
  induction k with
  | zero => intro i self; simp [linearLoop, withProg]
  | succ k ih =>
    intro i self
    have haff : IsAffine (List.zipWith (fun a b => a + b)
        (matVec (system.A (binary64.mul system.time_period (i : ℚ))) (castVars (self.state i)))
        (matVec (system.B (binary64.mul system.time_period (i : ℚ))) (castVars (self.input i))))
        self.prog.decision_variables = true := by
      rw [IsAffine_iff]
      intro e he
      obtain ⟨a, ha, b, hb, rfl⟩ := mem_zipWith_elim _ _ _ _ he
      exact Expression.affine_add _ a b (IsAffine_matVec _ _ _ a ha) (IsAffine_matVec _ _ _ b hb)
    rw [linearLoop]
    simp only [MathematicalProgram.AddLinearEqualityConstraint, IsAffine_castVars, haff,
      Bool.and_self, if_true]
    rw [ih]
    simp only [withProg, List.range'_succ, List.map_cons, List.append_assoc,
      List.singleton_append]
    rfl

end DirectTranscription

namespace DirectTranscription

/-- The demands of `ValidateSystem` suffice. -/
theorem ValidateSystem_ok (self : DirectTranscription T) (system : System ℚ)
    (context : Context ℚ) (input_port_index : InputPortChoice) (xd : List ℚ)
    (hdiff : system.IsDifferenceEquationSystem = true)
    (hxd : context.get_discrete_state 0 = .ok xd) (hlen : self.num_states = xd.length)
    (hport : get_input_port_size system input_port_index = .ok self.num_inputs) :
    self.ValidateSystem system context input_port_index = .ok () := by
  unfold ValidateSystem
  simp only [DRAKE_DEMAND, hdiff, if_true, bind, Except.bind, hxd, hlen, beq_self_eq_true, hport]
  split <;> rfl

/-- The demands of `ValidateSystem` hold once it returns. -/
theorem ValidateSystem_of_ok (self : DirectTranscription T) (system : System ℚ)
    (context : Context ℚ) (input_port_index : InputPortChoice)
    (h : self.ValidateSystem system context input_port_index = .ok ()) :
    system.IsDifferenceEquationSystem = true ∧
      (∃ xd, context.get_discrete_state 0 = .ok xd ∧ self.num_states = xd.length) ∧
      (0 < context.num_input_ports →
        get_input_port_size system input_port_index = .ok self.num_inputs) := by
  unfold ValidateSystem at h
  simp only [DRAKE_DEMAND, bind, Except.bind] at h
  cases hdiff : system.IsDifferenceEquationSystem with
  | false => rw [hdiff] at h; simp at h
  | true =>
    rw [hdiff] at h
    simp only [if_true] at h
    cases hxd : context.get_discrete_state 0 with
    | error e => rw [hxd] at h; simp at h
    | ok xd =>
      rw [hxd] at h
      simp only at h
      by_cases hlen : self.num_states = xd.length
      · refine ⟨rfl, ⟨xd, rfl, hlen⟩, ?_⟩
        intro hports
        simp only [hlen, beq_self_eq_true, if_true, hports] at h
        cases hsize : get_input_port_size system input_port_index with
        | error e => rw [hsize] at h; simp at h
        | ok size =>
          rw [hsize] at h
          simp only at h
          by_cases heq : self.num_inputs = size
          · rw [heq]
          · have : (self.num_inputs == size) = false := by simpa using heq
            rw [this] at h
            simp at h
      · have : (self.num_states == xd.length) = false := by simpa using hlen
        rw [this] at h
        simp at h

end DirectTranscription

theorem System.get_input_port_selection_congr {U V : Type} (s1 : System U) (s2 : System V)
    (h : s1.input_ports = s2.input_ports) (choice : InputPortChoice) :
    s1.get_input_port_selection choice = s2.get_input_port_selection choice := by
  cases choice with
  | selection sel => cases sel <;> simp [System.get_input_port_selection, h]
  | index i => simp [System.get_input_port_selection, h]

namespace DirectTranscription

theorem linearLoop_congr (s1 s2 : TimeVaryingLinearSystem T) (hA : s1.A = s2.A)
    (hB : s1.B = s2.B) (hp : s1.time_period = s2.time_period) :
    ∀ (k i : Nat) (self : DirectTranscription T),
      linearLoop s1 k i self = linearLoop s2 k i self := by
  intro k
  induction k with
  | zero => intro i self; rfl
  | succ k ih =>
    intro i self
    rw [linearLoop, linearLoop]
    simp only [hA, hB, hp, ih]

theorem DirectTranscription_linear_congr (s1 s2 : TimeVaryingLinearSystem T)
    (hA : s1.A = s2.A) (hB : s1.B = s2.B) (hp : s1.time_period = s2.time_period)
    (hports : s1.input_ports = s2.input_ports)
    (hdiff : s1.IsDifferenceEquationSystem = s2.IsDifferenceEquationSystem)
    (context : Context ℚ) (N : Nat) (input_port_index : InputPortChoice) :
    DirectTranscription_linear s1 context N input_port_index =
      DirectTranscription_linear s2 context N input_port_index := by
  have hsize : get_input_port_size s1.toSystem input_port_index =
      get_input_port_size s2.toSystem input_port_index := by
    unfold get_input_port_size
    rw [System.get_input_port_selection_congr s1.toSystem s2.toSystem hports]
  have hval : ∀ self : DirectTranscription T,
      self.ValidateSystem s1.toSystem context input_port_index =
        self.ValidateSystem s2.toSystem context input_port_index := by
    intro self
    unfold ValidateSystem
    rw [hsize, hdiff]
  unfold DirectTranscription_linear
  simp only [hsize, hp, hval, linearLoop_congr s1 s2 hA hB hp]

theorem DirectTranscription_linear_ok (system : TimeVaryingLinearSystem T)
    (context : Context ℚ) (N : Nat) (input_port_index : InputPortChoice) (num_inputs : Nat)
    (xd : List ℚ)
    (hport : get_input_port_size system.toSystem input_port_index = .ok num_inputs)
    (hN : 2 ≤ N) (hdisc : context.has_only_discrete_state = true)
    (hdiff : system.IsDifferenceEquationSystem = true)
    (hxd : context.get_discrete_state 0 = .ok xd)
    (hlen : context.num_total_states = xd.length) :
    ∃ dt, DirectTranscription_linear system context N input_port_index = .ok dt := by
  obtain ⟨base, hbase⟩ := MultipleShooting.init_ok_of num_inputs context.num_total_states N
    (max system.time_period epsilon) hN (lt_max_of_lt_right epsilon_pos)
  obtain ⟨hb, -, -⟩ := MultipleShooting.init_of_ok hbase
  have hval : (ofBase base true : DirectTranscription T).ValidateSystem system.toSystem context
      input_port_index = .ok () := by
    apply ValidateSystem_ok _ _ _ _ xd hdiff hxd
    · rw [hb]; exact hlen
    · rw [hb]; exact hport
  unfold DirectTranscription_linear
  rw [hport]
  simp only [hbase, hdisc, Bool.not_true, Bool.false_eq_true, if_false, hval, linearLoop_ok,
    ConstrainEqualInputAtFinalTwoTimesteps_eq]
  exact ⟨_, rfl⟩

end DirectTranscription

theorem MultipleShooting.init_error_of_samples (ni ns N : Nat) (h : ℚ) (hN : N < 2) :
    MultipleShooting.init ni ns N h = .error .demand_failed := by
  have : ¬ 1 < N := by omega
  simp [MultipleShooting.init, DRAKE_DEMAND, this, bind, Except.bind]

/-- Counterexample to C12 as stated: the linear scenario on a context that holds
continuous state, with a single time sample. The shooting container, constructed
before the body of the constructor runs, demands at least two samples:
construction ends in that failed demand, not in `InvalidArgument`. -/
theorem linear_constructor_sample_count_counterexample :
    (scenario.continuousSystemOn ℚ).CreateDefaultContext.has_only_discrete_state = false ∧
      (DirectTranscription.DirectTranscription_linear (scenario.linearSystem 0)
        (scenario.continuousSystemOn ℚ).CreateDefaultContext 1 scenario.firstInput :
          Except Error (DirectTranscription ℚ)) = .error Error.demand_failed ∧
      (DirectTranscription.DirectTranscription_linear (scenario.linearSystem 0)
        (scenario.continuousSystemOn ℚ).CreateDefaultContext 1 scenario.firstInput :
          Except Error (DirectTranscription ℚ)) ≠ .error Error.invalid_argument := by
  have hsize : get_input_port_size (scenario.linearSystem 0).toSystem scenario.firstInput =
      .ok 1 := rfl
  have h : (DirectTranscription.DirectTranscription_linear (scenario.linearSystem 0)
      (scenario.continuousSystemOn ℚ).CreateDefaultContext 1 scenario.firstInput :
        Except Error (DirectTranscription ℚ)) = .error Error.demand_failed := by
    unfold DirectTranscription.DirectTranscription_linear
    rw [hsize]
    simp only [MultipleShooting.init_error_of_samples _ _ 1 _ (by decide)]
  refine ⟨rfl, h, ?_⟩
  rw [h]
  intro h2
  cases h2

/-- C12 (amended): for a valid input-port choice, the sample period the constructor
for linear time-varying systems hands to the shooting container is
`max(system.time_period(), epsilon)`: strictly positive for every reported
period, `epsilon` for a reported zero, the reported period whenever that is at
least `epsilon`, and the fixed time step of every builder returned. For every
`N ≥ 2`, construction fails with `InvalidArgument` whenever the context does not
hold purely discrete state; for `N < 2` the demand of the shooting container on
the number of samples fails first and construction ends in that failed demand,
whatever the context; no builder is returned in either case. -/
theorem linear_constructor_sample_period (system : TimeVaryingLinearSystem T)
    (context : Context ℚ) (N : Nat) (input_port_index : InputPortChoice) (num_inputs : Nat)
    (hport : get_input_port_size system.toSystem input_port_index = .ok num_inputs) :
    0 < max system.time_period DirectTranscription.epsilon ∧
    (system.time_period = 0 →
      max system.time_period DirectTranscription.epsilon = DirectTranscription.epsilon) ∧
    (DirectTranscription.epsilon ≤ system.time_period →
      max system.time_period DirectTranscription.epsilon = system.time_period) ∧
    (∀ e, MultipleShooting.init num_inputs context.num_total_states N
        (max system.time_period DirectTranscription.epsilon) = .error e →
      DirectTranscription.DirectTranscription_linear system context N input_port_index =
        .error e) ∧
    (∀ dt : DirectTranscription T,
      DirectTranscription.DirectTranscription_linear system context N input_port_index =
        .ok dt →
      dt.fixed_time_step = max system.time_period DirectTranscription.epsilon) ∧
    (2 ≤ N → context.has_only_discrete_state = false →
      DirectTranscription.DirectTranscription_linear system context N input_port_index =
        .error Error.invalid_argument) ∧
    (N < 2 →
      DirectTranscription.DirectTranscription_linear system context N input_port_index =
        .error Error.demand_failed) ∧
    (context.has_only_discrete_state = false ∨ N < 2 →
      ∀ dt : DirectTranscription T,
        DirectTranscription.DirectTranscription_linear system context N input_port_index ≠
          .ok dt) := by
  have hsmall : N < 2 →
      DirectTranscription.DirectTranscription_linear system context N input_port_index =
        .error Error.demand_failed := by
    intro hN
    unfold DirectTranscription.DirectTranscription_linear
    rw [hport]
    simp only [MultipleShooting.init_error_of_samples _ _ N _ hN]
  refine ⟨lt_max_of_lt_right DirectTranscription.epsilon_pos, ?_, ?_, ?_, ?_, ?_, hsmall, ?_⟩
  · intro h0
    rw [h0]
    exact max_eq_right DirectTranscription.epsilon_pos.le
  · intro hle
    exact max_eq_left hle
  · intro e he
    unfold DirectTranscription.DirectTranscription_linear
    rw [hport]
    simp only [he]
  · intro dt hdt
    obtain ⟨ni, -, -, -, -, -, -, -, hstep, -⟩ :=
      DirectTranscription.DirectTranscription_linear_fields _ _ _ _ _ hdt
    exact hstep
  · intro hN hc
    obtain ⟨base, hbase⟩ := MultipleShooting.init_ok_of num_inputs context.num_total_states N
      (max system.time_period DirectTranscription.epsilon) hN
      (lt_max_of_lt_right DirectTranscription.epsilon_pos)
    unfold DirectTranscription.DirectTranscription_linear
    rw [hport]
    simp only [hbase, hc, Bool.not_false, if_true]
  · intro hbad dt hdt
    rcases hbad with hc | hN
    · obtain ⟨ni, -, -, hdisc, -⟩ :=
        DirectTranscription.DirectTranscription_linear_fields _ _ _ _ _ hdt
      rw [hc] at hdisc
      exact Bool.false_ne_true hdisc
    · rw [hsmall hN] at hdt
      exact Except.noConfusion hdt

/-- Witness for C12: the linear scenario reporting period 0, on a context that holds
continuous state, with 5 samples. -/
theorem linear_constructor_sample_period_witness :
    max (scenario.linearSystem 0).time_period DirectTranscription.epsilon =
        DirectTranscription.epsilon ∧
      DirectTranscription.DirectTranscription_linear (scenario.linearSystem 0)
        (scenario.continuousSystemOn ℚ).CreateDefaultContext 5 scenario.firstInput =
          .error Error.invalid_argument :=
  ⟨(linear_constructor_sample_period (scenario.linearSystem 0)
      (scenario.continuousSystemOn ℚ).CreateDefaultContext 5 scenario.firstInput 1 rfl).2.1 rfl,
    (linear_constructor_sample_period (scenario.linearSystem 0)
      (scenario.continuousSystemOn ℚ).CreateDefaultContext 5 scenario.firstInput 1
      rfl).2.2.2.2.2.1 (by decide) rfl⟩

theorem Expression.Evaluate_foldl_add (env : Variable → ℚ) (l : List Expression) :
    ∀ acc : Expression,
      (l.foldl (fun acc e => acc + e) acc).Evaluate env =
        acc.Evaluate env + (l.map (Expression.Evaluate env)).sum := by
  induction l with
  | nil => intro acc; simp
  | cons e l ih =>
    intro acc
    rw [List.foldl_cons, ih, Expression.Evaluate_add, List.map_cons, List.sum_cons, add_assoc]

theorem Expression.Evaluate_zipWith_const_mul (env : Variable → ℚ) (row : List ℚ) :
    ∀ vs : List Variable,
      (List.zipWith (fun a e => Expression.const a * e) row (castVars vs)).map
          (Expression.Evaluate env) =
        List.zipWith (fun a x => a * x) row (vs.map env) := by
  induction row with
  | nil => intro vs; simp
  | cons a row ih =>
    intro vs
    cases vs with
    | nil => simp [castVars]
    | cons v vs =>
      have := ih vs
      simp only [castVars] at this
      simp only [castVars, List.map_cons, List.zipWith_cons_cons, this,
        Expression.Evaluate_mul]
      rfl

/-- The value of the symbolic matrix-vector product is the matrix-vector product of
the values. -/
theorem DirectTranscription.EvaluateVec_matVec (env : Variable → ℚ) (m : List (List ℚ))
    (vs : List Variable) :
    EvaluateVec env (DirectTranscription.matVec m (castVars vs)) =
      DirectTranscription.matVecValue m (vs.map env) := by
  simp only [EvaluateVec, DirectTranscription.matVec, DirectTranscription.matVecValue,
    List.map_map]
  apply List.map_congr_left
  intro row _
  simp only [Function.comp_apply]
  rw [Expression.Evaluate_foldl_add, Expression.Evaluate_zipWith_const_mul]
  have h0 : (0 : Expression).Evaluate env = 0 := rfl
  rw [h0, zero_add]

/-- C13: for every `N ≥ 2`, on a valid input-port choice and a system and purely
discrete context that pass validation, the constructor for linear time-varying
systems returns a builder whose linear equalities are exactly the `N - 1`
dynamics constraints `state(i+1) == A(t_i) * state(i) + B(t_i) * input(i)`,
`i = 0..N-2` in order, with `t_i = system.time_period() * i` (the double product
with the reported period, not the clamped sample period), followed by the
boundary equality: at every values of the decision variables the two sides of
the `i`-th equality are the values of `state(i+1)` and the matrix-vector sum
`A(t_i) x + B(t_i) u` at the values `x`, `u` of `state(i)`, `input(i)`. The
builder holds no autodiff constraint, no integrator and no converted system;
and the outcome is the same for every system with the same `A`, `B`, period,
ports and difference-equation flag, so neither the dynamics evaluations nor the
scalar conversions are consulted. -/
theorem linear_constructor_dynamics (system : TimeVaryingLinearSystem T)
    (context : Context ℚ) (N : Nat) (input_port_index : InputPortChoice) (num_inputs : Nat)
    (xd : List ℚ)
    (hport : get_input_port_size system.toSystem input_port_index = .ok num_inputs)
    (hN : 2 ≤ N) (hdisc : context.has_only_discrete_state = true)
    (hdiff : system.IsDifferenceEquationSystem = true)
    (hxd : context.get_discrete_state 0 = .ok xd)
    (hlen : context.num_total_states = xd.length) :
    (∃ dt : DirectTranscription T,
      DirectTranscription.DirectTranscription_linear system context N input_port_index =
        .ok dt ∧
      dt.N = N ∧
      dt.prog.linear_equality_constraints =
        ((List.range (N - 1)).map fun i =>
          (⟨castVars (dt.state (i + 1)),
            List.zipWith (fun a b => a + b)
              (DirectTranscription.matVec (system.A (binary64.mul system.time_period (i : ℚ)))
                (castVars (dt.state i)))
              (DirectTranscription.matVec (system.B (binary64.mul system.time_period (i : ℚ)))
                (castVars (dt.input i)))⟩ : LinearEqualityConstraint)) ++
          dt.finalInputEquality ∧
      ((List.range (N - 1)).map fun i =>
          (⟨castVars (dt.state (i + 1)),
            List.zipWith (fun a b => a + b)
              (DirectTranscription.matVec (system.A (binary64.mul system.time_period (i : ℚ)))
                (castVars (dt.state i)))
              (DirectTranscription.matVec (system.B (binary64.mul system.time_period (i : ℚ)))
                (castVars (dt.input i)))⟩ : LinearEqualityConstraint)).length = N - 1 ∧
      (∀ (env : Variable → ℚ) (i : Nat), i < N - 1 →
        ∃ c : LinearEqualityConstraint,
          dt.prog.linear_equality_constraints[i]? = some c ∧
          EvaluateVec env c.lhs = (dt.state (i + 1)).map env ∧
          EvaluateVec env c.rhs =
            List.zipWith (fun a b => a + b)
              (DirectTranscription.matVecValue
                (system.A (binary64.mul system.time_period (i : ℚ))) ((dt.state i).map env))
              (DirectTranscription.matVecValue
                (system.B (binary64.mul system.time_period (i : ℚ))) ((dt.input i).map env)) ∧
          (c.Holds env ↔
            (dt.state (i + 1)).map env =
              List.zipWith (fun a b => a + b)
                (DirectTranscription.matVecValue
                  (system.A (binary64.mul system.time_period (i : ℚ)))
                  ((dt.state i).map env))
                (DirectTranscription.matVecValue
                  (system.B (binary64.mul system.time_period (i : ℚ)))
                  ((dt.input i).map env)))) ∧
      dt.prog.generic_constraints = [] ∧ dt.heap = [] ∧ dt.system_ = none ∧
      dt.integrator_ = none) ∧
    (∀ other : TimeVaryingLinearSystem T,
      other.A = system.A → other.B = system.B → other.time_period = system.time_period →
      other.input_ports = system.input_ports →
      other.IsDifferenceEquationSystem = system.IsDifferenceEquationSystem →
      DirectTranscription.DirectTranscription_linear other context N input_port_index =
        DirectTranscription.DirectTranscription_linear system context N input_port_index) := by
  constructor
  · obtain ⟨dt, hdt⟩ := DirectTranscription.DirectTranscription_linear_ok system context N
      input_port_index num_inputs xd hport hN hdisc hdiff hxd hlen
    obtain ⟨ni, -, -, -, -, -, -, hdtN, -, -, hheap, hsys, hint, hgen, -, hlin⟩ :=
      DirectTranscription.DirectTranscription_linear_fields _ _ _ _ _ hdt
    refine ⟨dt, hdt, hdtN, hlin, by simp, ?_, hgen, hheap, hsys, hint⟩
    intro env i hi
    have hrhs : EvaluateVec env
        (List.zipWith (fun a b => a + b)
          (DirectTranscription.matVec (system.A (binary64.mul system.time_period (i : ℚ)))
            (castVars (dt.state i)))
          (DirectTranscription.matVec (system.B (binary64.mul system.time_period (i : ℚ)))
            (castVars (dt.input i)))) =
        List.zipWith (fun a b => a + b)
          (DirectTranscription.matVecValue
            (system.A (binary64.mul system.time_period (i : ℚ))) ((dt.state i).map env))
          (DirectTranscription.matVecValue
            (system.B (binary64.mul system.time_period (i : ℚ))) ((dt.input i).map env)) := by
      rw [← DirectTranscription.EvaluateVec_matVec, ← DirectTranscription.EvaluateVec_matVec]
      simp only [EvaluateVec, List.map_zipWith, List.zipWith_map, Expression.Evaluate_add]
    refine ⟨⟨castVars (dt.state (i + 1)),
        List.zipWith (fun a b => a + b)
          (DirectTranscription.matVec (system.A (binary64.mul system.time_period (i : ℚ)))
            (castVars (dt.state i)))
          (DirectTranscription.matVec (system.B (binary64.mul system.time_period (i : ℚ)))
            (castVars (dt.input i)))⟩, ?_, EvaluateVec_castVars env _, hrhs, ?_⟩
    · rw [hlin, List.getElem?_append_left (by simpa using hi), List.getElem?_map,
        List.getElem?_range hi]
      rfl
    · unfold LinearEqualityConstraint.Holds
      simp only [hrhs, EvaluateVec_castVars]
  · intro other hA hB hp hports hd
    exact DirectTranscription.DirectTranscription_linear_congr other system hA hB hp hports hd
      context N input_port_index

/-- Witness for C13: the linear scenario (`A = [0.5]`, `B = [1]`) with `N = 5`: at the
trajectory `x[k] = (1/2)^k`, `u[k] = 0` the right-hand side of the first equality
is `0.5 * 1 + 1 * 0`, and the equality holds. -/
theorem linear_constructor_dynamics_witness :
    ∃ (dt : DirectTranscription ℚ) (c : LinearEqualityConstraint),
      DirectTranscription.DirectTranscription_linear (scenario.linearSystem 0)
        (scenario.discreteSystemOn ℚ).CreateDefaultContext 5 scenario.firstInput = .ok dt ∧
      dt.prog.generic_constraints = [] ∧
      dt.prog.linear_equality_constraints.length = 5 ∧
      dt.prog.linear_equality_constraints[0]? = some c ∧
      EvaluateVec scenario.halving c.rhs = [1 / 2] ∧
      c.Holds scenario.halving := by
  obtain ⟨⟨dt, hdt, -, hlin, -, hval, hgen, -⟩, -⟩ :=
    linear_constructor_dynamics (scenario.linearSystem 0)
      (scenario.discreteSystemOn ℚ).CreateDefaultContext 5 scenario.firstInput 1 [0] rfl
      (by decide) rfl rfl rfl rfl
  obtain ⟨ni, hni, -, -, -, hnin, hns, -⟩ :=
    DirectTranscription.DirectTranscription_linear_fields _ _ _ _ _ hdt
  have hni1 : ni = 1 := by
    have h1 : get_input_port_size (scenario.linearSystem 0).toSystem scenario.firstInput =
        .ok 1 := rfl
    rw [h1] at hni
    simpa using hni.symm
  subst hni1
  have hns1 : dt.num_states = 1 := hns
  obtain ⟨c, hc, hlhs, hrhs, hiff⟩ := hval scenario.halving 0 (by decide)
  have hvalue : List.zipWith (fun a b => a + b)
      (DirectTranscription.matVecValue
        ((scenario.linearSystem 0).A
          (binary64.mul (scenario.linearSystem 0).time_period ((0 : Nat) : ℚ)))
        ((dt.state 0).map scenario.halving))
      (DirectTranscription.matVecValue
        ((scenario.linearSystem 0).B
          (binary64.mul (scenario.linearSystem 0).time_period ((0 : Nat) : ℚ)))
        ((dt.input 0).map scenario.halving)) = [1 / 2] := by
    simp [DirectTranscription.matVecValue, scenario.linearSystem, MultipleShooting.state,
      MultipleShooting.input, hns1, hnin, scenario.halving, List.range_succ]
  refine ⟨dt, c, hdt, hgen, ?_, hc, by rw [hrhs, hvalue], ?_⟩
  · rw [hlin]
    simp [MultipleShooting.finalInputEquality, hnin]
  · rw [hiff, hvalue]
    simp [MultipleShooting.state, hns1, scenario.halving, List.range_succ]

/-! ### Running cost -/

theorem Expression.Evaluate_Substitute (env : Variable → ℚ) (s : Variable → Expression)
    (e : Expression) :
    (e.Substitute s).Evaluate env = e.Evaluate fun v => (s v).Evaluate env := by
  induction e with
  | var v => rfl
  | const c => rfl
  | add a b iha ihb =>
    simp only [Expression.Substitute, Expression.Evaluate_add, iha, ihb, Expression.Evaluate]
  | mul a b iha ihb =>
    simp only [Expression.Substitute, Expression.Evaluate_mul, iha, ihb, Expression.Evaluate]
  | abs a iha => simp only [Expression.Substitute, Expression.Evaluate, iha]

namespace DirectTranscription

theorem runningCostLoop_eq (g : Expression) :
    ∀ (k i : Nat) (self : DirectTranscription T),
      runningCostLoop g k i self = self.withProg
        { self.prog with
          costs := self.prog.costs ++
            (List.range' i k).map fun j =>
              self.SubstitutePlaceholderVariables
                (g * ((self.fixed_time_step : ℚ) : Expression)) j } := by
  intro k
  induction k with
  | zero => intro i self; simp [runningCostLoop, withProg]
  | succ k ih =>
    intro i self
    rw [runningCostLoop, ih]
    simp only [withProg, MathematicalProgram.AddCost, List.range'_succ, List.map_cons,
      List.append_assoc, List.singleton_append]
    rfl

end DirectTranscription

/-- C14: for every cost expression `g` and every `N` (so for `N ≥ 2`),
`DoAddRunningCost(g)` adds exactly `N - 1` cost terms, one per interval
`i = 0..N-2` in order, the `i`-th being `g * fixed_time_step` with the placeholder
state and input variables replaced by `state(i)` and `input(i)`; its value is
`fixed_time_step * g(state(i), input(i))`, so the added terms sum to
`fixed_time_step * Σ_{i=0}^{N-2} g(state(i), input(i))`: sample `N - 1` contributes
no term. Nothing else in the builder changes. -/
theorem DoAddRunningCost_adds_scaled_interval_costs (self : DirectTranscription T)
    (g : Expression) :
    self.DoAddRunningCost g = self.withProg
        { self.prog with
          costs := self.prog.costs ++
            (List.range (self.N - 1)).map fun i =>
              self.SubstitutePlaceholderVariables
                (g * ((self.fixed_time_step : ℚ) : Expression)) i } ∧
      ((List.range (self.N - 1)).map fun i =>
          self.SubstitutePlaceholderVariables
            (g * ((self.fixed_time_step : ℚ) : Expression)) i).length = self.N - 1 ∧
      (∀ (env : Variable → ℚ) (i : Nat),
        (self.SubstitutePlaceholderVariables
            (g * ((self.fixed_time_step : ℚ) : Expression)) i).Evaluate env =
          self.fixed_time_step * g.Evaluate (self.intervalAssignment env i)) ∧
      (∀ (env : Variable → ℚ) (i j : Nat),
        (j < self.num_states →
          self.intervalAssignment env i (Variable.placeholder_x j) =
            env (Variable.x (i * self.num_states + j))) ∧
        (j < self.num_inputs →
          self.intervalAssignment env i (Variable.placeholder_u j) =
            env (Variable.u (i * self.num_inputs + j)))) ∧
      (∀ env : Variable → ℚ,
        (((List.range (self.N - 1)).map fun i =>
            self.SubstitutePlaceholderVariables
              (g * ((self.fixed_time_step : ℚ) : Expression)) i).map
            (Expression.Evaluate env)).sum =
          self.fixed_time_step *
            ((List.range (self.N - 1)).map fun i =>
              g.Evaluate (self.intervalAssignment env i)).sum) := by
  have hterm : ∀ (env : Variable → ℚ) (i : Nat),
      (self.SubstitutePlaceholderVariables
          (g * ((self.fixed_time_step : ℚ) : Expression)) i).Evaluate env =
        self.fixed_time_step * g.Evaluate (self.intervalAssignment env i) := by
    intro env i
    have hmul : (g * ((self.fixed_time_step : ℚ) : Expression)).Evaluate
        (self.intervalAssignment env i) =
        g.Evaluate (self.intervalAssignment env i) * self.fixed_time_step := by
      rw [Expression.Evaluate_mul]
      rfl
    unfold MultipleShooting.SubstitutePlaceholderVariables
    rw [Expression.Evaluate_Substitute]
    show (g * ((self.fixed_time_step : ℚ) : Expression)).Evaluate
      (self.intervalAssignment env i) = _
    rw [hmul, mul_comm]
  refine ⟨?_, by simp, hterm, ?_, ?_⟩
  · unfold DirectTranscription.DoAddRunningCost
    rw [DirectTranscription.runningCostLoop_eq, List.range_eq_range']
  · intro env i j
    constructor
    · intro hj
      simp [MultipleShooting.intervalAssignment, MultipleShooting.placeholderSubstitution, hj,
        Expression.Evaluate]
    · intro hj
      simp [MultipleShooting.intervalAssignment, MultipleShooting.placeholderSubstitution, hj,
        Expression.Evaluate]
  · intro env
    rw [List.map_map]
    have : (Expression.Evaluate env ∘ fun i =>
        self.SubstitutePlaceholderVariables
          (g * ((self.fixed_time_step : ℚ) : Expression)) i) =
        fun i => self.fixed_time_step * g.Evaluate (self.intervalAssignment env i) := by
      funext i
      exact hterm env i
    rw [this, List.sum_map_mul_left]

/-! ### Trajectory reconstruction -/

namespace DirectTranscription

theorem set_getElem?_step {α : Type} (l : List α) (i j k : Nat) (f : Nat → α) :
    (if i + 1 ≤ j ∧ j < i + 1 + k ∧ j < l.length then some (f j)
      else (if i = j then (if i < l.length then some (f i) else none) else l[j]?)) =
    (if i ≤ j ∧ j < i + (k + 1) ∧ j < l.length then some (f j) else l[j]?) := by
  by_cases hij : i = j
  · subst hij
    by_cases hl : i < l.length
    · rw [if_neg (by omega), if_pos rfl, if_pos hl, if_pos (by omega)]
    · rw [if_neg (by omega), if_pos rfl, if_neg hl, if_neg (by omega)]
      exact (List.getElem?_eq_none (by omega)).symm
  · by_cases c1 : i + 1 ≤ j ∧ j < i + 1 + k ∧ j < l.length
    · rw [if_pos c1, if_pos (by omega)]
    · rw [if_neg c1, if_neg hij, if_neg (by omega)]

theorem reconstructLoop_getElem? (times : List ℚ) (solution_at : Nat → List ℚ) :
    ∀ (k i : Nat) (times_vec : List ℚ) (values : List (List ℚ)) (j : Nat),
      ((reconstructLoop times solution_at k i times_vec values).1)[j]? =
          (if i ≤ j ∧ j < i + k ∧ j < times_vec.length then some (times.getD j 0)
            else times_vec[j]?) ∧
        ((reconstructLoop times solution_at k i times_vec values).2)[j]? =
          (if i ≤ j ∧ j < i + k ∧ j < values.length then some (solution_at j)
            else values[j]?) := by
  intro k
  induction k with
  | zero =>
    intro i tv vs j
    have h : ¬(i ≤ j ∧ j < i + 0 ∧ j < tv.length) := by omega
    have h2 : ¬(i ≤ j ∧ j < i + 0 ∧ j < vs.length) := by omega
    simp only [reconstructLoop, h, h2, if_false, and_self]
  | succ k ih =>
    intro i tv vs j
    rw [reconstructLoop]
    obtain ⟨h1, h2⟩ := ih (i + 1) (tv.set i (times.getD i 0)) (vs.set i (solution_at i)) j
    rw [h1, h2, List.length_set, List.length_set, List.getElem?_set, List.getElem?_set]
    exact ⟨set_getElem?_step tv i j k (fun n => times.getD n 0),
      set_getElem?_step vs i j k solution_at⟩

theorem reconstructLoop_eq (times : List ℚ) (solution_at : Nat → List ℚ) (N : Nat)
    (htimes : times.length = N) :
    reconstructLoop times solution_at N 0 (List.replicate N 0) (List.replicate N []) =
      (times, (List.range N).map solution_at) := by
  apply Prod.ext
  · apply List.ext_getElem?
    intro j
    rw [(reconstructLoop_getElem? times solution_at N 0 _ _ j).1]
    simp only [List.length_replicate, Nat.zero_le, Nat.zero_add, true_and, and_self,
      List.getElem?_replicate, List.getD_eq_getElem?_getD]
    by_cases hj : j < N
    · simp only [hj, if_true]
      rw [List.getElem?_eq_getElem (by omega)]
      rfl
    · simp only [hj, if_false]
      exact (List.getElem?_eq_none (by omega)).symm
  · apply List.ext_getElem?
    intro j
    rw [(reconstructLoop_getElem? times solution_at N 0 _ _ j).2]
    simp only [List.length_replicate, Nat.zero_le, Nat.zero_add, true_and, and_self,
      List.getElem?_replicate, List.getElem?_map]
    by_cases hj : j < N
    · simp [hj, List.getElem?_range hj]
    · simp only [hj, if_false]
      rw [List.getElem?_eq_none (by simpa using hj)]
      rfl

end DirectTranscription

theorem PiecewisePolynomial.segmentIndex_pair (a b t : ℚ) :
    PiecewisePolynomial.segmentIndex [a, b] t = 0 := rfl

theorem PiecewisePolynomial.segmentIndex_step (a b c : ℚ) (rest : List ℚ) (t : ℚ) :
    PiecewisePolynomial.segmentIndex (a :: b :: c :: rest) t =
      if t < b then 0 else 1 + PiecewisePolynomial.segmentIndex (b :: c :: rest) t := rfl

theorem PiecewisePolynomial.segmentIndex_uniform (h : ℚ) (hpos : 0 < h) (t : ℚ) :
    ∀ (n s i : Nat), s ≤ i → i + 2 ≤ s + (n + 2) → (i : ℚ) * h ≤ t → t < ((i : ℚ) + 1) * h →
      PiecewisePolynomial.segmentIndex
        ((List.range' s (n + 2)).map fun (j : Nat) => (j : ℚ) * h) t = i - s := by
  intro n
  induction n with
  | zero =>
    intro s i hs hi _ _
    have : i = s := by omega
    subst this
    simp [List.range'_succ, PiecewisePolynomial.segmentIndex_pair]
  | succ n ih =>
    intro s i hs hi hlo hhi
    have hlist : (List.range' s (n + 1 + 2)).map (fun (j : Nat) => (j : ℚ) * h) =
        (s : ℚ) * h :: ((s + 1 : Nat) : ℚ) * h :: ((s + 1 + 1 : Nat) : ℚ) * h ::
          (List.range' (s + 1 + 1 + 1) n).map (fun (j : Nat) => (j : ℚ) * h) := by
      simp [List.range'_succ]
    have htail : ((s + 1 : Nat) : ℚ) * h :: ((s + 1 + 1 : Nat) : ℚ) * h ::
          (List.range' (s + 1 + 1 + 1) n).map (fun (j : Nat) => (j : ℚ) * h) =
        (List.range' (s + 1) (n + 2)).map (fun (j : Nat) => (j : ℚ) * h) := by
      simp [List.range'_succ]
    rw [hlist, PiecewisePolynomial.segmentIndex_step, htail]
    by_cases hlt : t < ((s + 1 : Nat) : ℚ) * h
    · rw [if_pos hlt]
      have : (i : ℚ) * h < ((s + 1 : Nat) : ℚ) * h := lt_of_le_of_lt hlo hlt
      have h2 : (i : ℚ) < ((s + 1 : Nat) : ℚ) := lt_of_mul_lt_mul_right this hpos.le
      have h3 : i < s + 1 := by exact_mod_cast h2
      omega
    · rw [if_neg hlt]
      have hge : ((s + 1 : Nat) : ℚ) * h ≤ t := not_lt.mp hlt
      have : ((s + 1 : Nat) : ℚ) * h < ((i : ℚ) + 1) * h := lt_of_le_of_lt hge hhi
      have h2 : ((s + 1 : Nat) : ℚ) < (i : ℚ) + 1 := lt_of_mul_lt_mul_right this hpos.le
      have h3 : s + 1 < i + 1 := by exact_mod_cast h2
      rw [ih (s + 1) i (by omega) (by omega) hlo hhi]
      omega


theorem MultipleShooting.GetSampleTimes_length (ms : MultipleShooting)
    (result : MathematicalProgramResult) : (ms.GetSampleTimes result).length = ms.N := by
  simp [MultipleShooting.GetSampleTimes]

theorem DirectTranscription.ReconstructInputTrajectory_eq (self : DirectTranscription T)
    (result : MathematicalProgramResult) :
    self.ReconstructInputTrajectory result =
      PiecewisePolynomial.ZeroOrderHold (self.GetSampleTimes result)
        ((List.range self.N).map fun i => result.GetSolution (self.input i)) := by
  simp only [DirectTranscription.ReconstructInputTrajectory]
  rw [DirectTranscription.reconstructLoop_eq _ _ _
    (MultipleShooting.GetSampleTimes_length _ result)]

theorem DirectTranscription.ReconstructStateTrajectory_eq (self : DirectTranscription T)
    (result : MathematicalProgramResult) :
    self.ReconstructStateTrajectory result =
      PiecewisePolynomial.ZeroOrderHold (self.GetSampleTimes result)
        ((List.range self.N).map fun i => result.GetSolution (self.state i)) := by
  simp only [DirectTranscription.ReconstructStateTrajectory]
  rw [DirectTranscription.reconstructLoop_eq _ _ _
    (MultipleShooting.GetSampleTimes_length _ result)]

theorem PiecewisePolynomial.value_uniform (N : Nat) (h : ℚ) (f : Nat → List ℚ) (i : Nat) (t : ℚ)
    (hi : i + 1 < N) (hlo : (i : ℚ) * h ≤ t) (hhi : t < ((i : ℚ) + 1) * h) :
    (PiecewisePolynomial.ZeroOrderHold ((List.range N).map fun (j : Nat) => (j : ℚ) * h)
      ((List.range N).map f)).value t = f i := by
  have hpos : 0 < h := by
    have := lt_of_le_of_lt hlo hhi
    linarith
  obtain ⟨n, rfl⟩ : ∃ n, N = n + 2 := ⟨N - 2, by omega⟩
  simp only [PiecewisePolynomial.value, PiecewisePolynomial.ZeroOrderHold]
  rw [List.range_eq_range', PiecewisePolynomial.segmentIndex_uniform h hpos t n 0 i
    (Nat.zero_le _) (by omega) hlo hhi]
  have hlt : i < n + 2 := by omega
  simp [List.getD_eq_getElem?_getD, List.getElem?_range', hlt]

/-- C15: for every builder (discrete or continuous mode) and every solved result,
`ReconstructInputTrajectory` and `ReconstructStateTrajectory` return the
zero-order hold through exactly `N` (time, value) pairs: the breaks are the sample
times of `GetSampleTimes`, the `i`-th value is the solved value of `input(i)`
(resp. `state(i)`), and on the whole of `[t_i, t_{i+1})`, `i = 0..N-2`, the
interpolant takes the `i`-th value. -/
theorem reconstruction_is_zero_order_hold (self : DirectTranscription T)
    (result : MathematicalProgramResult) :
    (self.ReconstructInputTrajectory result).breaks = self.GetSampleTimes result ∧
    (self.ReconstructStateTrajectory result).breaks = self.GetSampleTimes result ∧
    (self.GetSampleTimes result).length = self.N ∧
    (self.ReconstructInputTrajectory result).samples.length = self.N ∧
    (self.ReconstructStateTrajectory result).samples.length = self.N ∧
    (∀ i, i < self.N →
      (self.GetSampleTimes result)[i]? = some ((i : ℚ) * self.fixed_time_step) ∧
      (self.ReconstructInputTrajectory result).samples[i]? =
        some (result.GetSolution (self.input i)) ∧
      (self.ReconstructStateTrajectory result).samples[i]? =
        some (result.GetSolution (self.state i))) ∧
    (∀ (i : Nat) (t : ℚ), i + 1 < self.N →
      (i : ℚ) * self.fixed_time_step ≤ t → t < ((i : ℚ) + 1) * self.fixed_time_step →
      (self.ReconstructInputTrajectory result).value t = result.GetSolution (self.input i) ∧
      (self.ReconstructStateTrajectory result).value t = result.GetSolution (self.state i)) := by
  rw [DirectTranscription.ReconstructInputTrajectory_eq,
    DirectTranscription.ReconstructStateTrajectory_eq]
  refine ⟨rfl, rfl, MultipleShooting.GetSampleTimes_length _ result, ?_, ?_, ?_, ?_⟩
  · simp [PiecewisePolynomial.ZeroOrderHold]
  · simp [PiecewisePolynomial.ZeroOrderHold]
  · intro i hi
    simp [PiecewisePolynomial.ZeroOrderHold, MultipleShooting.GetSampleTimes,
      List.getElem?_range, hi]
  · intro i t hi hlo hhi
    exact ⟨PiecewisePolynomial.value_uniform self.N self.fixed_time_step _ i t hi hlo hhi,
      PiecewisePolynomial.value_uniform self.N self.fixed_time_step _ i t hi hlo hhi⟩

/-- Witness for C15 on the discrete scenario (`N = 5`, period 1): at `t = 5/2`, in
`[t_2, t_3)`, the input interpolant is `u[2] = 0` and the state interpolant
`x[2] = 1/4`. -/
theorem reconstruction_is_zero_order_hold_witness :
    (scenario.discreteBuilder.ReconstructInputTrajectory scenario.halvingResult).value (5 / 2) =
        [0] ∧
      (scenario.discreteBuilder.ReconstructStateTrajectory scenario.halvingResult).value (5 / 2) =
        [1 / 4] := by
  have h := (reconstruction_is_zero_order_hold scenario.discreteBuilder
    scenario.halvingResult).2.2.2.2.2.2 2 (5 / 2) (by decide)
    (by simp [scenario.discreteBuilder, DirectTranscription.ofBase]; norm_num)
    (by simp [scenario.discreteBuilder, DirectTranscription.ofBase]; norm_num)
  rw [h.1, h.2]
  simp [MathematicalProgramResult.GetSolution, MultipleShooting.input, MultipleShooting.state,
    scenario.discreteBuilder, DirectTranscription.ofBase, scenario.halvingResult,
    scenario.halving, List.range_succ]
  norm_num

/-- C16: calling `ReconstructInputTrajectory` (resp. `ReconstructStateTrajectory`)
a second time on the builder and result left by a first call returns the same
interpolant, with the same breakpoints and the same values; each call leaves the
builder, the program it owns and the result as they were; and the interpolant
does not depend on the program of the builder. -/
theorem reconstruction_idempotent (self : DirectTranscription T)
    (result : MathematicalProgramResult) :
    ((DirectTranscription.callReconstructInputTrajectory
        (DirectTranscription.callReconstructInputTrajectory (self, result)).1).2 =
      (DirectTranscription.callReconstructInputTrajectory (self, result)).2 ∧
     (DirectTranscription.callReconstructInputTrajectory
        (DirectTranscription.callReconstructInputTrajectory (self, result)).1).2.breaks =
      (DirectTranscription.callReconstructInputTrajectory (self, result)).2.breaks ∧
     (DirectTranscription.callReconstructInputTrajectory
        (DirectTranscription.callReconstructInputTrajectory (self, result)).1).2.samples =
      (DirectTranscription.callReconstructInputTrajectory (self, result)).2.samples) ∧
    ((DirectTranscription.callReconstructStateTrajectory
        (DirectTranscription.callReconstructStateTrajectory (self, result)).1).2 =
      (DirectTranscription.callReconstructStateTrajectory (self, result)).2 ∧
     (DirectTranscription.callReconstructStateTrajectory
        (DirectTranscription.callReconstructStateTrajectory (self, result)).1).2.breaks =
      (DirectTranscription.callReconstructStateTrajectory (self, result)).2.breaks ∧
     (DirectTranscription.callReconstructStateTrajectory
        (DirectTranscription.callReconstructStateTrajectory (self, result)).1).2.samples =
      (DirectTranscription.callReconstructStateTrajectory (self, result)).2.samples) ∧
    ((DirectTranscription.callReconstructInputTrajectory (self, result)).1 = (self, result) ∧
     (DirectTranscription.callReconstructInputTrajectory (self, result)).1.1.prog = self.prog ∧
     (DirectTranscription.callReconstructStateTrajectory (self, result)).1 = (self, result) ∧
     (DirectTranscription.callReconstructStateTrajectory (self, result)).1.1.prog = self.prog) ∧
    (DirectTranscription.callReconstructInputTrajectory (self, result)).2 =
      PiecewisePolynomial.ZeroOrderHold (self.GetSampleTimes result)
        ((List.range self.N).map fun i => result.GetSolution (self.input i)) ∧
    (DirectTranscription.callReconstructStateTrajectory (self, result)).2 =
      PiecewisePolynomial.ZeroOrderHold (self.GetSampleTimes result)
        ((List.range self.N).map fun i => result.GetSolution (self.state i)) ∧
    ∀ prog : MathematicalProgram,
      (self.withProg prog).ReconstructInputTrajectory result =
        self.ReconstructInputTrajectory result ∧
      (self.withProg prog).ReconstructStateTrajectory result =
        self.ReconstructStateTrajectory result :=
  ⟨⟨rfl, rfl, rfl⟩, ⟨rfl, rfl, rfl⟩, ⟨rfl, rfl, rfl, rfl⟩,
    DirectTranscription.ReconstructInputTrajectory_eq self result,
    DirectTranscription.ReconstructStateTrajectory_eq self result,
    fun _ => ⟨rfl, rfl⟩⟩

/-! ### The symbolic overload and the constructor of the per-step constraint -/

/-- C17: for every constraint and every vector of symbolic variables, the symbolic
`DoEval` overload fails with a `std::logic_error`, produces no expression, and
leaves the shared integrator, hence the shared context, as it was. -/
theorem DoEvalSymbolic_not_supported (c : DirectTranscriptionConstraint) (x : List Variable)
    (integrator : IntegratorBase T) :
    (c.DoEvalSymbolic x integrator).2 = .error .logic_error ∧
      (∀ y : List Expression, (c.DoEvalSymbolic x integrator).2 ≠ .ok y) ∧
      (c.DoEvalSymbolic x integrator).1 = integrator ∧
      (c.DoEvalSymbolic x integrator).1.context = integrator.context :=
  ⟨rfl, fun _ h => by simp [DirectTranscriptionConstraint.DoEvalSymbolic] at h, rfl, rfl⟩

theorem DirectTranscriptionConstraint.create_isOk_iff (heap : List (IntegratorBase T))
    (integrator : Nat) (input_port_value : Option Nat) (num_states num_inputs : Nat)
    (evaluation_time fixed_time_step : ℚ) :
    (∃ c, DirectTranscriptionConstraint.create heap integrator input_port_value num_states
        num_inputs evaluation_time fixed_time_step = .ok c) ↔
      (0 ≤ evaluation_time ∧
        ∃ pointee, heap.get? integrator = some pointee ∧
          (pointee.context.has_only_discrete_state = true ∨
            pointee.context.has_only_continuous_state = true) ∧
          (pointee.context.num_input_ports = 0 ∨ input_port_value.isSome = true) ∧
          (pointee.context.has_only_continuous_state = true → 0 < fixed_time_step)) := by
  unfold DirectTranscriptionConstraint.create
  by_cases het : 0 ≤ evaluation_time
  · rcases hp : heap.get? integrator with _ | pointee
    · simp [DRAKE_DEMAND, het, bind, Except.bind]
    · have hexcl := Context.not_continuous_of_discrete pointee.context
      cases hd : pointee.context.has_only_discrete_state <;>
        cases hc : pointee.context.has_only_continuous_state
      · simp [DRAKE_DEMAND, het, bind, Except.bind, hd, hc]
      · by_cases h2 : pointee.context.num_input_ports = 0 ∨ input_port_value.isSome = true
        · by_cases h3 : 0 < fixed_time_step
          · have h2b : (pointee.context.num_input_ports == 0 || input_port_value.isSome) = true := by
              simpa using h2
            simp [DRAKE_DEMAND, het, bind, Except.bind, hd, hc, h2, h2b, h3, pure, Except.pure]
          · have h2b : (pointee.context.num_input_ports == 0 || input_port_value.isSome) = true := by
              simpa using h2
            simp [DRAKE_DEMAND, het, bind, Except.bind, hd, hc, h2, h2b, h3, pure, Except.pure]
        · have h2b : (pointee.context.num_input_ports == 0 || input_port_value.isSome) = false := by
            simpa using h2
          simp [DRAKE_DEMAND, het, bind, Except.bind, hd, hc, h2, h2b]
      · by_cases h2 : pointee.context.num_input_ports = 0 ∨ input_port_value.isSome = true
        · have h2b : (pointee.context.num_input_ports == 0 || input_port_value.isSome) = true := by
            simpa using h2
          simp [DRAKE_DEMAND, het, bind, Except.bind, hd, hc, h2, h2b, pure, Except.pure]
        · have h2b : (pointee.context.num_input_ports == 0 || input_port_value.isSome) = false := by
            simpa using h2
          simp [DRAKE_DEMAND, het, bind, Except.bind, hd, hc, h2, h2b]
      · have := hexcl hd
        rw [hc] at this
        exact absurd this (by simp)
  · simp [DRAKE_DEMAND, het, bind, Except.bind]

theorem DRAKE_DEMAND_error {cond : Bool} {e : Error} (h : DRAKE_DEMAND cond = .error e) :
    e = .demand_failed := by
  unfold DRAKE_DEMAND at h
  split at h
  · simp at h
  · simpa using h.symm

theorem DirectTranscriptionConstraint.create_error_kind (heap : List (IntegratorBase T))
    (integrator : Nat) (input_port_value : Option Nat) (num_states num_inputs : Nat)
    (evaluation_time fixed_time_step : ℚ) (pointee : IntegratorBase T)
    (hp : heap.get? integrator = some pointee) (e : Error)
    (h : DirectTranscriptionConstraint.create heap integrator input_port_value num_states
        num_inputs evaluation_time fixed_time_step = .error e) : e = .demand_failed := by
  unfold DirectTranscriptionConstraint.create at h
  rw [hp] at h
  simp only [bind, Except.bind, pure, Except.pure] at h
  repeat' split at h
  all_goals first
    | (simp only [Except.error.injEq] at h; subst h; exact DRAKE_DEMAND_error (by assumption))
    | (exfalso; simp at h)

/-- C18: given the integrator the constructor is handed, constructing a
`DirectTranscriptionConstraint` succeeds only if the integrator's context has only
discrete or only continuous state, an input-value handle is supplied whenever the
context has an input port, and the step is strictly positive when the state is
continuous; a context with abstract state or with both kinds of state, a missing
handle, or a non-positive step on continuous state each make the construction
fail (a failed demand); with a non-negative evaluation time these conditions are
also sufficient, and for a purely discrete context no step value is rejected. -/
theorem DirectTranscriptionConstraint_construction_preconditions
    (heap : List (IntegratorBase T)) (integrator : Nat) (input_port_value : Option Nat)
    (num_states num_inputs : Nat) (evaluation_time fixed_time_step : ℚ)
    (pointee : IntegratorBase T) (hp : heap.get? integrator = some pointee) :
    ((∃ c, DirectTranscriptionConstraint.create heap integrator input_port_value num_states
          num_inputs evaluation_time fixed_time_step = .ok c) →
        (pointee.context.has_only_discrete_state = true ∨
          pointee.context.has_only_continuous_state = true) ∧
        (pointee.context.num_input_ports = 0 ∨ input_port_value.isSome = true) ∧
        (pointee.context.has_only_continuous_state = true → 0 < fixed_time_step)) ∧
      ((¬ (pointee.context.has_only_discrete_state = true ∨
            pointee.context.has_only_continuous_state = true) ∨
          (0 < pointee.context.num_input_ports ∧ input_port_value = none) ∨
          (pointee.context.has_only_continuous_state = true ∧ fixed_time_step ≤ 0)) →
        DirectTranscriptionConstraint.create heap integrator input_port_value num_states
          num_inputs evaluation_time fixed_time_step = .error .demand_failed) ∧
      ((0 < pointee.context.num_abstract_states ∨
          (0 < pointee.context.num_continuous_states ∧
            0 < pointee.context.num_discrete_state_groups)) →
        DirectTranscriptionConstraint.create heap integrator input_port_value num_states
          num_inputs evaluation_time fixed_time_step = .error .demand_failed) ∧
      (0 ≤ evaluation_time →
        (pointee.context.has_only_discrete_state = true ∨
          pointee.context.has_only_continuous_state = true) →
        (pointee.context.num_input_ports = 0 ∨ input_port_value.isSome = true) →
        (pointee.context.has_only_continuous_state = true → 0 < fixed_time_step) →
        DirectTranscriptionConstraint.create heap integrator input_port_value num_states
          num_inputs evaluation_time fixed_time_step =
          .ok { integrator_ := integrator
                input_port_value_ := input_port_value
                num_states_ := num_states
                num_inputs_ := num_inputs
                evaluation_time_ := evaluation_time
                fixed_time_step_ := fixed_time_step }) ∧
      (0 ≤ evaluation_time → pointee.context.has_only_discrete_state = true →
        (pointee.context.num_input_ports = 0 ∨ input_port_value.isSome = true) →
        ∀ step : ℚ, ∃ c, DirectTranscriptionConstraint.create heap integrator input_port_value
          num_states num_inputs evaluation_time step = .ok c) := by
  have hiff := fun step => DirectTranscriptionConstraint.create_isOk_iff heap integrator
    input_port_value num_states num_inputs evaluation_time step
  have hnec : (∃ c, DirectTranscriptionConstraint.create heap integrator input_port_value
      num_states num_inputs evaluation_time fixed_time_step = .ok c) →
      (pointee.context.has_only_discrete_state = true ∨
        pointee.context.has_only_continuous_state = true) ∧
      (pointee.context.num_input_ports = 0 ∨ input_port_value.isSome = true) ∧
      (pointee.context.has_only_continuous_state = true → 0 < fixed_time_step) := by
    intro h
    obtain ⟨_, p, hp2, h1, h2, h3⟩ := (hiff fixed_time_step).1 h
    rw [hp] at hp2
    cases hp2
    exact ⟨h1, h2, h3⟩
  have hfail : ¬ ((pointee.context.has_only_discrete_state = true ∨
        pointee.context.has_only_continuous_state = true) ∧
      (pointee.context.num_input_ports = 0 ∨ input_port_value.isSome = true) ∧
      (pointee.context.has_only_continuous_state = true → 0 < fixed_time_step)) →
      DirectTranscriptionConstraint.create heap integrator input_port_value num_states
        num_inputs evaluation_time fixed_time_step = .error .demand_failed := by
    intro hnot
    rcases hc : DirectTranscriptionConstraint.create heap integrator input_port_value num_states
        num_inputs evaluation_time fixed_time_step with e | c
    · rw [DirectTranscriptionConstraint.create_error_kind heap integrator input_port_value
        num_states num_inputs evaluation_time fixed_time_step pointee hp e hc]
    · exact absurd (hnec ⟨c, hc⟩) hnot
  refine ⟨hnec, ?_, ?_, ?_, ?_⟩
  · rintro (h | ⟨h1, h2⟩ | ⟨h1, h2⟩)
    · exact hfail fun hall => h hall.1
    · refine hfail fun hall => ?_
      rcases hall.2.1 with h0 | hs
      · omega
      · rw [h2] at hs; simp at hs
    · exact hfail fun hall => absurd (hall.2.2 h1) (not_lt.mpr h2)
  · intro h
    refine hfail fun hall => ?_
    have hd : pointee.context.has_only_discrete_state = false ∧
        pointee.context.has_only_continuous_state = false := by
      simp only [Context.has_only_discrete_state, Context.has_only_continuous_state]
      rcases h with h | ⟨h1, h2⟩
      · have : (pointee.context.num_abstract_states == 0) = false := by
          simp; omega
        simp [this]
      · have h1b : (pointee.context.num_continuous_states == 0) = false := by
          simp; omega
        have h2b : (pointee.context.num_discrete_state_groups == 0) = false := by
          simp; omega
        simp [h1b, h2b]
    rcases hall.1 with h1 | h1
    · rw [hd.1] at h1; simp at h1
    · rw [hd.2] at h1; simp at h1
  · intro het h1 h2 h3
    obtain ⟨c, hc⟩ := (hiff fixed_time_step).2 ⟨het, pointee, hp, h1, h2, h3⟩
    rw [hc, ← DirectTranscription.create_of_ok hc]
  · intro het hd h2 step
    refine (hiff step).2 ⟨het, pointee, hp, Or.inl hd, h2, fun hc => ?_⟩
    rw [Context.not_continuous_of_discrete _ hd] at hc
    simp at hc

/-- Witness for C18: on the integrator of the continuous scenario a zero step is
rejected. -/
theorem DirectTranscriptionConstraint_construction_preconditions_witness :
    DirectTranscriptionConstraint.create [scenario.continuousIntegrator] 0 (some 0) 1 1 0 0 =
      .error .demand_failed :=
  (DirectTranscriptionConstraint_construction_preconditions [scenario.continuousIntegrator] 0
    (some 0) 1 1 0 0 scenario.continuousIntegrator rfl).2.1
    (Or.inr (Or.inr ⟨by decide, le_refl 0⟩))

/-! ### Affineness is tested on the first interval only -/

namespace DirectTranscription

theorem symbolicNextState_eq (self : DirectTranscription T) (sym : System Expression)
    (ip : Option (Nat × InputPort)) (i : Nat) (integ : IntegratorBase Expression)
    (hsys : integ.system = sym)
    (hgrp : self.discrete_time_system_ = true →
      ∀ c, sym.EvalUniquePeriodicDiscreteUpdate c ≠ []) :
    ∃ integ2, self.symbolicNextState sym ip i integ =
        (integ2, .ok (OneStepAdvance sym self.discrete_time_system_
          (binary64.mul ((i + 1 : Nat) : ℚ) self.fixed_time_step -
            binary64.mul (i : ℚ) self.fixed_time_step)
          integ.context (ip.map Prod.fst) (binary64.mul (i : ℚ) self.fixed_time_step)
          (castVars (self.state i)) (castVars (self.input i)))) ∧
      integ2.system = sym ∧
      ∀ (s t : ℚ) (x u : List Expression),
        OneStepAdvance sym self.discrete_time_system_ s integ2.context
          (ip.map Prod.fst) t x u =
        OneStepAdvance sym self.discrete_time_system_ s integ.context
          (ip.map Prod.fst) t x u := by
  have hex : ∃ integ2 ns, self.symbolicNextState sym ip i integ = (integ2, .ok ns) := by
    unfold symbolicNextState
    cases hd : self.discrete_time_system_
    · simp [IntegratorBase.IntegrateWithSingleFixedStepToTime, DRAKE_THROW_UNLESS]
    · simp only [if_true]
      have hne := hgrp hd
      generalize hupd : sym.EvalUniquePeriodicDiscreteUpdate _ = d
      cases d with
      | nil => exact absurd hupd (hne _)
      | cons v rest => exact ⟨_, v, rfl⟩
  obtain ⟨integ2, ns, h⟩ := hex
  obtain ⟨h1, h2, h3⟩ := symbolicNextState_ok self sym ip i integ integ2 ns hsys h
  exact ⟨integ2, by rw [h, h1], h2, h3⟩

theorem AddLinearEqualityConstraint_not_affine (prog : MathematicalProgram)
    (lhs rhs : List Expression) (h : IsAffine rhs prog.decision_variables = false) :
    prog.AddLinearEqualityConstraint lhs rhs = .error .runtime_error := by
  simp [MathematicalProgram.AddLinearEqualityConstraint, h]

theorem AddLinearEqualityConstraint_affine (prog : MathematicalProgram)
    (lhs : List Variable) (rhs : List Expression)
    (h : IsAffine rhs prog.decision_variables = true) :
    prog.AddLinearEqualityConstraint (castVars lhs) rhs =
      .ok { prog with
            linear_equality_constraints :=
              prog.linear_equality_constraints ++ [⟨castVars lhs, rhs⟩] } := by
  simp [MathematicalProgram.AddLinearEqualityConstraint, h, IsAffine_castVars]

/-- The symbolic loop started at interval `i`, on next-state expressions that are
affine in the `m` intervals `i..i+m-1` and not affine in interval `i+m > 0`:
the `m` equalities are registered and the registration of the next one fails. -/
theorem symbolicLoop_raises (sym : System Expression) (ip : Option (Nat × InputPort)) :
    ∀ (m i rest : Nat) (integ : IntegratorBase Expression) (self : DirectTranscription T),
      integ.system = sym →
      (self.discrete_time_system_ = true → ∀ c, sym.EvalUniquePeriodicDiscreteUpdate c ≠ []) →
      (∀ l, i ≤ l → l < i + m →
        IsAffine (OneStepAdvance sym self.discrete_time_system_
          (binary64.mul ((l + 1 : Nat) : ℚ) self.fixed_time_step -
            binary64.mul (l : ℚ) self.fixed_time_step)
          integ.context (ip.map Prod.fst) (binary64.mul (l : ℚ) self.fixed_time_step)
          (castVars (self.state l)) (castVars (self.input l)))
          self.prog.decision_variables = true) →
      IsAffine (OneStepAdvance sym self.discrete_time_system_
        (binary64.mul ((i + m + 1 : Nat) : ℚ) self.fixed_time_step -
          binary64.mul ((i + m : Nat) : ℚ) self.fixed_time_step)
          integ.context (ip.map Prod.fst) (binary64.mul ((i + m : Nat) : ℚ) self.fixed_time_step)
          (castVars (self.state (i + m))) (castVars (self.input (i + m))))
          self.prog.decision_variables = false →
      i + m ≠ 0 →
      symbolicLoop sym ip (m + (rest + 1)) i integ self =
        (self.withProg
          { self.prog with
            linear_equality_constraints := self.prog.linear_equality_constraints ++
              (List.range' i m).map fun j =>
                ⟨castVars (self.state (j + 1)),
                  OneStepAdvance sym self.discrete_time_system_
                    (binary64.mul ((j + 1 : Nat) : ℚ) self.fixed_time_step -
                      binary64.mul (j : ℚ) self.fixed_time_step) integ.context
                    (ip.map Prod.fst) (binary64.mul (j : ℚ) self.fixed_time_step) (castVars (self.state j))
                    (castVars (self.input j))⟩ },
          .error .runtime_error) := by
  intro m
  induction m with
  | zero =>
    intro i rest integ self hsys hgrp _ hnon hi
    obtain ⟨integ2, hns, _, _⟩ := symbolicNextState_eq self sym ip i integ hsys hgrp
    have hi0 : (i == 0) = false := by simpa using hi
    simp only [Nat.add_zero] at hnon
    rw [Nat.zero_add, symbolicLoop, hns]
    simp only [hi0, Bool.false_and, Bool.false_eq_true, if_false]
    rw [AddLinearEqualityConstraint_not_affine _ _ _ hnon]
    simp [withProg]
  | succ m ih =>
    intro i rest integ self hsys hgrp haff hnon _
    obtain ⟨integ2, hns, hsys2, hinv⟩ := symbolicNextState_eq self sym ip i integ hsys hgrp
    have haffi := haff i (Nat.le_refl i) (by omega)
    have hlen : m + 1 + (rest + 1) = (m + (rest + 1)) + 1 := by omega
    rw [hlen, symbolicLoop, hns]
    simp only [haffi, Bool.not_true, Bool.and_false, Bool.false_eq_true, if_false]
    rw [AddLinearEqualityConstraint_affine _ _ _ haffi]
    simp only
    rw [ih (i + 1) rest integ2
      (self.withProg { self.prog with
        linear_equality_constraints := self.prog.linear_equality_constraints ++
          [⟨castVars (self.state (i + 1)),
            OneStepAdvance sym self.discrete_time_system_
              (binary64.mul ((i + 1 : Nat) : ℚ) self.fixed_time_step -
                binary64.mul (i : ℚ) self.fixed_time_step) integ.context
              (ip.map Prod.fst) (binary64.mul (i : ℚ) self.fixed_time_step) (castVars (self.state i))
              (castVars (self.input i))⟩] }) hsys2 hgrp]
    · simp only [withProg, List.range'_succ, List.map_cons, List.append_assoc,
        List.singleton_append]
      simp only [hinv]
      rfl
    · intro l hl1 hl2
      simp only [withProg, hinv]
      exact haff l (by omega) (by omega)
    · simp only [withProg, hinv]
      have : i + 1 + m = i + (m + 1) := by omega
      rw [this]
      exact hnon
    · omega

end DirectTranscription

/-- C19: affineness is tested in interval 0 only. For a symbolic system whose
next-state expression (the symbolic one-step advance at the time of sample `i`,
the double product `i * fixed_time_step`, with in continuous mode the step to the
time of sample `i + 1`) is affine in the decision variables in the intervals
`0..j-1` and not affine in an interval `j` with `0 < j < N - 1`,
`AddSymbolicDynamicConstraints` does not return `false`: the registration of the
equality of interval `j` raises, the builder being left with exactly the `j`
equalities of the intervals `0..j-1` added to its program and with no autodiff
constraint; the statements of the constructors that call it end in that failure,
without falling back to the autodiff path. -/
theorem AddSymbolicDynamicConstraints_tests_affineness_once [RatCast T] [Zero T]
    (self : DirectTranscription T) (system : DoubleSystem T) (context : Context ℚ)
    (input_port_index : InputPortChoice) (symbolic_system : System Expression)
    (input_port : Option (Nat × InputPort)) (j : Nat)
    (hsym : system.ToSymbolicMaybe = some symbolic_system)
    (habs : SystemSymbolicInspector.IsAbstract symbolic_system
      symbolic_system.CreateDefaultContext = false)
    (hsel : symbolic_system.get_input_port_selection input_port_index = .ok input_port)
    (hgrp : self.discrete_time_system_ = true →
      ∀ c, symbolic_system.EvalUniquePeriodicDiscreteUpdate c ≠ [])
    (hj : 0 < j) (hjN : j < self.N - 1)
    (haff : ∀ i, i < j →
      IsAffine (OneStepAdvance symbolic_system self.discrete_time_system_
        (binary64.mul ((i + 1 : Nat) : ℚ) self.fixed_time_step -
          binary64.mul (i : ℚ) self.fixed_time_step)
        (symbolic_system.CreateDefaultContext.SetTimeStateAndParametersFrom context)
        (input_port.map Prod.fst) (binary64.mul (i : ℚ) self.fixed_time_step)
        (castVars (self.state i)) (castVars (self.input i))) self.prog.decision_variables = true)
    (hnon :
      IsAffine (OneStepAdvance symbolic_system self.discrete_time_system_
        (binary64.mul ((j + 1 : Nat) : ℚ) self.fixed_time_step -
          binary64.mul (j : ℚ) self.fixed_time_step)
        (symbolic_system.CreateDefaultContext.SetTimeStateAndParametersFrom context)
        (input_port.map Prod.fst) (binary64.mul (j : ℚ) self.fixed_time_step)
        (castVars (self.state j)) (castVars (self.input j))) self.prog.decision_variables =
        false) :
    self.AddSymbolicDynamicConstraints system context input_port_index =
        (self.withProg
          { self.prog with
            linear_equality_constraints := self.prog.linear_equality_constraints ++
              (List.range j).map fun i =>
                ⟨castVars (self.state (i + 1)),
                  OneStepAdvance symbolic_system self.discrete_time_system_
                    (binary64.mul ((i + 1 : Nat) : ℚ) self.fixed_time_step -
                      binary64.mul (i : ℚ) self.fixed_time_step)
                    (symbolic_system.CreateDefaultContext.SetTimeStateAndParametersFrom context)
                    (input_port.map Prod.fst) (binary64.mul (i : ℚ) self.fixed_time_step)
                    (castVars (self.state i)) (castVars (self.input i))⟩ },
          .error .runtime_error) ∧
      (self.AddSymbolicDynamicConstraints system context input_port_index).2 ≠ .ok false ∧
      (self.AddSymbolicDynamicConstraints system context
          input_port_index).1.prog.linear_equality_constraints.length =
        self.prog.linear_equality_constraints.length + j ∧
      (self.AddSymbolicDynamicConstraints system context
          input_port_index).1.prog.generic_constraints = self.prog.generic_constraints ∧
      self.addDynamicConstraints system context input_port_index = .error .runtime_error := by
  have hrun : self.AddSymbolicDynamicConstraints system context input_port_index =
      (self.withProg
        { self.prog with
          linear_equality_constraints := self.prog.linear_equality_constraints ++
            (List.range j).map fun i =>
              ⟨castVars (self.state (i + 1)),
                OneStepAdvance symbolic_system self.discrete_time_system_
                  (binary64.mul ((i + 1 : Nat) : ℚ) self.fixed_time_step -
                    binary64.mul (i : ℚ) self.fixed_time_step)
                  (symbolic_system.CreateDefaultContext.SetTimeStateAndParametersFrom context)
                  (input_port.map Prod.fst) (binary64.mul (i : ℚ) self.fixed_time_step)
                  (castVars (self.state i)) (castVars (self.input i))⟩ },
        .error .runtime_error) := by
    unfold DirectTranscription.AddSymbolicDynamicConstraints
    rw [hsym]
    simp only [habs, Bool.false_eq_true, if_false]
    rw [hsel]
    simp only
    obtain ⟨rest, hrest⟩ : ∃ rest, self.N - 1 = j + (rest + 1) := ⟨self.N - 1 - j - 1, by omega⟩
    rw [hrest, DirectTranscription.symbolicLoop_raises symbolic_system input_port j 0 rest _ self
      rfl hgrp (fun l _ hl => haff l (by omega)) (by simpa using hnon) (by omega),
      List.range_eq_range']
    rfl
  refine ⟨hrun, ?_, ?_, ?_, ?_⟩
  · rw [hrun]; simp
  · rw [hrun]; simp [DirectTranscription.withProg]
  · rw [hrun]; rfl
  · unfold DirectTranscription.addDynamicConstraints
    rw [hrun]

/-- Witness for C19: the discrete scenario (`N = 5`) with the switching update,
affine in interval 0 and not affine in interval 1: one equality is registered and
the second registration raises. -/
theorem AddSymbolicDynamicConstraints_tests_affineness_once_witness :
    (scenario.discreteBuilder.AddSymbolicDynamicConstraints scenario.switchingSystem
        (scenario.discreteSystemOn ℚ).CreateDefaultContext scenario.firstInput).2 =
      .error .runtime_error ∧
    (scenario.discreteBuilder.AddSymbolicDynamicConstraints scenario.switchingSystem
        (scenario.discreteSystemOn ℚ).CreateDefaultContext
        scenario.firstInput).1.prog.linear_equality_constraints.length = 1 ∧
    scenario.discreteBuilder.addDynamicConstraints scenario.switchingSystem
        (scenario.discreteSystemOn ℚ).CreateDefaultContext scenario.firstInput =
      .error .runtime_error := by
  have h := AddSymbolicDynamicConstraints_tests_affineness_once scenario.discreteBuilder
    scenario.switchingSystem (scenario.discreteSystemOn ℚ).CreateDefaultContext
    scenario.firstInput
    { scenario.discreteSystemOn Expression with
      EvalUniquePeriodicDiscreteUpdate := scenario.switchingUpdate }
    (some (0, ⟨PortDataType.kVectorValued, 1⟩)) 1 rfl rfl rfl
    (by
      intro _ c
      simp only [scenario.switchingUpdate]
      split <;> simp [scenario.halfUpdate])
    (by decide) (by decide)
    (by
      intro i hi
      obtain rfl : i = 0 := by omega
      simp [OneStepAdvance, AdvanceContext, scenario.switchingUpdate, scenario.halfUpdate,
        scenario.inputValue, scenario.discreteSystemOn, scenario.discreteBuilder,
        DirectTranscription.ofBase, Context.SetTime, Context.FixValue, Context.SetDiscreteState,
        Context.SetTimeStateAndParametersFrom, castVars, MultipleShooting.state,
        MultipleShooting.input, IsAffine, Expression.degree, List.range_succ])
    (by
      simp [binary64.mul_one_one, OneStepAdvance, AdvanceContext, scenario.switchingUpdate,
        scenario.halfUpdate,
        scenario.inputValue, scenario.discreteSystemOn, scenario.discreteBuilder,
        DirectTranscription.ofBase, Context.SetTime, Context.FixValue, Context.SetDiscreteState,
        Context.SetTimeStateAndParametersFrom, castVars, MultipleShooting.state,
        MultipleShooting.input, IsAffine, Expression.degree, List.range_succ])
  refine ⟨?_, ?_, h.2.2.2.2⟩
  · rw [h.1]
  · rw [h.2.2.1]; rfl

/-! ### Validation of the system by the constructors -/

namespace DirectTranscription

theorem addDynamicConstraints_sizes [RatCast T] [Zero T] (self dt : DirectTranscription T)
    (system : DoubleSystem T) (context : Context ℚ) (input_port_index : InputPortChoice)
    (h : self.addDynamicConstraints system context input_port_index = .ok dt) :
    dt.num_states = self.num_states ∧ dt.num_inputs = self.num_inputs := by
  rcases addDynamicConstraints_of_ok self dt system context input_port_index h with
    ⟨_, _, hms⟩ | ⟨_, hms⟩
  · constructor
    · show dt.toMultipleShooting.num_states = self.num_states
      rw [hms]
    · show dt.toMultipleShooting.num_inputs = self.num_inputs
      rw [hms]
  · constructor
    · show dt.toMultipleShooting.num_states = self.num_states
      rw [hms]
    · show dt.toMultipleShooting.num_inputs = self.num_inputs
      rw [hms]

theorem demandInputSize_of_ok (self : DirectTranscription T) (system : System ℚ)
    (context : Context ℚ) (input_port_index : InputPortChoice)
    (h : self.demandInputSize system context input_port_index = .ok ()) :
    0 < context.num_input_ports →
      get_input_port_size system input_port_index = .ok self.num_inputs := by
  intro hports
  unfold demandInputSize at h
  simp only [hports, if_true] at h
  cases hsize : get_input_port_size system input_port_index with
  | error e => rw [hsize] at h; simp at h
  | ok size =>
    rw [hsize] at h
    simp only [DRAKE_DEMAND] at h
    by_cases heq : self.num_inputs = size
    · rw [heq]
    · have : (self.num_inputs == size) = false := by simpa using heq
      rw [this] at h
      simp at h

theorem DirectTranscription_discrete_validates [RatCast T] [Zero T] (system : DoubleSystem T)
    (context : Context ℚ) (N : Nat) (input_port_index : InputPortChoice)
    (num_inputs : Nat) (period : ℚ) (base : MultipleShooting)
    (hni : get_input_port_size system.toSystem input_port_index = .ok num_inputs)
    (hper : get_period system.toSystem = .ok period)
    (hbase : MultipleShooting.init num_inputs context.num_total_states N period = .ok base) :
    (∀ e, (ofBase base true : DirectTranscription T).ValidateSystem system.toSystem context
        input_port_index = .error e →
      (DirectTranscription_discrete system context N input_port_index :
        Except Error (DirectTranscription T)) = .error e) ∧
    ((ofBase base true : DirectTranscription T).ValidateSystem system.toSystem context
        input_port_index = .ok () →
      (DirectTranscription_discrete system context N input_port_index :
        Except Error (DirectTranscription T)) =
        (ofBase base true : DirectTranscription T).addDynamicConstraints system context
          input_port_index) := by
  unfold DirectTranscription_discrete
  simp only [hni, hper, hbase]
  constructor
  · intro e he
    rw [he]
  · intro hok
    rw [hok]

theorem DirectTranscription_linear_validates (system : TimeVaryingLinearSystem T)
    (context : Context ℚ) (N : Nat) (input_port_index : InputPortChoice)
    (num_inputs : Nat) (base : MultipleShooting)
    (hni : get_input_port_size system.toSystem input_port_index = .ok num_inputs)
    (hbase : MultipleShooting.init num_inputs context.num_total_states N
      (max system.time_period epsilon) = .ok base) :
    (context.has_only_discrete_state = false →
      (DirectTranscription_linear system context N input_port_index :
        Except Error (DirectTranscription T)) = .error .invalid_argument) ∧
    (∀ e, context.has_only_discrete_state = true →
      (ofBase base true : DirectTranscription T).ValidateSystem system.toSystem context
        input_port_index = .error e →
      (DirectTranscription_linear system context N input_port_index :
        Except Error (DirectTranscription T)) = .error e) := by
  unfold DirectTranscription_linear
  simp only [hni, hbase]
  constructor
  · intro hd
    simp [hd]
  · intro e hd he
    simp [hd, he]

theorem DirectTranscription_continuous_validates [RatCast T] [Zero T] (system : DoubleSystem T)
    (context : Context ℚ) (N : Nat) (fixed_time_step : ℚ) (input_port_index : InputPortChoice)
    (num_inputs : Nat) (base : MultipleShooting)
    (hni : get_input_port_size system.toSystem input_port_index = .ok num_inputs)
    (hbase : MultipleShooting.init num_inputs context.num_total_states N fixed_time_step =
      .ok base) :
    (context.has_only_continuous_state = false →
      (DirectTranscription_continuous system context N fixed_time_step input_port_index :
        Except Error (DirectTranscription T)) = .error .invalid_argument) ∧
    (∀ e, context.has_only_continuous_state = true →
      (ofBase base false : DirectTranscription T).demandInputSize system.toSystem context
        input_port_index = .error e →
      (DirectTranscription_continuous system context N fixed_time_step input_port_index :
        Except Error (DirectTranscription T)) = .error e) ∧
    (context.has_only_continuous_state = true →
      (ofBase base false : DirectTranscription T).demandInputSize system.toSystem context
        input_port_index = .ok () →
      (DirectTranscription_continuous system context N fixed_time_step input_port_index :
        Except Error (DirectTranscription T)) =
        (ofBase base false : DirectTranscription T).addDynamicConstraints system context
          input_port_index) := by
  have hstep : 0 < fixed_time_step := by
    by_contra hneg
    rw [MultipleShooting.init_error_of_step _ _ _ _ (not_lt.mp hneg)] at hbase
    simp at hbase
  unfold DirectTranscription_continuous
  simp only [hni, hbase]
  refine ⟨?_, ?_, ?_⟩
  · intro hc
    simp [hc]
  · intro e hc he
    simp [hc, he, DRAKE_DEMAND, hstep]
  · intro hc hok
    simp [hc, hok, DRAKE_DEMAND, hstep]

theorem DirectTranscription_continuous_of_ok_input [RatCast T] [Zero T]
    (system : DoubleSystem T) (context : Context ℚ) (N : Nat) (fixed_time_step : ℚ)
    (input_port_index : InputPortChoice) (dt : DirectTranscription T)
    (h : DirectTranscription_continuous system context N fixed_time_step input_port_index =
      .ok dt) :
    ∃ num_inputs base,
      get_input_port_size system.toSystem input_port_index = .ok num_inputs ∧
      MultipleShooting.init num_inputs context.num_total_states N fixed_time_step = .ok base ∧
      context.has_only_continuous_state = true ∧
      (ofBase base false : DirectTranscription T).demandInputSize system.toSystem context
        input_port_index = .ok () ∧
      (ofBase base false : DirectTranscription T).addDynamicConstraints system context
        input_port_index = .ok dt := by
  obtain ⟨ni, base, hni, hbase, hc, hadd⟩ :=
    DirectTranscription_continuous_of_ok system context N fixed_time_step input_port_index dt h
  refine ⟨ni, base, hni, hbase, hc, ?_, hadd⟩
  rcases hd : (ofBase base false : DirectTranscription T).demandInputSize system.toSystem context
      input_port_index with e | u
  · rw [(DirectTranscription_continuous_validates system context N fixed_time_step
      input_port_index ni base hni hbase).2.1 e hc hd] at h
    simp at h
  · rfl

end DirectTranscription

theorem Context.num_total_states_of_continuous (context : Context ℚ)
    (h : context.has_only_continuous_state = true) :
    context.num_total_states = context.continuous_state.length := by
  simp only [Context.has_only_continuous_state, Context.num_discrete_state_groups,
    Bool.and_eq_true, beq_iff_eq, decide_eq_true_eq] at h
  have hnil : context.discrete_state = [] := List.length_eq_zero.mp h.1.2
  simp [Context.num_total_states, hnil]

/-- C20: every constructor validates the system on the builder left by the base
constructor, whose program holds no constraint yet, and a failed validation is the
outcome of the constructor. A built problem of the two discrete modes has a
difference-equation system with `num_states` the size of discrete state group 0;
a built problem of the continuous mode has a context with only continuous state
and `num_states` the size of its continuous state; in every mode, when the context
has an input port, `num_inputs` is the size of the selected input port. A system
that is not a difference-equation system, a state size other than that of group 0,
or (continuous mode) a context that has not only continuous state each make the
construction fail. -/
theorem constructors_validate_system [RatCast T] [Zero T] (system : DoubleSystem T)
    (linear : TimeVaryingLinearSystem T) (context : Context ℚ) (N : Nat) (fixed_time_step : ℚ)
    (input_port_index : InputPortChoice) :
    (∀ dt, DirectTranscription.DirectTranscription_discrete system context N input_port_index =
        .ok dt →
      system.IsDifferenceEquationSystem = true ∧
      dt.num_states = context.num_total_states ∧
      (∃ xd, context.get_discrete_state 0 = .ok xd ∧ dt.num_states = xd.length) ∧
      (0 < context.num_input_ports →
        get_input_port_size system.toSystem input_port_index = .ok dt.num_inputs)) ∧
    (∀ dt, DirectTranscription.DirectTranscription_linear linear context N input_port_index =
        .ok dt →
      linear.IsDifferenceEquationSystem = true ∧
      dt.num_states = context.num_total_states ∧
      (∃ xd, context.get_discrete_state 0 = .ok xd ∧ dt.num_states = xd.length) ∧
      (0 < context.num_input_ports →
        get_input_port_size linear.toSystem input_port_index = .ok dt.num_inputs)) ∧
    (∀ dt, DirectTranscription.DirectTranscription_continuous system context N fixed_time_step
        input_port_index = .ok dt →
      context.has_only_continuous_state = true ∧
      dt.num_states = context.num_total_states ∧
      dt.num_states = context.continuous_state.length ∧
      (0 < context.num_input_ports →
        get_input_port_size system.toSystem input_port_index = .ok dt.num_inputs)) ∧
    (∀ num_inputs period base,
      get_input_port_size system.toSystem input_port_index = .ok num_inputs →
      get_period system.toSystem = .ok period →
      MultipleShooting.init num_inputs context.num_total_states N period = .ok base →
      base.prog.linear_equality_constraints = [] ∧ base.prog.generic_constraints = [] ∧
      (∀ e, (DirectTranscription.ofBase base true : DirectTranscription T).ValidateSystem
          system.toSystem context input_port_index = .error e →
        DirectTranscription.DirectTranscription_discrete system context N input_port_index =
          .error e) ∧
      ((DirectTranscription.ofBase base true : DirectTranscription T).ValidateSystem
          system.toSystem context input_port_index = .ok () →
        DirectTranscription.DirectTranscription_discrete system context N input_port_index =
          (DirectTranscription.ofBase base true : DirectTranscription T).addDynamicConstraints
            system context input_port_index)) ∧
    (∀ num_inputs base,
      get_input_port_size linear.toSystem input_port_index = .ok num_inputs →
      MultipleShooting.init num_inputs context.num_total_states N
        (max linear.time_period DirectTranscription.epsilon) = .ok base →
      base.prog.linear_equality_constraints = [] ∧ base.prog.generic_constraints = [] ∧
      ∀ e, context.has_only_discrete_state = true →
        (DirectTranscription.ofBase base true : DirectTranscription T).ValidateSystem
          linear.toSystem context input_port_index = .error e →
        DirectTranscription.DirectTranscription_linear linear context N input_port_index =
          .error e) ∧
    (∀ num_inputs base,
      get_input_port_size system.toSystem input_port_index = .ok num_inputs →
      MultipleShooting.init num_inputs context.num_total_states N fixed_time_step = .ok base →
      base.prog.linear_equality_constraints = [] ∧ base.prog.generic_constraints = [] ∧
      (context.has_only_continuous_state = false →
        DirectTranscription.DirectTranscription_continuous system context N fixed_time_step
          input_port_index = .error .invalid_argument) ∧
      (∀ e, context.has_only_continuous_state = true →
        (DirectTranscription.ofBase base false : DirectTranscription T).demandInputSize
          system.toSystem context input_port_index = .error e →
        DirectTranscription.DirectTranscription_continuous system context N fixed_time_step
          input_port_index = .error e) ∧
      (context.has_only_continuous_state = true →
        (DirectTranscription.ofBase base false : DirectTranscription T).demandInputSize
          system.toSystem context input_port_index = .ok () →
        DirectTranscription.DirectTranscription_continuous system context N fixed_time_step
          input_port_index =
          (DirectTranscription.ofBase base false : DirectTranscription T).addDynamicConstraints
            system context input_port_index)) ∧
    (system.IsDifferenceEquationSystem = false →
      ∀ dt, DirectTranscription.DirectTranscription_discrete system context N input_port_index ≠
        .ok dt) ∧
    (linear.IsDifferenceEquationSystem = false →
      ∀ dt, DirectTranscription.DirectTranscription_linear linear context N input_port_index ≠
        .ok dt) ∧
    ((∀ xd, context.get_discrete_state 0 = .ok xd → context.num_total_states ≠ xd.length) →
      ∀ dt,
        DirectTranscription.DirectTranscription_discrete system context N input_port_index ≠
          .ok dt ∧
        DirectTranscription.DirectTranscription_linear linear context N input_port_index ≠
          .ok dt) ∧
    (context.has_only_continuous_state = false →
      ∀ dt, DirectTranscription.DirectTranscription_continuous system context N fixed_time_step
        input_port_index ≠ .ok dt) := by
  have hdisc : ∀ dt,
      DirectTranscription.DirectTranscription_discrete system context N input_port_index =
        .ok dt →
      system.IsDifferenceEquationSystem = true ∧
      dt.num_states = context.num_total_states ∧
      (∃ xd, context.get_discrete_state 0 = .ok xd ∧ dt.num_states = xd.length) ∧
      (0 < context.num_input_ports →
        get_input_port_size system.toSystem input_port_index = .ok dt.num_inputs) := by
    intro dt h
    obtain ⟨ni, period, base, hni, hper, hbase, hval, hadd⟩ :=
      DirectTranscription.DirectTranscription_discrete_of_ok system context N input_port_index
        dt h
    obtain ⟨hdiff, ⟨xd, hxd, hlen⟩, hport⟩ :=
      DirectTranscription.ValidateSystem_of_ok _ _ _ _ hval
    obtain ⟨hs, hi⟩ := DirectTranscription.addDynamicConstraints_sizes _ _ _ _ _ hadd
    have hb := (MultipleShooting.init_of_ok hbase).1
    have hns : (DirectTranscription.ofBase base true : DirectTranscription T).num_states =
        context.num_total_states := by rw [hb]; rfl
    refine ⟨hdiff, by rw [hs, hns], ⟨xd, hxd, by rw [hs]; exact hlen⟩, ?_⟩
    intro hp
    rw [hi]
    exact hport hp
  have hlin : ∀ dt,
      DirectTranscription.DirectTranscription_linear linear context N input_port_index =
        .ok dt →
      linear.IsDifferenceEquationSystem = true ∧
      dt.num_states = context.num_total_states ∧
      (∃ xd, context.get_discrete_state 0 = .ok xd ∧ dt.num_states = xd.length) ∧
      (0 < context.num_input_ports →
        get_input_port_size linear.toSystem input_port_index = .ok dt.num_inputs) := by
    intro dt h
    obtain ⟨ni, hni, _, _, hval, hi, hs, _⟩ :=
      DirectTranscription.DirectTranscription_linear_fields linear context N input_port_index
        dt h
    obtain ⟨hdiff, ⟨xd, hxd, hlen⟩, hport⟩ :=
      DirectTranscription.ValidateSystem_of_ok _ _ _ _ hval
    refine ⟨hdiff, hs, ⟨xd, hxd, by rw [hs]; exact hlen⟩, ?_⟩
    intro hp
    rw [hi]
    exact hport hp
  have hcont : ∀ dt,
      DirectTranscription.DirectTranscription_continuous system context N fixed_time_step
        input_port_index = .ok dt →
      context.has_only_continuous_state = true ∧
      dt.num_states = context.num_total_states ∧
      dt.num_states = context.continuous_state.length ∧
      (0 < context.num_input_ports →
        get_input_port_size system.toSystem input_port_index = .ok dt.num_inputs) := by
    intro dt h
    obtain ⟨ni, base, hni, hbase, hc, hdem, hadd⟩ :=
      DirectTranscription.DirectTranscription_continuous_of_ok_input system context N
        fixed_time_step input_port_index dt h
    obtain ⟨hs, hi⟩ := DirectTranscription.addDynamicConstraints_sizes _ _ _ _ _ hadd
    have hb := (MultipleShooting.init_of_ok hbase).1
    have hns : (DirectTranscription.ofBase base false : DirectTranscription T).num_states =
        context.num_total_states := by rw [hb]; rfl
    refine ⟨hc, by rw [hs, hns],
      by rw [hs, hns]; exact Context.num_total_states_of_continuous context hc, ?_⟩
    intro hp
    rw [hi]
    exact DirectTranscription.demandInputSize_of_ok _ _ _ _ hdem hp
  refine ⟨hdisc, hlin, hcont, ?_, ?_, ?_, ?_, ?_, ?_, ?_⟩
  · intro ni period base hni hper hbase
    have hb := (MultipleShooting.init_of_ok hbase).1
    exact ⟨by rw [hb], by rw [hb],
      DirectTranscription.DirectTranscription_discrete_validates system context N
        input_port_index ni period base hni hper hbase⟩
  · intro ni base hni hbase
    have hb := (MultipleShooting.init_of_ok hbase).1
    exact ⟨by rw [hb], by rw [hb],
      (DirectTranscription.DirectTranscription_linear_validates linear context N
        input_port_index ni base hni hbase).2⟩
  · intro ni base hni hbase
    have hb := (MultipleShooting.init_of_ok hbase).1
    exact ⟨by rw [hb], by rw [hb],
      DirectTranscription.DirectTranscription_continuous_validates system context N
        fixed_time_step input_port_index ni base hni hbase⟩
  · intro hfalse dt h
    rw [(hdisc dt h).1] at hfalse
    simp at hfalse
  · intro hfalse dt h
    rw [(hlin dt h).1] at hfalse
    simp at hfalse
  · intro hne dt
    constructor
    · intro h
      obtain ⟨_, hs, ⟨xd, hxd, hlen⟩, _⟩ := hdisc dt h
      exact hne xd hxd (by rw [← hs]; exact hlen)
    · intro h
      obtain ⟨_, hs, ⟨xd, hxd, hlen⟩, _⟩ := hlin dt h
      exact hne xd hxd (by rw [← hs]; exact hlen)
  · intro hfalse dt h
    rw [(hcont dt h).1] at hfalse
    simp at hfalse

/-- Witness for C20: the discrete scenario with `N = 5` is built, with one state
(the size of discrete state group 0) and one input (the size of the first port). -/
theorem constructors_validate_system_witness :
    ∃ dt, (DirectTranscription.DirectTranscription_discrete (scenario.discreteSystem true)
        (scenario.discreteSystemOn ℚ).CreateDefaultContext 5 scenario.firstInput :
          Except Error (DirectTranscription ℚ)) = .ok dt ∧
      (scenario.discreteSystem true).IsDifferenceEquationSystem = true ∧
      dt.num_states = 1 ∧
      get_input_port_size (scenario.discreteSystem true).toSystem scenario.firstInput =
        .ok dt.num_inputs := by
  obtain ⟨dt, hdt⟩ := scenario.discrete_built
  obtain ⟨h1, h2, _, h4⟩ := (constructors_validate_system (scenario.discreteSystem true)
    (scenario.linearSystem 1) (scenario.discreteSystemOn ℚ).CreateDefaultContext 5 (1 / 10)
    scenario.firstInput).1 dt hdt
  exact ⟨dt, hdt, h1, by rw [h2]; rfl, h4 (by decide)⟩

/-! ### History independence of sequential evaluation -/

theorem Context.SameUnwritten.modes {handle : Option Nat} {a b : Context T}
    (h : Context.SameUnwritten handle a b) :
    a.has_only_continuous_state = b.has_only_continuous_state ∧
      a.has_only_discrete_state = b.has_only_discrete_state ∧
      a.num_input_ports = b.num_input_ports := by
  obtain ⟨hc, hd, -, ha, -, hp, -⟩ := h
  have hlen : (0 < a.continuous_state.length) ↔ (0 < b.continuous_state.length) := by
    rw [List.length_pos, List.length_pos]
    exact not_congr hc
  have hzero : (a.continuous_state.length = 0) ↔ (b.continuous_state.length = 0) := by
    rw [List.length_eq_zero, List.length_eq_zero]
    exact hc
  refine ⟨?_, ?_, hp⟩
  · simp only [Context.has_only_continuous_state, Context.num_continuous_states,
      Context.num_discrete_state_groups, hd, ha, decide_eq_decide.mpr hlen]
  · have hb : (a.continuous_state.length == 0) = (b.continuous_state.length == 0) := by
      rw [Bool.eq_iff_iff]
      simpa using hzero
    simp only [Context.has_only_discrete_state, Context.num_continuous_states,
      Context.num_discrete_state_groups, hd, ha, hb]

theorem List.set_zero_eq_of_drop {α : Type} (l1 l2 : List α) (v : α)
    (hlen : l1.length = l2.length) (hdrop : l1.drop 1 = l2.drop 1) :
    l1.set 0 v = l2.set 0 v := by
  cases l1 with
  | nil =>
    cases l2 with
    | nil => rfl
    | cons _ _ => simp at hlen
  | cons a as =>
    cases l2 with
    | nil => simp at hlen
    | cons b bs =>
      simp only [List.drop_succ_cons, List.drop_zero] at hdrop
      simp [hdrop]

namespace DirectTranscriptionConstraint

/-- The context written by an evaluation before the dynamics are computed is the
same from two prior contents that differ at most in what is overwritten. -/
theorem written_context_eq [RatCast T] (c : DirectTranscriptionConstraint) (x : List T)
    (a b : Context T)
    (hmode : a.has_only_discrete_state = true ∨ a.has_only_continuous_state = true)
    (hsame : Context.SameUnwritten c.input_port_value_ a b) :
    (∀ e, c.writeTimeAndInput x a = .error e → c.writeTimeAndInput x b = .error e) ∧
    (∀ wa, c.writeTimeAndInput x a = .ok wa →
      ∃ wb, c.writeTimeAndInput x b = .ok wb ∧
        wa.has_only_continuous_state = a.has_only_continuous_state ∧
        wb.has_only_continuous_state = a.has_only_continuous_state ∧
        (a.has_only_continuous_state = true →
          ∀ s, wa.SetContinuousState s = wb.SetContinuousState s) ∧
        (a.has_only_continuous_state = false →
          ∀ s, wa.SetDiscreteState 0 s = wb.SetDiscreteState 0 s)) := by
  obtain ⟨hcm, hdm, hpm⟩ := hsame.modes
  obtain ⟨hc, hd, hdrop, ha, hpar, hp, hset⟩ := hsame
  have hna : (a.SetTime (c.evaluation_time_ : T)).num_input_ports = a.num_input_ports := rfl
  have hnb : (b.SetTime (c.evaluation_time_ : T)).num_input_ports = b.num_input_ports := rfl
  unfold writeTimeAndInput
  simp only [hna, hnb, ← hpm]
  by_cases hports : 0 < a.num_input_ports
  · simp only [hports, if_true]
    cases hh : c.input_port_value_ with
    | none => simp
    | some port =>
      have hfix := hset port hh
      have hfix2 : ∀ v : List T, a.fixed_input_port_values.set port (some v) =
          b.fixed_input_port_values.set port (some v) := by
        intro v
        have := congrArg (fun l => l.set port (some v)) hfix
        simpa [List.set_set] using this
      refine ⟨by simp, ?_⟩
      intro wa hwa
      simp only [Except.ok.injEq] at hwa
      subst hwa
      refine ⟨_, rfl, rfl, ?_, ?_, ?_⟩
      · show b.has_only_continuous_state = a.has_only_continuous_state
        exact hcm.symm
      · intro hcont s
        have hdisc : a.discrete_state = [] ∧ b.discrete_state = [] := by
          simp only [Context.has_only_continuous_state, Context.num_discrete_state_groups,
            Bool.and_eq_true, beq_iff_eq, decide_eq_true_eq] at hcont
          have h0 := hcont.1.2
          exact ⟨List.length_eq_zero.mp h0, List.length_eq_zero.mp (hd ▸ h0)⟩
        simp only [Context.SetTime, Context.FixValue, Context.SetContinuousState, hfix2,
          hdisc.1, hdisc.2, ha, hpar]
      · intro hcont s
        have hdisc : a.has_only_discrete_state = true := by
          rcases hmode with h | h
          · exact h
          · rw [hcont] at h; exact absurd h (by simp)
        have hnil : a.continuous_state = [] ∧ b.continuous_state = [] := by
          simp only [Context.has_only_discrete_state, Context.num_continuous_states,
            Bool.and_eq_true, beq_iff_eq, decide_eq_true_eq] at hdisc
          have h0 := List.length_eq_zero.mp hdisc.1.1
          exact ⟨h0, hc.mp h0⟩
        simp only [Context.SetTime, Context.FixValue, Context.SetDiscreteState, hfix2,
          hnil.1, hnil.2, ha, hpar, List.set_zero_eq_of_drop _ _ s hd hdrop]
  · simp only [hports, if_false]
    have hnila : a.fixed_input_port_values = [] :=
      List.length_eq_zero.mp (by simpa [Context.num_input_ports] using hports)
    have hnilb : b.fixed_input_port_values = [] :=
      List.length_eq_zero.mp (by rw [← hp]; simpa [Context.num_input_ports] using hports)
    refine ⟨by simp, ?_⟩
    intro wa hwa
    simp only [Except.ok.injEq] at hwa
    subst hwa
    refine ⟨_, rfl, rfl, ?_, ?_, ?_⟩
    · show b.has_only_continuous_state = a.has_only_continuous_state
      exact hcm.symm
    · intro hcont s
      have hdisc : a.discrete_state = [] ∧ b.discrete_state = [] := by
        simp only [Context.has_only_continuous_state, Context.num_discrete_state_groups,
          Bool.and_eq_true, beq_iff_eq, decide_eq_true_eq] at hcont
        have h0 := hcont.1.2
        exact ⟨List.length_eq_zero.mp h0, List.length_eq_zero.mp (hd ▸ h0)⟩
      simp only [Context.SetTime, Context.SetContinuousState, hnila, hnilb,
        hdisc.1, hdisc.2, ha, hpar]
    · intro hcont s
      have hdisc : a.has_only_discrete_state = true := by
        rcases hmode with h | h
        · exact h
        · rw [hcont] at h; exact absurd h (by simp)
      have hnil : a.continuous_state = [] ∧ b.continuous_state = [] := by
        simp only [Context.has_only_discrete_state, Context.num_continuous_states,
          Bool.and_eq_true, beq_iff_eq, decide_eq_true_eq] at hdisc
        have h0 := List.length_eq_zero.mp hdisc.1.1
        exact ⟨h0, hc.mp h0⟩
      simp only [Context.SetTime, Context.SetDiscreteState, hnila, hnilb,
        hnil.1, hnil.2, ha, hpar, List.set_zero_eq_of_drop _ _ s hd hdrop]

end DirectTranscriptionConstraint

namespace DirectTranscriptionConstraint

/-- The residual does not depend on what the shared context held in the parts an
evaluation overwrites. -/
theorem DoEval_eq_of_sameUnwritten [Add T] [Sub T] [Mul T] [RatCast T]
    (c : DirectTranscriptionConstraint) (x : List T) (integ1 integ2 : IntegratorBase T)
    (hsys : integ1.system = integ2.system)
    (hmode : integ1.context.has_only_discrete_state = true ∨
      integ1.context.has_only_continuous_state = true)
    (hsame : Context.SameUnwritten c.input_port_value_ integ1.context integ2.context) :
    (c.DoEval x integ1).2 = (c.DoEval x integ2).2 := by
  obtain ⟨herr, hok⟩ := written_context_eq c x integ1.context integ2.context hmode hsame
  unfold DoEval
  rcases hw : c.writeTimeAndInput x integ1.context with e | wa
  · rw [herr e hw]
  · obtain ⟨wb, hwb, hma, hmb, hcs, hds⟩ := hok wa hw
    rw [hwb]
    simp only [hma, hmb]
    cases hcont : integ1.context.has_only_continuous_state
    · simp only [Bool.false_eq_true, if_false, hds hcont, hsys]
      generalize DiscreteValues.get_vector _ 0 = r
      cases r <;> rfl
    · simp only [if_true, IntegratorBase.IntegrateWithSingleFixedStepToTime, DRAKE_THROW_UNLESS,
        hcs hcont, hsys]

/-- An evaluation leaves the system of the shared integrator alone. -/
theorem DoEval_system [Add T] [Sub T] [Mul T] [RatCast T]
    (c : DirectTranscriptionConstraint) (x : List T) (integ : IntegratorBase T) :
    (c.DoEval x integ).1.system = integ.system := by
  unfold DoEval
  rcases hw : c.writeTimeAndInput x integ.context with e | wa
  · rfl
  · simp only
    split
    · simp only [IntegratorBase.IntegrateWithSingleFixedStepToTime, DRAKE_THROW_UNLESS, if_true]
    · split <;> rfl

theorem writeTimeAndInput_frame [RatCast T] (c : DirectTranscriptionConstraint) (x : List T)
    (context w : Context T) (hw : c.writeTimeAndInput x context = .ok w) :
    w.continuous_state = context.continuous_state ∧
      w.discrete_state = context.discrete_state ∧
      w.num_abstract_states = context.num_abstract_states ∧
      w.parameters = context.parameters ∧
      (w.fixed_input_port_values = context.fixed_input_port_values ∨
        ∃ p v, c.input_port_value_ = some p ∧
          w.fixed_input_port_values = context.fixed_input_port_values.set p (some v)) := by
  unfold writeTimeAndInput at hw
  have hn : (context.SetTime (c.evaluation_time_ : T)).num_input_ports =
      context.num_input_ports := rfl
  simp only [hn] at hw
  by_cases hports : 0 < context.num_input_ports
  · simp only [hports, if_true] at hw
    cases hh : c.input_port_value_ with
    | none => rw [hh] at hw; simp at hw
    | some p =>
      rw [hh] at hw
      simp only [Except.ok.injEq] at hw
      subst hw
      exact ⟨rfl, rfl, rfl, rfl, Or.inr ⟨p, _, rfl, rfl⟩⟩
  · simp only [hports, if_false, Except.ok.injEq] at hw
    subst hw
    exact ⟨rfl, rfl, rfl, rfl, Or.inl rfl⟩

theorem DoEval_context_cases [Add T] [Sub T] [Mul T] [RatCast T]
    (c : DirectTranscriptionConstraint) (x : List T) (integ : IntegratorBase T) :
    (∀ e, c.writeTimeAndInput x integ.context = .error e →
      (c.DoEval x integ).1.context = integ.context.SetTime (c.evaluation_time_ : T)) ∧
    (∀ w, c.writeTimeAndInput x integ.context = .ok w →
      w.has_only_continuous_state = false →
      (c.DoEval x integ).1.context = w.SetDiscreteState 0 (c.state x)) ∧
    (∀ w, c.writeTimeAndInput x integ.context = .ok w →
      w.has_only_continuous_state = true →
      (c.DoEval x integ).1.context.discrete_state = w.discrete_state ∧
      (c.DoEval x integ).1.context.num_abstract_states = w.num_abstract_states ∧
      (c.DoEval x integ).1.context.parameters = w.parameters ∧
      (c.DoEval x integ).1.context.fixed_input_port_values = w.fixed_input_port_values) := by
  unfold DoEval
  refine ⟨?_, ?_, ?_⟩
  · intro e hw
    rw [hw]
  · intro w hw hc
    rw [hw]
    simp only [hc, Bool.false_eq_true, if_false]
    generalize DiscreteValues.get_vector _ 0 = r
    cases r <;> rfl
  · intro w hw hc
    rw [hw]
    simp only [hc, if_true, IntegratorBase.IntegrateWithSingleFixedStepToTime, DRAKE_THROW_UNLESS]
    exact ⟨rfl, rfl, rfl, rfl⟩

/-- What an evaluation leaves in the shared context differs from what it found at
most in the parts every evaluation overwrites, provided the continuous state it
leaves in continuous mode is not empty (the state has a fixed size in the
source). -/
theorem DoEval_context_sameUnwritten [Add T] [Sub T] [Mul T] [RatCast T]
    (c : DirectTranscriptionConstraint) (x : List T) (integ : IntegratorBase T)
    (hres : integ.context.has_only_continuous_state = true →
      (c.DoEval x integ).1.context.continuous_state ≠ []) :
    Context.SameUnwritten c.input_port_value_ integ.context (c.DoEval x integ).1.context := by
  have hcontne : integ.context.has_only_continuous_state = true →
      integ.context.continuous_state ≠ [] := by
    intro hcont
    simp only [Context.has_only_continuous_state, Context.num_continuous_states,
      Bool.and_eq_true, beq_iff_eq, decide_eq_true_eq] at hcont
    exact List.length_pos.mp hcont.1.1
  obtain ⟨herr, hdisc, hcont⟩ := DoEval_context_cases c x integ
  rcases hw : c.writeTimeAndInput x integ.context with e | w
  · rw [herr e hw]
    exact ⟨Iff.rfl, rfl, rfl, rfl, rfl, rfl, fun _ _ => rfl⟩
  · obtain ⟨hwc, hwd, hwa, hwp, hwf⟩ := writeTimeAndInput_frame c x integ.context w hw
    have hmode : w.has_only_continuous_state = integ.context.has_only_continuous_state := by
      simp only [Context.has_only_continuous_state, Context.num_continuous_states,
        Context.num_discrete_state_groups, hwc, hwd, hwa]
    have hports : integ.context.fixed_input_port_values.length =
          w.fixed_input_port_values.length ∧
        ∀ port, c.input_port_value_ = some port →
          integ.context.fixed_input_port_values.set port none =
            w.fixed_input_port_values.set port none := by
      rcases hwf with h | ⟨p, v, hp, h⟩
      · rw [h]
        exact ⟨rfl, fun _ _ => rfl⟩
      · rw [h]
        refine ⟨by simp, fun port hport => ?_⟩
        rw [hp] at hport
        cases hport
        rw [List.set_set]
    cases hc : w.has_only_continuous_state
    · rw [hdisc w hw hc]
      refine ⟨by simp [Context.SetDiscreteState, hwc], by simp [Context.SetDiscreteState, hwd],
        ?_, by simp [Context.SetDiscreteState, hwa], by simp [Context.SetDiscreteState, hwp],
        hports.1, hports.2⟩
      simp only [Context.SetDiscreteState, hwd]
      cases integ.context.discrete_state <;> simp
    · obtain ⟨h1, h2, h3, h4⟩ := hcont w hw hc
      rw [hmode] at hc
      refine ⟨⟨fun h => absurd h (hcontne hc), fun h => absurd h (hres hc)⟩, by rw [h1, hwd],
        by rw [h1, hwd], by rw [h2, hwa], by rw [h3, hwp], by rw [h4]; exact hports.1, ?_⟩
      rw [h4]
      exact hports.2

end DirectTranscriptionConstraint

theorem Context.sameUnwritten_withHistory (context : Context T) (handle : Option Nat) (t : T)
    (state input : List T)
    (hstate : context.has_only_continuous_state = true → state ≠ []) :
    Context.SameUnwritten handle context (context.withHistory handle t state input) := by
  have hcontne : context.has_only_continuous_state = true → context.continuous_state ≠ [] := by
    intro hcont
    simp only [Context.has_only_continuous_state, Context.num_continuous_states,
      Bool.and_eq_true, beq_iff_eq, decide_eq_true_eq] at hcont
    exact List.length_pos.mp hcont.1.1
  unfold Context.withHistory
  cases handle with
  | none =>
    have hm : (context.SetTime t).has_only_continuous_state =
        context.has_only_continuous_state := rfl
    simp only [hm]
    cases hc : context.has_only_continuous_state
    · simp only [Bool.false_eq_true, if_false]
      refine ⟨Iff.rfl, by simp [Context.SetDiscreteState, Context.SetTime], ?_, rfl, rfl, rfl,
        fun _ _ => rfl⟩
      simp only [Context.SetDiscreteState, Context.SetTime]
      cases context.discrete_state <;> simp
    · simp only [if_true]
      exact ⟨⟨fun h => absurd h (hcontne hc), fun h => absurd h (hstate hc)⟩, rfl, rfl, rfl, rfl,
        rfl, fun _ _ => rfl⟩
  | some p =>
    have hm : ((context.SetTime t).FixValue p input).has_only_continuous_state =
        context.has_only_continuous_state := rfl
    simp only [hm]
    cases hc : context.has_only_continuous_state
    · simp only [Bool.false_eq_true, if_false]
      refine ⟨Iff.rfl, by simp [Context.SetDiscreteState, Context.FixValue, Context.SetTime],
        ?_, rfl, rfl, by simp [Context.SetDiscreteState, Context.FixValue, Context.SetTime],
        fun port hp => ?_⟩
      · simp only [Context.SetDiscreteState, Context.FixValue, Context.SetTime]
        cases context.discrete_state <;> simp
      · simp only [Option.some.injEq] at hp
        subst hp
        simp [Context.SetDiscreteState, Context.FixValue, Context.SetTime, List.set_set]
    · simp only [if_true]
      refine ⟨⟨fun h => absurd h (hcontne hc), fun h => absurd h (hstate hc)⟩, rfl, rfl, rfl,
        rfl, by simp [Context.SetContinuousState, Context.FixValue, Context.SetTime],
        fun port hp => ?_⟩
      simp only [Option.some.injEq] at hp
      subst hp
      simp [Context.SetContinuousState, Context.FixValue, Context.SetTime, List.set_set]

/-- C21: `DoEval` overwrites the time, the input value (when there is an input port)
and the state of the shared context before it computes, so the residual a
constraint returns for a stacked vector does not depend on what those held
before. For a shared context with only discrete or only continuous state (the
demand of the constraint's constructor): the residual is the same from every
other content of the context that differs at most in the time, the state and
the handle's input value; in particular from the context with arbitrary time,
state and input value written into it; and evaluating a constraint `ci` first and
then a constraint `cj` that shares its handle returns for `cj` what evaluating `cj`
alone returns (in continuous mode the state left by `ci` being non-empty, its
size being fixed in the source). -/
theorem DoEval_history_independent [Add T] [Sub T] [Mul T] [RatCast T]
    (cj ci : DirectTranscriptionConstraint) (xj xi : List T) (integrator : IntegratorBase T)
    (hmode : integrator.context.has_only_discrete_state = true ∨
      integrator.context.has_only_continuous_state = true) :
    (∀ other : IntegratorBase T, other.system = integrator.system →
      Context.SameUnwritten cj.input_port_value_ integrator.context other.context →
      (cj.DoEval xj other).2 = (cj.DoEval xj integrator).2) ∧
    (∀ (t : T) (state input : List T),
      (integrator.context.has_only_continuous_state = true → state ≠ []) →
      (cj.DoEval xj
        { integrator with
          context := integrator.context.withHistory cj.input_port_value_ t state input }).2 =
        (cj.DoEval xj integrator).2) ∧
    (ci.input_port_value_ = cj.input_port_value_ →
      (integrator.context.has_only_continuous_state = true →
        (ci.DoEval xi integrator).1.context.continuous_state ≠ []) →
      (cj.DoEval xj (ci.DoEval xi integrator).1).2 = (cj.DoEval xj integrator).2) := by
  refine ⟨?_, ?_, ?_⟩
  · intro other hsys hsame
    exact (DirectTranscriptionConstraint.DoEval_eq_of_sameUnwritten cj xj integrator other
      hsys.symm hmode hsame).symm
  · intro t state input hstate
    exact (DirectTranscriptionConstraint.DoEval_eq_of_sameUnwritten cj xj integrator
      { integrator with
        context := integrator.context.withHistory cj.input_port_value_ t state input }
      rfl hmode
      (Context.sameUnwritten_withHistory integrator.context cj.input_port_value_ t state input
        hstate)).symm
  · intro hshare hres
    have hsame := DirectTranscriptionConstraint.DoEval_context_sameUnwritten ci xi integrator hres
    rw [hshare] at hsame
    exact (DirectTranscriptionConstraint.DoEval_eq_of_sameUnwritten cj xj integrator _
      (DirectTranscriptionConstraint.DoEval_system ci xi integrator).symm hmode hsame).symm

/-- Witness for C21: on the shared integrator of the continuous scenario, evaluating
the constraint at `[0, 1, 9/10]` and then at `[0, 2, 1]` returns for the second
what evaluating it alone returns. -/
theorem DoEval_history_independent_witness :
    (scenario.continuousConstraint.DoEval [0, 2, 1]
        (scenario.continuousConstraint.DoEval [0, 1, 9 / 10] scenario.continuousIntegrator).1).2 =
      (scenario.continuousConstraint.DoEval [0, 2, 1] scenario.continuousIntegrator).2 :=
  (DoEval_history_independent scenario.continuousConstraint scenario.continuousConstraint
    [0, 2, 1] [0, 1, 9 / 10] scenario.continuousIntegrator (Or.inr rfl)).2.2 rfl
    (fun _ => by
      simp [DirectTranscriptionConstraint.DoEval, DirectTranscriptionConstraint.writeTimeAndInput,
        DirectTranscriptionConstraint.state, DirectTranscriptionConstraint.input,
        scenario.continuousConstraint, scenario.continuousIntegrator,
        scenario.continuousSystemOn, scenario.decayDerivatives, scenario.inputValue,
        Context.num_input_ports, Context.has_only_continuous_state,
        Context.num_continuous_states, Context.num_discrete_state_groups, Context.FixValue,
        Context.SetTime, Context.SetContinuousState,
        IntegratorBase.IntegrateWithSingleFixedStepToTime, DRAKE_THROW_UNLESS])

/-! ### The two transcription paths encode the same constraint -/

namespace DirectTranscriptionConstraint

/-- The residual of an evaluation in discrete mode. -/
theorem DoEval_residual_discrete [Ring T] [RatCast T] (c : DirectTranscriptionConstraint)
    (integrator : IntegratorBase T) (input state next_state : List T)
    (hi : input.length = c.num_inputs_) (hs : state.length = c.num_states_)
    (hn : next_state.length = c.num_states_)
    (hmode : integrator.context.has_only_discrete_state = true)
    (hhandle : integrator.context.num_input_ports = 0 ∨ c.input_port_value_.isSome = true)
    (hgroup : integrator.system.EvalUniquePeriodicDiscreteUpdate
      (AdvanceContext true integrator.context (c.writtenPort integrator.context)
        c.evaluation_time_ state input) ≠ []) :
    (c.DoEval (input ++ state ++ next_state) integrator).2 =
      .ok (List.zipWith (fun a b => a - b) next_state
        (OneStepAdvance integrator.system true c.fixed_time_step_ integrator.context
          (c.writtenPort integrator.context) c.evaluation_time_ state input)) := by
  obtain ⟨hd, -, ctx, hctx, hcc⟩ := DirectTranscriptionConstraint.writeTimeAndInput_advance c
    (input ++ state ++ next_state) integrator.context hhandle
  have hd2 := hd state
  rw [hctx, DirectTranscriptionConstraint.input_stacked c _ _ _ hi] at hd2
  simp only [Except.map, Except.ok.injEq] at hd2
  rw [Context.not_continuous_of_discrete _ hmode] at hcc
  obtain ⟨v, rest, hv⟩ := List.exists_cons_of_ne_nil hgroup
  have hadv : OneStepAdvance integrator.system true c.fixed_time_step_ integrator.context
      (c.writtenPort integrator.context) c.evaluation_time_ state input = v := by
    simp only [OneStepAdvance, if_true]
    rw [hv]
    rfl
  rw [hadv]
  unfold DirectTranscriptionConstraint.DoEval
  rw [hctx]
  simp only [hcc, Bool.false_eq_true, if_false,
    DirectTranscriptionConstraint.state_stacked c _ _ _ hi hs,
    DirectTranscriptionConstraint.next_state_stacked c _ _ _ hn, hd2, hv,
    DiscreteValues.get_vector, List.get?_cons_zero]

/-- The residual of an evaluation in continuous mode, on rational values: the
state after one Euler step of size `(t ⊕ h) - t`. -/
theorem DoEval_residual_continuous (c : DirectTranscriptionConstraint)
    (integrator : IntegratorBase ℚ) (input state next_state : List ℚ)
    (hi : input.length = c.num_inputs_) (hs : state.length = c.num_states_)
    (hn : next_state.length = c.num_states_)
    (hmode : integrator.context.has_only_continuous_state = true)
    (hhandle : integrator.context.num_input_ports = 0 ∨ c.input_port_value_.isSome = true) :
    (c.DoEval (input ++ state ++ next_state) integrator).2 =
      .ok (List.zipWith (fun a b => a - b) next_state
        (OneStepAdvance integrator.system false
          (binary64.add c.evaluation_time_ c.fixed_time_step_ - c.evaluation_time_)
          integrator.context (c.writtenPort integrator.context) c.evaluation_time_ state
          input)) := by
  rw [(DirectTranscriptionConstraint.DoEval_continuous_eq c integrator input state next_state
    hi hs hn hmode hhandle).1]
  simp only [OneStepAdvance, Bool.false_eq_true, if_false, Rat.cast_id]

end DirectTranscriptionConstraint

namespace DirectTranscription

/-- The equalities registered by a symbolic fast path that returns `true`. -/
theorem AddSymbolicDynamicConstraints_true_advance (self result : DirectTranscription T)
    (system : DoubleSystem T) (context : Context ℚ) (input_port_index : InputPortChoice)
    (h : self.AddSymbolicDynamicConstraints system context input_port_index =
      (result, .ok true)) :
    ∃ symbolic_system input_port,
      system.ToSymbolicMaybe = some symbolic_system ∧
      symbolic_system.get_input_port_selection input_port_index = .ok input_port ∧
      result = self.withProg { self.prog with
        linear_equality_constraints := self.prog.linear_equality_constraints ++
          (List.range (self.N - 1)).map (fun i =>
            ⟨castVars (self.state (i + 1)),
              OneStepAdvance symbolic_system self.discrete_time_system_
                (binary64.mul ((i + 1 : Nat) : ℚ) self.fixed_time_step -
                  binary64.mul (i : ℚ) self.fixed_time_step)
                (symbolic_system.CreateDefaultContext.SetTimeStateAndParametersFrom context)
                (input_port.map Prod.fst) (binary64.mul (i : ℚ) self.fixed_time_step)
                (castVars (self.state i)) (castVars (self.input i))⟩) } := by
  unfold DirectTranscription.AddSymbolicDynamicConstraints at h
  rcases hsym : system.ToSymbolicMaybe with _ | symbolic_system
  · rw [hsym] at h; simp at h
  · rw [hsym] at h
    simp only at h
    split at h
    · simp at h
    · rcases hsel : symbolic_system.get_input_port_selection input_port_index with _ | input_port
      · rw [hsel] at h; simp at h
      · rw [hsel] at h
        simp only at h
        have hloop := DirectTranscription.symbolicLoop_true symbolic_system input_port _ _ _ _ _
          rfl h
        refine ⟨symbolic_system, input_port, rfl, hsel, ?_⟩
        rw [hloop, List.range_eq_range']
        rfl

theorem autodiffLoop_first_create (a : Nat) (k i : Nat) (self result : DirectTranscription T)
    (h : autodiffLoop a (k + 1) i self = .ok result) :
    ∃ c, DirectTranscriptionConstraint.create self.heap a self.input_port_value_
      self.num_states self.num_inputs (binary64.mul (i : ℚ) self.fixed_time_step)
        self.fixed_time_step =
        .ok c := by
  rw [autodiffLoop] at h
  split at h
  · simp at h
  · rename_i c hc
    exact ⟨c, hc⟩

/-- What a successful `AddAutodiffDynamicConstraints` leaves in the builder: the
shared integrator and its context, the handle, and the constraints. -/
theorem AddAutodiffDynamicConstraints_heap [RatCast T] [Zero T]
    (self result : DirectTranscription T) (system : DoubleSystem T) (context : Context ℚ)
    (input_port_index : InputPortChoice)
    (h : self.AddAutodiffDynamicConstraints system context input_port_index = .ok result) :
    ∃ (system_ : System T) (input_port : Option (Nat × InputPort)) (context_ : Context T)
      (handle : Option Nat),
      system.ToAutoDiffXd = some system_ ∧
      system_.get_input_port_selection input_port_index = .ok input_port ∧
      fixInputPort self.input_port_value_
        (system_.CreateDefaultContext.SetTimeStateAndParametersFrom context) input_port =
          .ok (context_, handle) ∧
      result.heap = self.heap ++
        [{ system := system_, max_step_size := self.fixed_time_step, context := context_,
           initialized := true }] ∧
      result.prog.generic_constraints = self.prog.generic_constraints ++
        (List.range (self.N - 1)).map (fun i =>
          ⟨{ integrator_ := self.heap.length
             input_port_value_ := handle
             num_states_ := self.num_states
             num_inputs_ := self.num_inputs
             evaluation_time_ := binary64.mul (i : ℚ) self.fixed_time_step
             fixed_time_step_ := self.fixed_time_step },
            self.input i ++ self.state i ++ self.state (i + 1)⟩) ∧
      (0 < self.N - 1 →
        (context_.has_only_discrete_state = true ∨ context_.has_only_continuous_state = true) ∧
        (context_.num_input_ports = 0 ∨ handle.isSome = true)) := by
  unfold AddAutodiffDynamicConstraints at h
  rcases hsys : system.ToAutoDiffXd with _ | system_
  · rw [hsys] at h; simp at h
  · rw [hsys] at h
    simp only at h
    rcases hsel : system_.get_input_port_selection input_port_index with _ | input_port
    · rw [hsel] at h; simp at h
    · rw [hsel] at h
      simp only at h
      rcases hfix : fixInputPort self.input_port_value_
          (system_.CreateDefaultContext.SetTimeStateAndParametersFrom context) input_port with
        _ | ⟨context_, handle⟩
      · rw [hfix] at h; simp at h
      · rw [hfix] at h
        simp only at h
        refine ⟨system_, input_port, context_, handle, rfl, hsel, hfix, ?_, ?_, ?_⟩
        · rw [autodiffLoop_of_ok _ _ _ _ _ h]
          rfl
        · rw [autodiffLoop_of_ok _ _ _ _ _ h, List.range_eq_range']
          rfl
        · intro hN
          obtain ⟨k, hk⟩ : ∃ k, self.N - 1 = k + 1 := ⟨self.N - 2, by omega⟩
          rw [hk] at h
          obtain ⟨c, hc⟩ := autodiffLoop_first_create _ _ _ _ _ h
          obtain ⟨-, pointee, hp, h1, h2, -⟩ :=
            (DirectTranscriptionConstraint.create_isOk_iff _ _ _ _ _ _ _).1 ⟨c, hc⟩
          simp only [List.get?_eq_getElem?, List.getElem?_concat_length, Option.some.injEq] at hp
          subst hp
          exact ⟨h1, h2⟩

end DirectTranscription

theorem OneStepAdvance_congr_context {U : Type} [Add U] [Mul U] [RatCast U] (system : System U)
    (d : Bool) (h : ℚ) (c1 c2 : Context U) (p1 p2 : Option Nat) (t : ℚ) (x u : List U)
    (hadv : AdvanceContext d c1 p1 t x u = AdvanceContext d c2 p2 t x u) :
    OneStepAdvance system d h c1 p1 t x u = OneStepAdvance system d h c2 p2 t x u := by
  cases d
  · simp only [OneStepAdvance, Bool.false_eq_true, if_false, hadv]
  · simp only [OneStepAdvance, if_true, hadv]

/-- The context in which an evaluation computes the dynamics, from the context the
autodiff path builds (input port fixed to zeros), is the context of the one-step
advance from the context before the port was fixed. -/
theorem AdvanceContext_fixInputPort {U : Type} [RatCast U] [Zero U] (context context_ : Context U)
    (input_port : Option (Nat × InputPort)) (handle : Option Nat)
    (hfix : DirectTranscription.fixInputPort none context input_port = .ok (context_, handle))
    (c : DirectTranscriptionConstraint) (hc : c.input_port_value_ = handle) :
    context_.has_only_continuous_state = context.has_only_continuous_state ∧
    context_.has_only_discrete_state = context.has_only_discrete_state ∧
    ∀ (d : Bool) (t : ℚ) (x u : List U),
      AdvanceContext d context_ (c.writtenPort context_) t x u =
        AdvanceContext d context (input_port.map Prod.fst) t x u := by
  unfold DirectTranscription.fixInputPort at hfix
  cases input_port with
  | none =>
    simp only [Except.ok.injEq, Prod.mk.injEq] at hfix
    obtain ⟨h1, h2⟩ := hfix
    subst h1
    refine ⟨rfl, rfl, ?_⟩
    intro d t x u
    simp [DirectTranscriptionConstraint.writtenPort, hc, ← h2]
  | some port =>
    simp only at hfix
    split at hfix
    · simp at hfix
    · simp only [Except.ok.injEq, Prod.mk.injEq] at hfix
      obtain ⟨h1, h2⟩ := hfix
      subst h1
      refine ⟨rfl, rfl, ?_⟩
      intro d t x u
      simp only [DirectTranscriptionConstraint.writtenPort, hc, ← h2, Option.map_some']
      by_cases hports : 0 < context.num_input_ports
      · have hp : 0 < (context.FixValue port.1 (List.replicate port.2.size 0)).num_input_ports := by
          simpa [Context.num_input_ports, Context.FixValue] using hports
        simp only [hp, if_true]
        cases d <;>
          simp [AdvanceContext, Context.FixValue, Context.SetTime, Context.SetContinuousState,
            Context.SetDiscreteState, List.set_set]
      · have hp : ¬ 0 < (context.FixValue port.1 (List.replicate port.2.size 0)).num_input_ports := by
          simpa [Context.num_input_ports, Context.FixValue] using hports
        have hnil : context.fixed_input_port_values = [] :=
          List.length_eq_zero.mp (by simpa [Context.num_input_ports] using hports)
        simp only [hp, if_false]
        cases d <;>
          simp [AdvanceContext, Context.FixValue, Context.SetTime, Context.SetContinuousState,
            Context.SetDiscreteState, hnil]

theorem MultipleShooting.state_length (ms : MultipleShooting) (i : Nat) :
    (ms.state i).length = ms.num_states := by
  simp [MultipleShooting.state]

theorem MultipleShooting.input_length (ms : MultipleShooting) (i : Nat) :
    (ms.input i).length = ms.num_inputs := by
  simp [MultipleShooting.input]

theorem List.getElem?_append_map_range {α : Type} (l : List α) (f : Nat → α) (n i : Nat)
    (hi : i < n) : (l ++ (List.range n).map f)[l.length + i]? = some (f i) := by
  rw [List.getElem?_append_right (Nat.le_add_right _ _), Nat.add_sub_cancel_left,
    List.getElem?_map, List.getElem?_range hi]
  rfl

/-- C22 (amended): the two transcription paths against each other. For a builder right
after the base constructor (no handle yet) whose time grid stays within the
finite range of `double`, a system whose symbolic counterpart is its scalar
conversion with the same input ports and whose autodiff values are the system's
own, and a context whose kind of state is the builder's mode: when the symbolic
path returns `true` and the autodiff path completes, then for every interval
`i < N - 1` and every values `env` of the decision variables, the `i`-th equality
of the symbolic path and the `i`-th constraint of the autodiff path (bound to
`[input(i), state(i), state(i+1)]`, on the shared integrator) evaluate the
system's one-step advance at the same time `t_i`, the double product
`i * fixed_time_step`: the right-hand side of the equality evaluates to the
advance with step `t_(i+1) - t_i` (the difference of two double products), the
residual is `state(i+1)` minus the advance with step `(t_i ⊕ h) - t_i` (`⊕` the
double sum, `h` the fixed time step). In discrete mode, where the advance does
not depend on the step, and in continuous mode whenever the two target times
`t_(i+1)` and `t_i ⊕ h` are the same double, the two advances are equal and, the
advance having `num_states` entries, the equality holds exactly when the
residual is the zero vector; the common step is `h` when the two products are
exact. -/
theorem two_paths_encode_same_constraint (self r1 r2 : DirectTranscription ℚ)
    (system : DoubleSystem ℚ) (context : Context ℚ) (input_port_index : InputPortChoice)
    (symbolic_system : System Expression)
    (hsym : system.ToSymbolicMaybe = some symbolic_system)
    (hcp : IsSymbolicCounterpart symbolic_system system.toSystem)
    (hports : symbolic_system.input_ports = system.input_ports)
    (had : system.ToAutoDiffXd = some system.toSystem)
    (hfresh : self.input_port_value_ = none)
    (hmode : (system.CreateDefaultContext.SetTimeStateAndParametersFrom
      context).has_only_continuous_state = !self.discrete_time_system_)
    (hgrp : self.discrete_time_system_ = true →
      ∀ c, system.EvalUniquePeriodicDiscreteUpdate c ≠ [])
    (_hrange : |(self.N : ℚ) * self.fixed_time_step| ≤ binary64.maxFinite)
    (hsymb : self.AddSymbolicDynamicConstraints system context input_port_index =
      (r1, .ok true))
    (hauto : self.AddAutodiffDynamicConstraints system context input_port_index = .ok r2)
    (i : Nat) (hi : i < self.N - 1) (env : Variable → ℚ) :
    ∃ (equality : LinearEqualityConstraint) (binding : Binding)
      (integrator : IntegratorBase ℚ) (input_port : Option (Nat × InputPort)),
      system.get_input_port_selection input_port_index = .ok input_port ∧
      r1.prog.linear_equality_constraints[self.prog.linear_equality_constraints.length + i]? =
        some equality ∧
      r2.prog.generic_constraints[self.prog.generic_constraints.length + i]? = some binding ∧
      r2.heap.get? binding.evaluator.integrator_ = some integrator ∧
      binding.vars = self.input i ++ self.state i ++ self.state (i + 1) ∧
      binding.evaluator.evaluation_time_ = binary64.mul (i : ℚ) self.fixed_time_step ∧
      binding.evaluator.fixed_time_step_ = self.fixed_time_step ∧
      equality.lhs = castVars (self.state (i + 1)) ∧
      EvaluateVec env equality.rhs =
        OneStepAdvance system.toSystem self.discrete_time_system_
          (binary64.mul ((i + 1 : Nat) : ℚ) self.fixed_time_step -
            binary64.mul (i : ℚ) self.fixed_time_step)
          (system.CreateDefaultContext.SetTimeStateAndParametersFrom context)
          (input_port.map Prod.fst) (binary64.mul (i : ℚ) self.fixed_time_step)
          ((self.state i).map env) ((self.input i).map env) ∧
      (binding.evaluator.DoEval (binding.vars.map env) integrator).2 =
        .ok (List.zipWith (fun a b => a - b) ((self.state (i + 1)).map env)
          (OneStepAdvance system.toSystem self.discrete_time_system_
            (binary64.add (binary64.mul (i : ℚ) self.fixed_time_step) self.fixed_time_step -
              binary64.mul (i : ℚ) self.fixed_time_step)
            (system.CreateDefaultContext.SetTimeStateAndParametersFrom context)
            (input_port.map Prod.fst) (binary64.mul (i : ℚ) self.fixed_time_step)
            ((self.state i).map env) ((self.input i).map env))) ∧
      ((self.discrete_time_system_ = true ∨
          binary64.mul ((i + 1 : Nat) : ℚ) self.fixed_time_step =
            binary64.add (binary64.mul (i : ℚ) self.fixed_time_step) self.fixed_time_step) →
        OneStepAdvance system.toSystem self.discrete_time_system_
            (binary64.add (binary64.mul (i : ℚ) self.fixed_time_step) self.fixed_time_step -
              binary64.mul (i : ℚ) self.fixed_time_step)
            (system.CreateDefaultContext.SetTimeStateAndParametersFrom context)
            (input_port.map Prod.fst) (binary64.mul (i : ℚ) self.fixed_time_step)
            ((self.state i).map env) ((self.input i).map env) =
          OneStepAdvance system.toSystem self.discrete_time_system_
            (binary64.mul ((i + 1 : Nat) : ℚ) self.fixed_time_step -
              binary64.mul (i : ℚ) self.fixed_time_step)
            (system.CreateDefaultContext.SetTimeStateAndParametersFrom context)
            (input_port.map Prod.fst) (binary64.mul (i : ℚ) self.fixed_time_step)
            ((self.state i).map env) ((self.input i).map env) ∧
        ((OneStepAdvance system.toSystem self.discrete_time_system_
              (binary64.mul ((i + 1 : Nat) : ℚ) self.fixed_time_step -
                binary64.mul (i : ℚ) self.fixed_time_step)
              (system.CreateDefaultContext.SetTimeStateAndParametersFrom context)
              (input_port.map Prod.fst) (binary64.mul (i : ℚ) self.fixed_time_step)
              ((self.state i).map env) ((self.input i).map env)).length = self.num_states →
          (equality.Holds env ↔
            (binding.evaluator.DoEval (binding.vars.map env) integrator).2 =
              .ok (List.replicate self.num_states 0)))) ∧
      (binary64.mul ((i + 1 : Nat) : ℚ) self.fixed_time_step =
          ((i + 1 : Nat) : ℚ) * self.fixed_time_step →
        binary64.mul (i : ℚ) self.fixed_time_step = (i : ℚ) * self.fixed_time_step →
        binary64.mul ((i + 1 : Nat) : ℚ) self.fixed_time_step -
          binary64.mul (i : ℚ) self.fixed_time_step = self.fixed_time_step) := by
  -- the symbolic path
  obtain ⟨sym, ip, hsym2, hsel, hr1⟩ :=
    DirectTranscription.AddSymbolicDynamicConstraints_true_advance self r1 system context
      input_port_index hsymb
  rw [hsym] at hsym2
  cases hsym2
  -- the autodiff path
  obtain ⟨system_, ip2, context_, handle, had2, hsel2, hfix, hheap, hgen, hdem⟩ :=
    DirectTranscription.AddAutodiffDynamicConstraints_heap self r2 system context
      input_port_index hauto
  rw [had] at had2
  cases had2
  have hip : ip2 = ip := by
    rw [← System.get_input_port_selection_congr symbolic_system system.toSystem hports
      input_port_index, hsel] at hsel2
    simpa using hsel2.symm
  subst hip
  rw [hfresh] at hfix
  obtain ⟨hstate, hhandle⟩ := hdem (by omega)
  -- the objects of interval `i`
  refine ⟨⟨castVars (self.state (i + 1)),
      OneStepAdvance symbolic_system self.discrete_time_system_
        (binary64.mul ((i + 1 : Nat) : ℚ) self.fixed_time_step -
          binary64.mul (i : ℚ) self.fixed_time_step)
        (symbolic_system.CreateDefaultContext.SetTimeStateAndParametersFrom context)
        (ip2.map Prod.fst) (binary64.mul (i : ℚ) self.fixed_time_step)
        (castVars (self.state i)) (castVars (self.input i))⟩,
    ⟨{ integrator_ := self.heap.length
       input_port_value_ := handle
       num_states_ := self.num_states
       num_inputs_ := self.num_inputs
       evaluation_time_ := binary64.mul (i : ℚ) self.fixed_time_step
       fixed_time_step_ := self.fixed_time_step },
      self.input i ++ self.state i ++ self.state (i + 1)⟩,
    { system := system.toSystem, max_step_size := self.fixed_time_step, context := context_,
      initialized := true },
    ip2, hsel2, ?_, ?_, ?_, rfl, rfl, rfl, rfl, ?_⟩
  · rw [hr1]
    exact List.getElem?_append_map_range _ _ _ _ hi
  · rw [hgen]
    exact List.getElem?_append_map_range _ _ _ _ hi
  · rw [hheap]
    simp [List.get?_eq_getElem?]
  · have hrhs : EvaluateVec env
        (OneStepAdvance symbolic_system self.discrete_time_system_
          (binary64.mul ((i + 1 : Nat) : ℚ) self.fixed_time_step -
            binary64.mul (i : ℚ) self.fixed_time_step)
          (symbolic_system.CreateDefaultContext.SetTimeStateAndParametersFrom context)
          (ip2.map Prod.fst) (binary64.mul (i : ℚ) self.fixed_time_step)
          (castVars (self.state i)) (castVars (self.input i))) =
        OneStepAdvance system.toSystem self.discrete_time_system_
          (binary64.mul ((i + 1 : Nat) : ℚ) self.fixed_time_step -
            binary64.mul (i : ℚ) self.fixed_time_step)
          (system.CreateDefaultContext.SetTimeStateAndParametersFrom context) (ip2.map Prod.fst)
          (binary64.mul (i : ℚ) self.fixed_time_step) ((self.state i).map env)
          ((self.input i).map env) := by
      rw [OneStepAdvance_Evaluate _ _ hcp, Context.Evaluate_SetTimeStateAndParametersFrom, hcp.1,
        EvaluateVec_castVars, EvaluateVec_castVars]
    obtain ⟨hfc, hfd, hadv⟩ := AdvanceContext_fixInputPort
      (system.CreateDefaultContext.SetTimeStateAndParametersFrom context) context_ ip2 handle hfix
      { integrator_ := self.heap.length
        input_port_value_ := handle
        num_states_ := self.num_states
        num_inputs_ := self.num_inputs
        evaluation_time_ := binary64.mul (i : ℚ) self.fixed_time_step
        fixed_time_step_ := self.fixed_time_step } rfl
    have hres : (DirectTranscriptionConstraint.DoEval
          { integrator_ := self.heap.length
            input_port_value_ := handle
            num_states_ := self.num_states
            num_inputs_ := self.num_inputs
            evaluation_time_ := binary64.mul (i : ℚ) self.fixed_time_step
            fixed_time_step_ := self.fixed_time_step }
          ((self.input i ++ self.state i ++ self.state (i + 1)).map env)
          { system := system.toSystem, max_step_size := self.fixed_time_step,
            context := context_, initialized := true }).2 =
        .ok (List.zipWith (fun a b => a - b) ((self.state (i + 1)).map env)
          (OneStepAdvance system.toSystem self.discrete_time_system_
            (binary64.add (binary64.mul (i : ℚ) self.fixed_time_step) self.fixed_time_step -
              binary64.mul (i : ℚ) self.fixed_time_step)
            (system.CreateDefaultContext.SetTimeStateAndParametersFrom context)
            (ip2.map Prod.fst) (binary64.mul (i : ℚ) self.fixed_time_step)
            ((self.state i).map env) ((self.input i).map env))) := by
      rw [List.map_append, List.map_append]
      cases hd : self.discrete_time_system_
      · rw [hd] at hmode
        have hc : context_.has_only_continuous_state = true := by rw [hfc, hmode]; rfl
        rw [DirectTranscriptionConstraint.DoEval_residual_continuous _ _ _ _ _
          (by simp [MultipleShooting.input_length]) (by simp [MultipleShooting.state_length])
          (by simp [MultipleShooting.state_length]) hc hhandle]
        simp only
        rw [OneStepAdvance_congr_context _ _ _ _ _ _ _ _ _ _ (hadv false _ _ _)]
      · rw [hd] at hmode
        have hc : context_.has_only_continuous_state = false := by rw [hfc, hmode]; rfl
        have hdisc : context_.has_only_discrete_state = true := by
          rcases hstate with h | h
          · exact h
          · rw [hc] at h; exact absurd h (by simp)
        rw [DirectTranscriptionConstraint.DoEval_residual_discrete _ _ _ _ _
          (by simp [MultipleShooting.input_length]) (by simp [MultipleShooting.state_length])
          (by simp [MultipleShooting.state_length]) hdisc hhandle (hgrp hd _)]
        simp only
        rw [OneStepAdvance_congr_context _ _ _ _ _ _ _ _ _ _ (hadv true _ _ _)]
        rfl
    refine ⟨hrhs, hres, ?_, ?_⟩
    · intro hsame
      have hadvances : OneStepAdvance system.toSystem self.discrete_time_system_
            (binary64.add (binary64.mul (i : ℚ) self.fixed_time_step) self.fixed_time_step -
              binary64.mul (i : ℚ) self.fixed_time_step)
            (system.CreateDefaultContext.SetTimeStateAndParametersFrom context)
            (ip2.map Prod.fst) (binary64.mul (i : ℚ) self.fixed_time_step)
            ((self.state i).map env) ((self.input i).map env) =
          OneStepAdvance system.toSystem self.discrete_time_system_
            (binary64.mul ((i + 1 : Nat) : ℚ) self.fixed_time_step -
              binary64.mul (i : ℚ) self.fixed_time_step)
            (system.CreateDefaultContext.SetTimeStateAndParametersFrom context)
            (ip2.map Prod.fst) (binary64.mul (i : ℚ) self.fixed_time_step)
            ((self.state i).map env) ((self.input i).map env) := by
        rcases hsame with hd | htarget
        · rw [hd]
          rfl
        · rw [htarget]
      refine ⟨hadvances, ?_⟩
      intro hlen
      rw [hres, hadvances]
      unfold LinearEqualityConstraint.Holds
      simp only [hrhs, EvaluateVec_castVars, Except.ok.injEq]
      exact (zipWith_sub_eq_zero_iff self.num_states _ _
        (by simp [MultipleShooting.state_length]) hlen).symm
    · intro h1 h0
      rw [h1, h0]
      push_cast
      ring

/-- Counterexample to C22 as stated: the continuous scenario `xdot = -x + u` with
fixed step `h = 0.1` and `N = 7`, interval 5, at `state(5) = 0`, `input(5) = 1`,
`state(6) = 0.6000000000000001 - 0.5`. The symbolic path steps from
`5 * h = 0.5` to `6 * h = 0.6000000000000001`, the autodiff path from `0.5` to
`0.5 + h = 0.6`: the equality of the symbolic path holds, and the residual of
the autodiff constraint is `2^-53`, not zero; neither step is `h`, and both are
doubles, so the subtractions that give them are exact. -/
theorem two_paths_differ_counterexample :
    binary64.round scenario.tenth = scenario.tenth ∧
      binary64.mul 5 scenario.tenth = 1 / 2 ∧
      binary64.mul 6 scenario.tenth = 5404319552844596 / 9007199254740992 ∧
      binary64.add (1 / 2) scenario.tenth = 5404319552844595 / 9007199254740992 ∧
      binary64.mul 6 scenario.tenth - binary64.mul 5 scenario.tenth ≠ scenario.tenth ∧
      binary64.add (1 / 2) scenario.tenth - 1 / 2 ≠ scenario.tenth ∧
      binary64.round (binary64.mul 6 scenario.tenth - binary64.mul 5 scenario.tenth) =
        binary64.mul 6 scenario.tenth - binary64.mul 5 scenario.tenth ∧
      binary64.round (binary64.add (1 / 2) scenario.tenth - 1 / 2) =
        binary64.add (1 / 2) scenario.tenth - 1 / 2 ∧
      (scenario.tenthBuilder.AddSymbolicDynamicConstraints (scenario.continuousSystem true)
        (scenario.continuousSystemOn ℚ).CreateDefaultContext scenario.firstInput).2 = .ok true ∧
      ∃ (r2 : DirectTranscription ℚ) (equality : LinearEqualityConstraint) (binding : Binding)
        (integrator : IntegratorBase ℚ),
        scenario.tenthBuilder.AddAutodiffDynamicConstraints (scenario.continuousSystem true)
          (scenario.continuousSystemOn ℚ).CreateDefaultContext scenario.firstInput = .ok r2 ∧
        (scenario.tenthBuilder.AddSymbolicDynamicConstraints (scenario.continuousSystem true)
          (scenario.continuousSystemOn ℚ).CreateDefaultContext
          scenario.firstInput).1.prog.linear_equality_constraints[5]? = some equality ∧
        r2.prog.generic_constraints[5]? = some binding ∧
        r2.heap.get? binding.evaluator.integrator_ = some integrator ∧
        binding.vars = [Variable.u 5, Variable.x 5, Variable.x 6] ∧
        equality.Holds scenario.intervalFiveValues ∧
        (binding.evaluator.DoEval (binding.vars.map scenario.intervalFiveValues) integrator).2 =
          .ok [1 / 2 ^ 53] := by
  refine ⟨by decide!, by decide!, by decide!, by decide!, by decide!, by decide!, by decide!,
    by decide!, by decide!, ?_⟩
  have h1 : ((scenario.tenthBuilder.AddSymbolicDynamicConstraints (scenario.continuousSystem true)
      (scenario.continuousSystemOn ℚ).CreateDefaultContext
      scenario.firstInput).1.prog.linear_equality_constraints[5]?).map
        (fun e => decide (e.Holds scenario.intervalFiveValues)) = some true := by decide!
  have h2 : (scenario.tenthBuilder.AddAutodiffDynamicConstraints (scenario.continuousSystem true)
      (scenario.continuousSystemOn ℚ).CreateDefaultContext scenario.firstInput).map
        (fun r2 => (r2.prog.generic_constraints[5]?).bind fun b =>
          (r2.heap.get? b.evaluator.integrator_).map fun integ =>
            (b.vars, (b.evaluator.DoEval (b.vars.map scenario.intervalFiveValues) integ).2)) =
      .ok (some ([Variable.u 5, Variable.x 5, Variable.x 6], .ok [1 / 2 ^ 53])) := by decide!
  cases hr : scenario.tenthBuilder.AddAutodiffDynamicConstraints (scenario.continuousSystem true)
      (scenario.continuousSystemOn ℚ).CreateDefaultContext scenario.firstInput with
  | error e => rw [hr] at h2; simp [Except.map] at h2
  | ok r2 =>
    rw [hr] at h2
    simp only [Except.map, Except.ok.injEq] at h2
    cases he : (scenario.tenthBuilder.AddSymbolicDynamicConstraints
        (scenario.continuousSystem true) (scenario.continuousSystemOn ℚ).CreateDefaultContext
        scenario.firstInput).1.prog.linear_equality_constraints[5]? with
    | none => rw [he] at h1; simp at h1
    | some equality =>
      rw [he] at h1
      simp only [Option.map_some', Option.some.injEq, decide_eq_true_eq] at h1
      cases hb : r2.prog.generic_constraints[5]? with
      | none => rw [hb] at h2; simp at h2
      | some binding =>
        rw [hb] at h2
        simp only [Option.some_bind] at h2
        cases hg : r2.heap.get? binding.evaluator.integrator_ with
        | none => rw [hg] at h2; simp at h2
        | some integrator =>
          rw [hg] at h2
          simp only [Option.map_some', Option.some.injEq, Prod.mk.injEq] at h2
          exact ⟨r2, equality, binding, integrator, rfl, rfl, hb, hg, h2.1, h1, h2.2⟩

/-- Witness for C22: the discrete scenario (`N = 5`) at the trajectory
`x[k] = (1/2)^k`, `u[k] = 0`, interval 0, and the continuous scenario with step
`0.1` (`N = 7`) at `state(0) = 1`, `input(0) = 0`, `state(1) = 1 - 0.1`, interval 0,
where both paths step from 0 to `0.1`: the first equality of the symbolic path
holds and the residual of the first constraint of the autodiff path is zero. -/
theorem two_paths_encode_same_constraint_witness :
    (∃ (r2 : DirectTranscription ℚ) (equality : LinearEqualityConstraint) (binding : Binding)
      (integrator : IntegratorBase ℚ),
      scenario.discreteBuilder.AddAutodiffDynamicConstraints (scenario.discreteSystem true)
        (scenario.discreteSystemOn ℚ).CreateDefaultContext scenario.firstInput = .ok r2 ∧
      (scenario.discreteBuilder.AddSymbolicDynamicConstraints (scenario.discreteSystem true)
        (scenario.discreteSystemOn ℚ).CreateDefaultContext
        scenario.firstInput).1.prog.linear_equality_constraints[0]? = some equality ∧
      r2.prog.generic_constraints[0]? = some binding ∧
      r2.heap.get? binding.evaluator.integrator_ = some integrator ∧
      equality.Holds scenario.halving ∧
      (binding.evaluator.DoEval (binding.vars.map scenario.halving) integrator).2 =
        .ok (List.replicate 1 0)) ∧
    (∃ (r2 : DirectTranscription ℚ) (equality : LinearEqualityConstraint) (binding : Binding)
      (integrator : IntegratorBase ℚ),
      scenario.tenthBuilder.AddAutodiffDynamicConstraints (scenario.continuousSystem true)
        (scenario.continuousSystemOn ℚ).CreateDefaultContext scenario.firstInput = .ok r2 ∧
      (scenario.tenthBuilder.AddSymbolicDynamicConstraints (scenario.continuousSystem true)
        (scenario.continuousSystemOn ℚ).CreateDefaultContext
        scenario.firstInput).1.prog.linear_equality_constraints[0]? = some equality ∧
      r2.prog.generic_constraints[0]? = some binding ∧
      r2.heap.get? binding.evaluator.integrator_ = some integrator ∧
      equality.Holds scenario.decayValues ∧
      (binding.evaluator.DoEval (binding.vars.map scenario.decayValues) integrator).2 =
        .ok (List.replicate 1 0)) := by
  refine ⟨?_, ?_⟩
  swap
  · have htrue : (scenario.tenthBuilder.AddSymbolicDynamicConstraints
        (scenario.continuousSystem true) (scenario.continuousSystemOn ℚ).CreateDefaultContext
        scenario.firstInput).2 = .ok true := by decide!
    obtain ⟨r2, -, hr2, -⟩ := DirectTranscription.AddAutodiffDynamicConstraints_ok
      scenario.tenthBuilder (scenario.continuousSystem true)
      (scenario.continuousSystemOn ℚ).CreateDefaultContext scenario.firstInput
      (scenario.continuousSystemOn ℚ) (some (0, ⟨PortDataType.kVectorValued, 1⟩)) rfl rfl rfl
      (Or.inr rfl) (by decide!)
    obtain ⟨equality, binding, integrator, ip, hsel, h1, h2, h3, -, -, -, hlhs, hrhs, -, hsame,
        -⟩ :=
      two_paths_encode_same_constraint scenario.tenthBuilder
        (scenario.tenthBuilder.AddSymbolicDynamicConstraints (scenario.continuousSystem true)
          (scenario.continuousSystemOn ℚ).CreateDefaultContext scenario.firstInput).1 r2
        (scenario.continuousSystem true) (scenario.continuousSystemOn ℚ).CreateDefaultContext
        scenario.firstInput (scenario.continuousSystemOn Expression) rfl
        scenario.continuous_isSymbolicCounterpart rfl rfl rfl rfl
        (by intro h; cases h)
        (by decide!) (Prod.ext rfl htrue) hr2 0 (by decide) scenario.decayValues
    have hip : ip = some (0, ⟨PortDataType.kVectorValued, 1⟩) := by
      have : (scenario.continuousSystem true).get_input_port_selection scenario.firstInput =
          .ok (some (0, ⟨PortDataType.kVectorValued, 1⟩)) := rfl
      rw [this] at hsel
      simpa using hsel.symm
    subst hip
    obtain ⟨-, hiff⟩ := hsame (Or.inr (by decide!))
    have hholds : equality.Holds scenario.decayValues := by
      unfold LinearEqualityConstraint.Holds
      rw [hrhs, hlhs]
      decide!
    have hlen := hiff (by decide!)
    exact ⟨r2, equality, binding, integrator, hr2, h1, h2, h3, hholds, hlen.1 hholds⟩
  obtain ⟨r2, -, hr2, -⟩ := DirectTranscription.AddAutodiffDynamicConstraints_ok
    scenario.discreteBuilder (scenario.discreteSystem true)
    (scenario.discreteSystemOn ℚ).CreateDefaultContext scenario.firstInput
    (scenario.discreteSystemOn ℚ) (some (0, ⟨PortDataType.kVectorValued, 1⟩)) rfl rfl rfl
    (Or.inl rfl) (by simp [scenario.discreteBuilder, DirectTranscription.ofBase])
  obtain ⟨equality, binding, integrator, ip, hsel, h1, h2, h3, -, -, -, hlhs, hrhs, -, hsame,
      -⟩ :=
    two_paths_encode_same_constraint scenario.discreteBuilder
      (scenario.discreteBuilder.AddSymbolicDynamicConstraints (scenario.discreteSystem true)
        (scenario.discreteSystemOn ℚ).CreateDefaultContext scenario.firstInput).1 r2
      (scenario.discreteSystem true) (scenario.discreteSystemOn ℚ).CreateDefaultContext
      scenario.firstInput (scenario.discreteSystemOn Expression) rfl
      scenario.discrete_isSymbolicCounterpart rfl rfl rfl rfl
      (by
        intro _ c
        simp [scenario.discreteSystem, scenario.discreteSystemOn, scenario.halfUpdate])
      (by decide!) rfl hr2 0 (by decide) scenario.halving
  have hip : ip = some (0, ⟨PortDataType.kVectorValued, 1⟩) := by
    have : (scenario.discreteSystem true).get_input_port_selection scenario.firstInput =
        .ok (some (0, ⟨PortDataType.kVectorValued, 1⟩)) := rfl
    rw [this] at hsel
    simpa using hsel.symm
  subst hip
  obtain ⟨-, hiff⟩ := hsame (Or.inl rfl)
  have hholds : equality.Holds scenario.halving := by
    unfold LinearEqualityConstraint.Holds
    rw [hrhs, hlhs]
    simp [OneStepAdvance, AdvanceContext, scenario.discreteSystem, scenario.discreteSystemOn,
      scenario.halfUpdate, scenario.inputValue, scenario.discreteBuilder,
      DirectTranscription.ofBase, Context.SetTime, Context.FixValue, Context.SetDiscreteState,
      Context.SetTimeStateAndParametersFrom, MultipleShooting.state, MultipleShooting.input,
      scenario.halving, List.range_succ, EvaluateVec, castVars, Expression.Evaluate]
  have hlen := hiff (by
    simp [OneStepAdvance, AdvanceContext, scenario.discreteSystem, scenario.discreteSystemOn,
      scenario.halfUpdate, scenario.inputValue, scenario.discreteBuilder,
      DirectTranscription.ofBase, Context.SetTime, Context.FixValue, Context.SetDiscreteState,
      Context.SetTimeStateAndParametersFrom, MultipleShooting.state, MultipleShooting.input,
      List.range_succ])
  exact ⟨r2, equality, binding, integrator, hr2, h1, h2, h3, hholds, hlen.1 hholds⟩

/-! ### The constructor of the revolute joint -/

namespace multibody

end multibody

end drake
